import Mathlib

/-!
# The synchronisation engine of `index.js`

A shallow embedding of the block walker (`syncBlocks`, `syncRpcBlocks`), of its start
from the checkpoint (`startSync`), of the retry driver (`syncFailedBlocks`) and of the
functions they call.

* The MySQL tables are lists of rows in a `Store`; a statement selects, updates or
  deletes the rows whose key column equals the parameter and `INSERT` appends a row.
  Row ids and timestamps, which the engine never reads, are left out, and column
  equality is string equality.
* The explorer, the RPC daemon and the database server are collaborators of the
  program.  Every request to one of them is appended to `World.trace`, and the answer
  is read from an `Env` at the number of requests made before, so an answer may
  change from one request to the next, and any request may fail.
* An `async` function is a function `M α`: it takes the world and returns either the
  value it resolves with or the value it rejects with, together with the world it left.
* Console output is not modelled.
-/

namespace BitcoinAddress

/-! ## Values -/

/-- A JavaScript value that is a string, `null` or `undefined`. -/
inductive JsStr
  | undefined
  | null
  | str (s : String)
deriving DecidableEq, Repr

/-- Truthiness, `if (v)`: a string other than the empty one. -/
def JsStr.truthy : JsStr → Bool
  | .str s => decide (s ≠ "")
  | _ => false

/-- Conversion to a property key, `String(v)`. -/
def JsStr.toKey : JsStr → String
  | .undefined => "undefined"
  | .null => "null"
  | .str s => s

/-- Truthiness of an element of an address list of the explorer: a string other than
the empty one; `none` is JSON `null`. -/
def truthy : Option String → Bool
  | some s => decide (s ≠ "")
  | none => false

/-- A value that was thrown, or that a promise rejected with. -/
inductive Thrown
  | str (s : String)
  | undefined
  | error (message : String)
deriving DecidableEq, Repr

deriving instance DecidableEq for Except

/-! ## Answers of the explorer and of the daemon -/

/-- An input of a transaction of the explorer's listing. -/
structure TxInput where
  prev_addresses : List (Option String)
deriving DecidableEq, Repr

/-- An output of a transaction of the explorer's listing. -/
structure TxOutput where
  addresses : List (Option String)
deriving DecidableEq, Repr

/-- A transaction of the explorer's listing. -/
structure Tx where
  inputs : List TxInput
  outputs : List TxOutput
deriving DecidableEq, Repr

/-- The `data` member of a page: `list` is `none` when the member is missing or
`null`, and `page_total` is what `parseInt` makes of the member, `none` for `NaN`. -/
structure PageData where
  list : Option (List Tx)
  page_total : Option Int
deriving DecidableEq, Repr

/-- The body of `GET /block/{height}/tx?page=N`. -/
structure PageInfo where
  status : Option String
  data : Option PageData
deriving DecidableEq, Repr

/-- The `data` member of `GET /address/{addr}`. -/
structure BalanceData where
  address : String
  balance : Int
deriving DecidableEq, Repr

/-- The body of `GET /address/{addr}`, and the object `getBlockInfo` builds in its
place when only addresses are synchronised. -/
structure BalanceResponse where
  data : BalanceData
deriving DecidableEq, Repr

/-- An element of the array `getBlockInfo` resolves with. -/
structure BalanceItem where
  address : String
  balance : Int
deriving DecidableEq, Repr

/-- The `scriptPubKey` of an output of `getrawtransaction`. -/
structure ScriptPubKey where
  type : String
  address : JsStr
  hex : JsStr
deriving DecidableEq, Repr

/-! ## The store -/

/-- A row of table `addresses`. -/
structure AddressRow where
  address : String
  balance : Int
  blockNumber : Int
deriving DecidableEq, Repr

/-- A row of table `failed`. -/
structure FailedRow where
  blockNumber : Int
  message : String
deriving DecidableEq, Repr

/-- A row of table `status`. -/
structure StatusRow where
  status_key : String
  status_value : Int
deriving DecidableEq, Repr

/-- The three tables. -/
structure Store where
  addresses : List AddressRow
  failed : List FailedRow
  status : List StatusRow
deriving DecidableEq, Repr

/-- The SQL statements the engine sends, with their parameters. -/
inductive Query
  | selectAddress (address : String)
  | updateAddress (balance blockNumber : Int) (address : String)
  | insertAddress (address : String) (blockNumber balance : Int)
  | insertFailed (blockNumber : Int) (message : String)
  | deleteFailed (blockNumber : Int)
  | selectStatus (tableName key : String)
  | updateStatus (tableName : String) (value : Int) (key : String)
  | insertStatus (tableName key : String) (value : Int)
deriving DecidableEq, Repr

/-- A request to a collaborator. -/
inductive Request
  | blockTx (blockNumber : Int) (page : Nat)
  | balance (address : String)
  | getblockhash (block : Int)
  | getblock (hash : String)
  | getrawtransaction (txHash : String)
  | sql (q : Query)
deriving DecidableEq, Repr

/-- The store and the requests made so far, oldest first. -/
structure World where
  store : Store
  trace : List Request
deriving DecidableEq, Repr

/-- The collaborators and the configuration.  The first argument of an answer is the
number of requests made before it.  `sqlError` is the error the database server
raises for a statement, `none` when the statement runs.  `explorerBalance` is the
balance the explorer reports for the address asked about.  `pubkeyAddress` stands for
`hash160` and `bech32.encode` applied to the `hex` member, `none` when they throw;
`jsonStringify` for `JSON.stringify` on a string. -/
structure Env where
  explorerBlockTx : Nat → Int → Nat → Except Thrown PageInfo
  explorerBalance : Nat → String → Except Thrown Int
  daemonBlockHash : Nat → Int → Except Thrown String
  daemonBlock : Nat → String → Except Thrown (List String)
  daemonRawTransaction : Nat → String → Except Thrown (List ScriptPubKey)
  sqlError : Nat → Query → Option String
  ADDRESS_SYNC_ONLY : Bool
  pubkeyAddress : JsStr → Option String
  jsonStringify : String → String

/-! ## Asynchronous functions -/

/-- An asynchronous function resolving with an `α`. -/
def M (α : Type) : Type := World → Except Thrown α × World

/-- Resolve with a value. -/
def M.pure {α : Type} (a : α) : M α := fun w => (.ok a, w)

/-- Reject with a value (`throw`). -/
def M.throw {α : Type} (e : Thrown) : M α := fun w => (.error e, w)

/-- Sequencing, `await`: a rejection of the first part is a rejection of the whole. -/
def M.bind {α β : Type} (x : M α) (f : α → M β) : M β := fun w =>
  match x w with
  | (.ok a, w') => f a w'
  | (.error e, w') => (.error e, w')

instance : Monad M where
  pure := M.pure
  bind := M.bind

/-- Handling, `try { body } catch (error) { handler }`. -/
def tryCatch {α : Type} (body : M α) (handler : Thrown → M α) : M α := fun w =>
  match body w with
  | (.ok a, w') => (.ok a, w')
  | (.error e, w') => handler e w'

/-- Send a request to the explorer or to the daemon. -/
def send {α : Type} (r : Request) (answer : Nat → Except Thrown α) : M α := fun w =>
  (answer w.trace.length, { w with trace := w.trace ++ [r] })

/-- Send a statement, `connection.query`: on an error the promise is rejected with it
and the tables are left as they were. -/
def query {α : Type} (env : Env) (q : Query) (run : Store → α × Store) : M α := fun w =>
  match env.sqlError w.trace.length q with
  | some message => (.error (.error message), { w with trace := w.trace ++ [.sql q] })
  | none => (.ok (run w.store).1, { store := (run w.store).2, trace := w.trace ++ [.sql q] })

/-! ## Access to the tables -/

/-- Source `getAddressRecord`: the first row with this address, if any. -/
def getAddressRecord (env : Env) (address : String) : M (Option AddressRow) :=
  query env (.selectAddress address) fun s =>
    ((s.addresses.filter fun r => r.address = address).head?, s)

/-- Source `updateAddressBalance`: every row with this address takes the balance and
the block number. -/
def updateAddressBalance (env : Env) (address : String) (blockNumber balance : Int) : M Unit :=
  query env (.updateAddress balance blockNumber address) fun s =>
    ((), { s with addresses := s.addresses.map fun r =>
      if r.address = address then { r with balance := balance, blockNumber := blockNumber } else r })

/-- Source `addNewAddressRecord`. -/
def addNewAddressRecord (env : Env) (address : String) (blockNumber balance : Int) : M Unit :=
  query env (.insertAddress address blockNumber balance) fun s =>
    ((), { s with addresses := s.addresses ++ [⟨address, balance, blockNumber⟩] })

/-- Source `addFailedRecord`: a falsy message becomes the empty string, and the
message is cut to 4096 characters. -/
def addFailedRecord (env : Env) (blockNumber : Int) (message : JsStr) : M Unit :=
  let message : String := match message with
    | .str s => s
    | _ => ""
  let message := message.take (min message.length 4096)
  query env (.insertFailed blockNumber message) fun s =>
    ((), { s with failed := s.failed ++ [⟨blockNumber, message⟩] })

/-- Source `removeFailedRecord`: every row of this block number is deleted. -/
def removeFailedRecord (env : Env) (blockNumber : Int) : M Unit :=
  query env (.deleteFailed blockNumber) fun s =>
    ((), { s with failed := s.failed.filter fun r => ¬ r.blockNumber = blockNumber })

/-- Source `updateStatusKey`: select the rows of the key, then update them, or insert
a row when there is none.  The engine calls it on table `status` only, the one table
of the store with these columns. -/
def updateStatusKey (env : Env) (tableName key : String) (value : Int) : M Unit := do
  let results ← query env (.selectStatus tableName key) fun s =>
    (s.status.filter fun r => r.status_key = key, s)
  if results.length > 0 then
    query env (.updateStatus tableName value key) fun s =>
      ((), { s with status := s.status.map fun r =>
        if r.status_key = key then { r with status_value := value } else r })
  else
    query env (.insertStatus tableName key value) fun s =>
      ((), { s with status := s.status ++ [⟨key, value⟩] })

/-! ## The explorer -/

/-- Source `getBlockTxInfo`: the promise is rejected when the HTTP status is not 200
or the body is not JSON. -/
def getBlockTxInfo (env : Env) (blockNumber : Int) (page : Nat) : M PageInfo :=
  send (.blockTx blockNumber page) fun t => env.explorerBlockTx t blockNumber page

/-- Source `getBalance`: the body of the answer, whose `data` names the address asked
about. -/
def getBalance (env : Env) (address : String) : M BalanceResponse :=
  send (.balance address) fun t =>
    (env.explorerBalance t address).map fun balance => ⟨⟨address, balance⟩⟩

/-- `Set.prototype.add`: a set keeps its elements in the order they were first added. -/
def setAdd (addresses : List String) (address : String) : List String :=
  if address ∈ addresses then addresses else addresses ++ [address]

/-- The `forEach` of `getInputOutputAddressesFromTx`: add the truthy elements. -/
def addAddresses (addresses : List String) (list : List (Option String)) : List String :=
  list.foldl (fun addresses address =>
    match address with
    | some a => if truthy address then setAdd addresses a else addresses
    | none => addresses) addresses

/-- Source `getInputOutputAddressesFromTx`. -/
def getInputOutputAddressesFromTx (tx : List Tx) : List String :=
  tx.foldl (fun addresses item =>
    item.outputs.foldl (fun addresses output => addAddresses addresses output.addresses)
      (item.inputs.foldl (fun addresses input => addAddresses addresses input.prev_addresses)
        addresses)) []

/-- The transaction list of a page, `info?.data?.list ?? []`. -/
def pageList (info : PageInfo) : List Tx :=
  match info.data with
  | some d => d.list.getD []
  | none => []

/-- The page count of a page, `parseInt(info?.data?.page_total)`, `none` for `NaN`. -/
def pageTotalOf (info : PageInfo) : Option Int :=
  match info.data with
  | some d => d.page_total
  | none => none

/-- The indices of `for (let index = 2; index < pageTotal + 1; index++)`. -/
def pageRange (pageTotal : Int) : List Nat :=
  (List.range (pageTotal - 1).toNat).map fun i => i + 2

/-- The loop over the next pages of `getBlockInfo`: the body status of such a page is
not looked at. -/
def fetchNextPages (env : Env) (blockNumber : Int) : List Nat → List String → M (List String)
  | [], addresses => pure addresses
  | index :: rest, addresses => do
    let nextPageInfo ← getBlockTxInfo env blockNumber index
    fetchNextPages env blockNumber rest
      (addresses ++ getInputOutputAddressesFromTx (pageList nextPageInfo))

/-- The first part of `getBlockInfo`: the array `addresses` after the pages were read. -/
def fetchBlockAddresses (env : Env) (blockNumber : Int) : M (List String) := do
  let firstPageInfo ← getBlockTxInfo env blockNumber 1
  if firstPageInfo.status ≠ some "success" then
    M.throw (.str "Unable to get block tx info")
  else
    let addresses := getInputOutputAddressesFromTx (pageList firstPageInfo)
    match pageTotalOf firstPageInfo with
    | some pageTotal =>
      if pageTotal > 1 then fetchNextPages env blockNumber (pageRange pageTotal) addresses
      else pure addresses
    | none => pure addresses

/-- The elements of an array in the order of their first occurrence,
`Array.from(new Set(addresses))`. -/
def uniqueOf (addresses : List String) : List String :=
  addresses.foldl setAdd []

/-- The loop of `getBlockInfo` that keeps the addresses without a record. -/
def selectNewAddresses (env : Env) : List String → List String → M (List String)
  | [], newAddresses => pure newAddresses
  | address :: rest, newAddresses => do
    let record ← getAddressRecord env address
    selectNewAddresses env rest
      (if record.isSome then newAddresses else newAddresses ++ [address])

/-- The `map` of `getBlockInfo`: a balance request is started for every new address,
one after the other, unless only addresses are synchronised. -/
def startBalanceRequests (env : Env) :
    List String → World → List (Except Thrown BalanceResponse) × World
  | [], w => ([], w)
  | address :: rest, w =>
    if env.ADDRESS_SYNC_ONLY then
      let r := startBalanceRequests env rest w
      (.ok ⟨⟨address, 0⟩⟩ :: r.1, r.2)
    else
      let p := getBalance env address w
      let r := startBalanceRequests env rest p.2
      (p.1 :: r.1, r.2)

/-- The outcome of `Promise.all`: the answers in the order of the requests, or the
rejection of the first request of the array that was rejected. -/
def promiseAll {α : Type} : List (Except Thrown α) → Except Thrown (List α)
  | [] => .ok []
  | .error e :: _ => .error e
  | .ok a :: rest =>
    match promiseAll rest with
    | .ok as => .ok (a :: as)
    | .error e => .error e

/-- The second part of `getBlockInfo`, from `uniqueAddresses` on: keep the addresses
without a record, ask for their balances, wait for all of them. -/
def resolveNewAddresses (env : Env) (uniqueAddresses : List String) : M (List BalanceItem) := do
  let newAddresses ← selectNewAddresses env uniqueAddresses []
  let response ← (fun w =>
    (promiseAll (startBalanceRequests env newAddresses w).1,
      (startBalanceRequests env newAddresses w).2) : M (List BalanceResponse))
  pure (response.map fun item => ⟨item.data.address, item.data.balance⟩)

/-- Source `getBlockInfo`. -/
def getBlockInfo (env : Env) (blockNumber : Int) : M (List BalanceItem) := do
  let addresses ← fetchBlockAddresses env blockNumber
  resolveNewAddresses env (uniqueOf addresses)

/-! ## The walkers -/

/-- The message of a caught value, `error?.message ?? JSON.stringify(error)`. -/
def errorMessage (env : Env) : Thrown → JsStr
  | .error message => .str message
  | .str s => .str (env.jsonStringify s)
  | .undefined => .undefined

/-- The body of the loop over `info` in `syncBlocks`: update the record of the
address when there is one, insert one otherwise. -/
def upsertItem (env : Env) (index : Int) (item : BalanceItem) : M Unit := do
  let existingRecord ← getAddressRecord env item.address
  if existingRecord.isSome then
    updateAddressBalance env item.address index item.balance
  else
    addNewAddressRecord env item.address index item.balance

/-- The loop over `info` in `syncBlocks`. -/
def upsertItems (env : Env) (index : Int) : List BalanceItem → M Unit
  | [] => pure ()
  | item :: rest => do
    upsertItem env index item
    upsertItems env index rest

/-- The `try` block of `syncBlocks` for one index. -/
def resolveBlock (env : Env) (index : Int) : M Unit := do
  let info ← getBlockInfo env index
  upsertItems env index info

/-- The body of the `for` loop of `syncBlocks` for one index, the progress output
apart. -/
def syncBlock (env : Env) (index : Int) : M Unit := do
  tryCatch (resolveBlock env index) fun error =>
    addFailedRecord env index (errorMessage env error)
  updateStatusKey env "status" "blockNumber" index

/-- The indices of `for (let index = start; index < end + 1; index++)`. -/
def blockRange (start «end» : Int) : List Int :=
  (List.range («end» + 1 - start).toNat).map fun (i : Nat) => start + (i : Int)

/-- The `for` loop of a walker over its indices; a rejection that the body does not
catch ends the walk. -/
def forBlocks (body : Int → M Unit) : List Int → M Unit
  | [] => pure ()
  | index :: rest => do
    body index
    forBlocks body rest

/-- Source `syncBlocks`. -/
def syncBlocks (env : Env) (start «end» : Int) : M Unit :=
  if «end» ≤ start then pure ()
  else forBlocks (syncBlock env) (blockRange start «end»)

/-- The two arrays `syncFailedBlocks` resolves with. -/
structure RetryResult where
  fails : List FailedRow
  succeeds : List BalanceItem
deriving DecidableEq, Repr

/-- The loop over `info` in `syncFailedBlocks`: an item is pushed on `succeeds` once
its record is written, and what was pushed stays when a later item throws. -/
def retryItems (env : Env) (blockNumber : Int) :
    List BalanceItem → List BalanceItem → World → (Except Thrown Unit × World) × List BalanceItem
  | [], succeeds, w => ((.ok (), w), succeeds)
  | item :: rest, succeeds, w =>
    match upsertItem env blockNumber item w with
    | (.ok _, w') => retryItems env blockNumber rest (succeeds ++ [item]) w'
    | (.error e, w') => ((.error e, w'), succeeds)

/-- The `try` block of `syncFailedBlocks` for one entry. -/
def retryBlock (env : Env) (fail : FailedRow) (succeeds : List BalanceItem) (w : World) :
    (Except Thrown Unit × World) × List BalanceItem :=
  match getBlockInfo env fail.blockNumber w with
  | (.error e, w') => ((.error e, w'), succeeds)
  | (.ok info, w') =>
    match retryItems env fail.blockNumber info succeeds w' with
    | ((.ok _, w''), succeeds') => (removeFailedRecord env fail.blockNumber w'', succeeds')
    | ((.error e, w''), succeeds') => ((.error e, w''), succeeds')

/-- The body of the `for` loop of `syncFailedBlocks` for one entry: the entry is
pushed on `fails` when the `try` block throws. -/
def retryEntry (env : Env) (fail : FailedRow) (r : RetryResult) (w : World) :
    RetryResult × World :=
  match retryBlock env fail r.succeeds w with
  | ((.ok _, w'), succeeds) => ({ fails := r.fails, succeeds := succeeds }, w')
  | ((.error _, w'), succeeds) => ({ fails := r.fails ++ [fail], succeeds := succeeds }, w')

/-- The `for` loop of `syncFailedBlocks`. -/
def retryLoop (env : Env) : List FailedRow → RetryResult → World → RetryResult × World
  | [], r, w => (r, w)
  | fail :: rest, r, w => retryLoop env rest (retryEntry env fail r w).1 (retryEntry env fail r w).2

/-- Source `syncFailedBlocks`: it resolves with `{ fails, succeeds }` and never
rejects. -/
def syncFailedBlocks (env : Env) (failed_blocks : List FailedRow) (w : World) :
    RetryResult × World :=
  retryLoop env failed_blocks { fails := [], succeeds := [] } w

/-! ## The walker over the daemon -/

/-- Source `getBlockHash`, `callDaemon("getblockhash", [block])`. -/
def getBlockHash (env : Env) (block : Int) : M String :=
  send (.getblockhash block) fun t => env.daemonBlockHash t block

/-- Source `getBlock`, `callDaemon("getblock", [hash])`: the `tx` member of the block. -/
def getBlock (env : Env) (hash : String) : M (List String) :=
  send (.getblock hash) fun t => env.daemonBlock t hash

/-- Source `getRawTransaction`, `callDaemon("getrawtransaction", [txHash, true])`: the
`scriptPubKey` of every member of `vout`. -/
def getRawTransaction (env : Env) (txHash : String) : M (List ScriptPubKey) :=
  send (.getrawtransaction txHash) fun t => env.daemonRawTransaction t txHash

/-- Source `extractAddress`. -/
def extractAddress (env : Env) (scriptPubKey : ScriptPubKey) : JsStr :=
  if scriptPubKey.type = "pubkeyhash" ∨ scriptPubKey.type = "scripthash" ∨
      scriptPubKey.address.truthy = true then
    scriptPubKey.address
  else if scriptPubKey.type = "pubkey" then
    match env.pubkeyAddress scriptPubKey.hex with
    | some address => .str address
    | none => .null
  else .null

/-- The loop over `transaction.vout` in `syncRpcBlocks`: the assignments
`addresses[key] = 0`, on the keys of the object in the order they were created. -/
def addOutputs (env : Env) (addresses : List String) (vout : List ScriptPubKey) : List String :=
  vout.foldl (fun addresses scriptPubKey =>
    if scriptPubKey.address.truthy then setAdd addresses scriptPubKey.address.toKey
    else setAdd addresses (extractAddress env scriptPubKey).toKey) addresses

/-- The loop over `block.tx` in `syncRpcBlocks`. -/
def collectOutputs (env : Env) : List String → List String → M (List String)
  | [], addresses => pure addresses
  | tx :: rest, addresses => do
    let transaction ← getRawTransaction env tx
    collectOutputs env rest (addOutputs env addresses transaction)

/-- The number a property key stands for when it is an array index: the decimal
numeral, without a leading zero, of a number below `2^32 - 1`. -/
def arrayIndex (key : String) : Option Nat :=
  let cs := key.data
  if cs ≠ [] ∧ (cs.all fun c => decide (48 ≤ c.toNat ∧ c.toNat ≤ 57)) = true ∧
      (cs.head? ≠ some '0' ∨ cs.length = 1) then
    let n := cs.foldl (fun n c => 10 * n + (c.toNat - 48)) 0
    if n < 4294967295 then some n else none
  else none

/-- The order of `Object.keys`: the array indices by value, then the other keys in
the order they were created. -/
def objectKeys (keys : List String) : List String :=
  ((keys.filterMap fun k => (arrayIndex k).map fun n => (n, k)).insertionSort
      fun a b => a.1 ≤ b.1).map (fun p => p.2)
    ++ keys.filter fun k => (arrayIndex k).isNone

/-- The loop over `Object.keys(addresses)` in `syncRpcBlocks`: a key without a record
is inserted with balance 0. -/
def insertNewRecords (env : Env) (index : Int) : List String → M Unit
  | [] => pure ()
  | address :: rest => do
    let existingRecord ← getAddressRecord env address
    (if existingRecord.isSome then pure () else addNewAddressRecord env address index 0)
    insertNewRecords env index rest

/-- The first part of the `try` block of `syncRpcBlocks`: the keys of the object
`addresses` after the outputs of the block were read. -/
def fetchRpcAddresses (env : Env) (index : Int) : M (List String) := do
  let blockHash ← getBlockHash env index
  let txs ← getBlock env blockHash
  collectOutputs env txs []

/-- The `try` block of `syncRpcBlocks` for one index. -/
def resolveRpcBlock (env : Env) (index : Int) : M Unit := do
  let addresses ← fetchRpcAddresses env index
  insertNewRecords env index (objectKeys addresses)

/-- The body of the `for` loop of `syncRpcBlocks` for one index, the progress output
apart. -/
def syncRpcBlock (env : Env) (index : Int) : M Unit := do
  tryCatch (resolveRpcBlock env index) fun error =>
    addFailedRecord env index (errorMessage env error)
  updateStatusKey env "status" "blockNumber" index

/-- Source `syncRpcBlocks`. -/
def syncRpcBlocks (env : Env) (start «end» : Int) : M Unit :=
  if «end» ≤ start then pure ()
  else forBlocks (syncRpcBlock env) (blockRange start «end»)

/-- Source `getSyncedBLockNumber`: the value of the first row of key `blockNumber`,
0 when there is no row and -1 when the statement fails. -/
def getSyncedBLockNumber (env : Env) (w : World) : Int × World :=
  match query env (.selectStatus "status" "blockNumber")
      (fun s => (s.status.filter fun r => r.status_key = "blockNumber", s)) w with
  | (.error _, w') => (-1, w')
  | (.ok results, w') =>
    match results with
    | row :: _ => (row.status_value, w')
    | [] => (0, w')

/-- Source `startSync`, for the end block `parseInt(process.env.SYNC_END_BLOCK_NUMBER)`,
the start of the HTTP server apart: the outcome is that of the promise of
`syncRpcBlocks`, which `startSync` does not wait for. -/
def startSync (env : Env) (syncEndBlockNumber : Int) (w : World) : Except Thrown Unit × World :=
  let r := getSyncedBLockNumber env w
  if r.1 < -1 then (.ok (), r.2)
  else syncRpcBlocks env (r.1 + 1) syncEndBlockNumber r.2

/-! ## Notions used in the statements and in the proofs -/

/-- A relation between the tables before and the tables after that holds across
every call of `x`, whatever the outcome. -/
def StoreSteps {α : Type} (S : Store → Store → Prop) (x : M α) : Prop :=
  ∀ w, S w.store (x w).2.store

/-- A reflexive and transitive relation between stores. -/
structure StoreOrder (S : Store → Store → Prop) : Prop where
  refl : ∀ s, S s s
  trans : ∀ {a b c}, S a b → S b c → S a c

/-- The addresses that have a record. -/
def Store.keys (s : Store) : List String := s.addresses.map fun r => r.address

/-- The tables are left as they were. -/
def Unchanged (s s' : Store) : Prop := s' = s

/-- Only table `addresses` is written, and no address loses its records. -/
def AddressesWritten (s s' : Store) : Prop :=
  s'.failed = s.failed ∧ s'.status = s.status ∧ ∀ a ∈ s.keys, a ∈ s'.keys

/-- No address loses its records and no failure entry is removed. -/
def Grows (s s' : Store) : Prop :=
  (∀ a ∈ s.keys, a ∈ s'.keys) ∧ ∀ row ∈ s.failed, row ∈ s'.failed

/-- No address loses its records, no failure entry is added, and table `status` is
left as it was. -/
def Retried (s s' : Store) : Prop :=
  (∀ a ∈ s.keys, a ∈ s'.keys) ∧ (∀ row ∈ s'.failed, row ∈ s.failed) ∧ s'.status = s.status

/-- Every request a call of `x` makes satisfies `P`. -/
def Requests {α : Type} (P : Request → Prop) (x : M α) : Prop :=
  ∀ w, ∃ ext, (x w).2.trace = w.trace ++ ext ∧ ∀ r ∈ ext, P r

/-- A call of `x` adds `out` to what `f` reads off the trace, whatever its outcome. -/
def Emits {α γ : Type} (f : Request → Option γ) (x : M α) (out : List γ) : Prop :=
  ∀ w, (x w).2.trace.filterMap f = w.trace.filterMap f ++ out

/-- A call that resolves, whatever the world. -/
def Resolves {α : Type} (x : M α) : Prop := ∀ w, ∃ a, (x w).1 = .ok a

/-- The kinds of requests. -/
inductive Kind
  | firstPage
  | nextPage
  | balance
  | blockHash
  | daemon
  | addressRead
  | addressWrite
  | failedInsert
  | failedDelete
  | statusRead
  | statusWrite
deriving DecidableEq, Repr, Fintype

/-- The kind of a request. -/
def Request.kind : Request → Kind
  | .blockTx _ page => if page = 1 then .firstPage else .nextPage
  | .balance _ => .balance
  | .getblockhash _ => .blockHash
  | .getblock _ => .daemon
  | .getrawtransaction _ => .daemon
  | .sql (.selectAddress _) => .addressRead
  | .sql (.updateAddress _ _ _) => .addressWrite
  | .sql (.insertAddress _ _ _) => .addressWrite
  | .sql (.insertFailed _ _) => .failedInsert
  | .sql (.deleteFailed _) => .failedDelete
  | .sql (.selectStatus _ _) => .statusRead
  | .sql (.updateStatus _ _ _) => .statusWrite
  | .sql (.insertStatus _ _ _) => .statusWrite

/-- Every request a call of `x` makes is of one of the kinds `ks`. -/
def Asks {α : Type} (ks : List Kind) (x : M α) : Prop :=
  Requests (fun r => r.kind ∈ ks) x

/-- The part of `fetchBlockAddresses` that follows the request for the first page. -/
def afterFirstPage (env : Env) (blockNumber : Int) (firstPageInfo : PageInfo) :
    M (List String) :=
  if firstPageInfo.status ≠ some "success" then
    M.throw (.str "Unable to get block tx info")
  else
    match pageTotalOf firstPageInfo with
    | some pageTotal =>
      if pageTotal > 1 then
        fetchNextPages env blockNumber (pageRange pageTotal)
          (getInputOutputAddressesFromTx (pageList firstPageInfo))
      else pure (getInputOutputAddressesFromTx (pageList firstPageInfo))
    | none => pure (getInputOutputAddressesFromTx (pageList firstPageInfo))

/-- The block a request attempts when it asks the explorer for a first page. -/
def attempt : Request → Option Int
  | .blockTx blockNumber page => if page = 1 then some blockNumber else none
  | _ => none

/-- The block a request attempts when it asks the daemon for a block hash. -/
def rpcAttempt : Request → Option Int
  | .getblockhash block => some block
  | _ => none

/-- The value a request writes to table `status`. -/
def checkpointWrite : Request → Option Int
  | .sql (.updateStatus _ value _) => some value
  | .sql (.insertStatus _ _ value) => some value
  | _ => none

/-- The checkpoint as `getSyncedBLockNumber` reads it: the value of the first row of
key `blockNumber`. -/
def Store.checkpoint (s : Store) : Option Int :=
  (s.status.filter fun r => r.status_key = "blockNumber").head?.map fun r => r.status_value

/-- The statements on tables `failed` (insertion) and `status` run without error. -/
def Env.BookkeepingSucceeds (env : Env) : Prop :=
  ∀ t q, (Request.sql q).kind ∈ [Kind.failedInsert, Kind.statusRead, Kind.statusWrite] →
    env.sqlError t q = none

/-- The part of the `try` block of `syncRpcBlocks` that follows `getBlockHash`. -/
def afterBlockHash (env : Env) (index : Int) (blockHash : String) : M Unit :=
  (getBlock env blockHash >>= fun txs => collectOutputs env txs []) >>= fun addresses =>
    insertNewRecords env index (objectKeys addresses)

/-- The world in which a walk that started at `start` reaches index `n`. -/
def reached (body : Int → M Unit) (start n : Int) (w : World) : World :=
  (forBlocks body (blockRange start (n - 1)) w).2

/-- The addresses one transaction adds to the set. -/
def addTx (addresses : List String) (item : Tx) : List String :=
  item.outputs.foldl (fun addresses output => addAddresses addresses output.addresses)
    (item.inputs.foldl (fun addresses input => addAddresses addresses input.prev_addresses)
      addresses)

/-- A transaction names an address in an input or in an output. -/
def Tx.names (item : Tx) (a : String) : Prop :=
  (∃ input ∈ item.inputs, some a ∈ input.prev_addresses) ∨
    (∃ output ∈ item.outputs, some a ∈ output.addresses)

/-- The page a request asks the explorer for. -/
def pageRequest : Request → Option (Int × Nat)
  | .blockTx blockNumber page => some (blockNumber, page)
  | _ => none

/-- The `k` pages from page `m` on. -/
def pagesFrom (m k : Nat) : List Nat := (List.range k).map fun i => i + m

/-- The addresses of the `k` pages from page `m` on, in the order of the pages. -/
def pageAddresses (pages : Nat → PageInfo) (m k : Nat) : List String :=
  (pagesFrom m k).flatMap fun p => getInputOutputAddressesFromTx (pageList (pages p))

/-- Page `p` of a block fails when `getBlockInfo`, called after `t` requests, asks for
it: either `p = 1` and the request is rejected or the body has a status other than
`"success"`; or the first page is delivered with status `"success"` and a page count
of at least `p`, the pages between are delivered, and the request for page `p` is
rejected. -/
def PageFails (env : Env) (blockNumber : Int) (t p : Nat) : Prop :=
  (p = 1 ∧ ((∃ e, env.explorerBlockTx t blockNumber 1 = .error e) ∨
      ∃ info, env.explorerBlockTx t blockNumber 1 = .ok info ∧ info.status ≠ some "success")) ∨
  (2 ≤ p ∧ ∃ first pageTotal e,
      env.explorerBlockTx t blockNumber 1 = .ok first ∧ first.status = some "success" ∧
      pageTotalOf first = some pageTotal ∧ (p : Int) ≤ pageTotal ∧
      (∀ q, 2 ≤ q → q < p → ∃ info, env.explorerBlockTx (t + (q - 1)) blockNumber q = .ok info) ∧
      env.explorerBlockTx (t + (p - 1)) blockNumber p = .error e)

/-- The `try` block of `syncFailedBlocks` as one asynchronous function. -/
def retryTry (env : Env) (blockNumber : Int) : M Unit :=
  resolveBlock env blockNumber >>= fun _ => removeFailedRecord env blockNumber

/-- The explorer and the database server answer a request the same way whenever it is
made. -/
def Env.Stationary (env : Env) : Prop :=
  ∀ t t', env.explorerBlockTx t = env.explorerBlockTx t' ∧
    env.explorerBalance t = env.explorerBalance t' ∧ env.sqlError t = env.sqlError t'

/-- The outcome of a call does not depend on the world. -/
def Indep {α : Type} (x : M α) : Prop := ∀ w w', (x w).1 = (x w').1

/-- The answer to the balance request for an address, at any time. -/
def answer (env : Env) (address : String) : Except Thrown BalanceResponse :=
  if env.ADDRESS_SYNC_ONLY then .ok ⟨⟨address, 0⟩⟩
  else (env.explorerBalance 0 address).map fun balance => ⟨⟨address, balance⟩⟩

/-- The item of an address whose balance request is answered. -/
def itemOf (env : Env) (address : String) : BalanceItem :=
  match answer env address with
  | .ok r => ⟨r.data.address, r.data.balance⟩
  | .error _ => ⟨address, 0⟩

/-- Every statement runs without error. -/
def Env.StatementsRun (env : Env) : Prop := ∀ t q, env.sqlError t q = none

/-- The record `syncBlocks` inserts for an item at an index. -/
def recordOf (index : Int) (item : BalanceItem) : AddressRow :=
  ⟨item.address, item.balance, index⟩

/-- The records the turn of `syncBlocks` for an index writes when every statement
runs: those of the items `getBlockInfo` resolves with, none when it rejects. -/
def written (env : Env) (index : Int) (w : World) : List AddressRow :=
  match (getBlockInfo env index w).1 with
  | .ok info => info.map (recordOf index)
  | .error _ => []

/-- The store with records appended to table `addresses`. -/
def Store.append (s : Store) (rows : List AddressRow) : Store :=
  { s with addresses := s.addresses ++ rows }

/-- The records of table `addresses` are kept, in their place, and for `a`, when it
has a record, no record is added. -/
def Appended (a : String) (s s' : Store) : Prop :=
  s.addresses <+: s'.addresses ∧
    (a ∈ s.keys → s'.addresses.filter (fun r => r.address = a)
      = s.addresses.filter fun r => r.address = a)

/-- The block numbers of the failure entries, one for each entry. -/
def Store.failedBlocks (s : Store) : List Int := s.failed.map fun r => r.blockNumber

/-- Table `failed` is left as it was. -/
def FailedKept (s s' : Store) : Prop := s'.failed = s.failed

/-- The failure entries are kept, in their place, and entries are added after them:
at most one for each block of `blocks`, in the order of `blocks`, and none for another
block. -/
def FailedAppends (blocks : List Int) (s s' : Store) : Prop :=
  ∃ extra, s'.failed = s.failed ++ extra ∧ (extra.map fun r => r.blockNumber).Sublist blocks

/-- No failure entry is added, and the entries that stay keep their order. -/
def FailedShrinks (s s' : Store) : Prop := s'.failed.Sublist s.failed

/-- The address a request asks the explorer the balance of. -/
def balanceRequest : Request → Option String
  | .balance address => some address
  | _ => none

/-- The rows of table `addresses` stay, in their place and with their address, rows
are added after them only, and when no two rows had the same address no two rows
have. -/
def KeysKept (s s' : Store) : Prop := s.keys <+: s'.keys ∧ (s.keys.Nodup → s'.keys.Nodup)

/-! ## A daemon, an explorer and a store to run the engine on -/

/-- A page of one transaction, with one input and one output. -/
def onePage (status : String) (input output : List (Option String)) (pageTotal : Int) :
    PageInfo :=
  ⟨some status, some ⟨some [⟨[⟨input⟩], [⟨output⟩]⟩], some pageTotal⟩⟩

/-- The pages of the explorer of the examples.  Block 0 shows the addresses A and B
and block 2 the addresses B and C, each on one page; there is no block 1.  Block 3 has
three pages, with D, then E and D, then F.  Block 4 announces two pages and the
request for the second is rejected.  The one page of block 6 has status `"success"`,
a page count of 1 and no `list`. -/
def scenarioPages (blockNumber : Int) (page : Nat) : Except Thrown PageInfo :=
  if blockNumber = 0 ∧ page = 1 then .ok (onePage "success" [some "A"] [some "B", none] 1)
  else if blockNumber = 2 ∧ page = 1 then .ok (onePage "success" [some "B"] [some "C"] 1)
  else if blockNumber = 3 ∧ page = 1 then .ok (onePage "success" [some "D"] [] 3)
  else if blockNumber = 3 ∧ page = 2 then .ok (onePage "success" [some "E"] [some "D"] 3)
  else if blockNumber = 3 ∧ page = 3 then .ok (onePage "success" [] [some "F"] 3)
  else if blockNumber = 4 ∧ page = 1 then .ok (onePage "success" [some "D"] [] 2)
  else if blockNumber = 4 ∧ page = 2 then .error (.str "Bad Gateway")
  else if blockNumber = 6 ∧ page = 1 then .ok ⟨some "success", some ⟨none, some 1⟩⟩
  else .error (.str "Not Found")

/-- The balances of the explorer of the examples, B apart. -/
def scenarioBalance (address : String) : Except Thrown Int :=
  if address = "A" then .ok 1
  else if address = "C" then .ok 9
  else if address = "D" then .ok 4
  else if address = "E" then .ok 6
  else if address = "F" then .ok 7
  else .error (.str "Not Found")

/-- The decode of a public key in the examples.  A `hex` that is a string never makes
`Buffer.from`, `hash160` or `bech32.encode` throw; the one key of the examples, `"zz"`,
holds no hex digit, so `Buffer.from` reads the empty buffer, whose hash
`b472a266d0bd89c13706a4132ccfb16f7c3b9fcb` encodes to the address given here (no other
key is decoded in the examples).  A `hex` that is missing makes `Buffer.from` throw. -/
def scenarioDecode : JsStr → Option String
  | .str _ => some "bc1k3e2yekshkyuzdcx5sfjena3da7rh87ttjknsk"
  | _ => none

/-- The explorer, the daemon and the database of the examples.  The explorer
delivers `scenarioPages` and reports `scenarioBalance`, and for B it reports 2 as
long as fewer than 11 requests were made, which is what the walk of block 0 from a
fresh store takes, and 5 from then on.  Block 0 of the daemon has one transaction,
with an output to A, an output that carries data and no address, an output of type
`pubkeyhash` without an address, an output to the public key `"zz"` and an output of
type `pubkey` without `hex`; the daemon has no other block.  Every statement runs. -/
def scenarioEnv : Env where
  explorerBlockTx := fun _ blockNumber page => scenarioPages blockNumber page
  explorerBalance := fun t address =>
    if address = "B" then (if t < 11 then .ok 2 else .ok 5) else scenarioBalance address
  daemonBlockHash := fun _ block =>
    if block = 0 then .ok "h0" else .error (.str "Block height out of range")
  daemonBlock := fun _ hash =>
    if hash = "h0" then .ok ["t0"] else .error (.str "Block not found")
  daemonRawTransaction := fun _ txHash =>
    if txHash = "t0" then
      .ok [⟨"pubkeyhash", .str "A", .str "76a9"⟩, ⟨"nulldata", .undefined, .str "6a"⟩,
        ⟨"pubkeyhash", .undefined, .str "76a9"⟩, ⟨"pubkey", .undefined, .str "zz"⟩,
        ⟨"pubkey", .undefined, .undefined⟩]
    else .error (.str "No such transaction")
  sqlError := fun _ _ => none
  ADDRESS_SYNC_ONLY := false
  pubkeyAddress := scenarioDecode
  jsonStringify := fun s => "\"" ++ s ++ "\""

/-- The environment of the examples with an explorer that reports 2 for B at all
times. -/
def steadyEnv : Env :=
  { scenarioEnv with
    explorerBalance := fun _ address =>
      if address = "B" then .ok 2 else scenarioBalance address }

/-- A store without addresses and failure entries, with the checkpoint at -1. -/
def freshWorld : World :=
  { store := { addresses := [], failed := [], status := [⟨"blockNumber", -1⟩] }, trace := [] }

/-- A failure entry for block 1, which the explorer of the examples does not have. -/
def stillFailing : FailedRow := ⟨1, "\"Not Found\""⟩

/-- A failure entry for block 0, which the explorer of the examples delivers. -/
def nowResolved : FailedRow := ⟨0, "\"Bad Gateway\""⟩

/-- A store without addresses, with a failure entry for block 1 and one for block 0. -/
def failedWorld : World :=
  { store := { addresses := [], failed := [stillFailing, nowResolved],
               status := [⟨"blockNumber", 2⟩] }, trace := [] }

/-- The three pages of block 3 of the examples. -/
def threePages (page : Nat) : PageInfo :=
  if page = 1 then onePage "success" [some "D"] [] 3
  else if page = 2 then onePage "success" [some "E"] [some "D"] 3
  else onePage "success" [] [some "F"] 3

/-- A store as `createTables` leaves it: the three tables without a row. -/
def emptyWorld : World :=
  { store := { addresses := [], failed := [], status := [] }, trace := [] }

/-- The database of the examples with a server that rejects the statement writing
checkpoint 1. -/
def haltingEnv : Env :=
  { scenarioEnv with
    sqlError := fun _ q =>
      if q = .updateStatus "status" 1 "blockNumber" then some "Lock wait timeout exceeded"
      else none }

/-- The store in which the walk of blocks 0 to 2 from a fresh store stops when the
statement writing checkpoint 1 is rejected: the records of block 0, the failure entry
of block 1, the checkpoint at 0. -/
def interruptedWorld : World :=
  { store := { addresses := [⟨"A", 1, 0⟩, ⟨"B", 2, 0⟩], failed := [⟨1, "\"Not Found\""⟩],
               status := [⟨"blockNumber", 0⟩] }, trace := [] }

/-! # Theorems -/

/-! ## Asynchronous functions, step by step -/

theorem pure_apply {α : Type} (a : α) (w : World) : (pure a : M α) w = (.ok a, w) := rfl

theorem bind_apply {α β : Type} (x : M α) (f : α → M β) (w : World) :
    (x >>= f) w = match x w with
      | (.ok a, w') => f a w'
      | (.error e, w') => (.error e, w') := rfl

theorem bind_ok {α β : Type} {x : M α} {f : α → M β} {w w' : World} {a : α}
    (h : x w = (.ok a, w')) : (x >>= f) w = f a w' := by
  rw [bind_apply, h]

theorem bind_error {α β : Type} {x : M α} {f : α → M β} {w w' : World} {e : Thrown}
    (h : x w = (.error e, w')) : (x >>= f) w = (.error e, w') := by
  rw [bind_apply, h]

theorem tryCatch_ok {α : Type} {x : M α} {h : Thrown → M α} {w w' : World} {a : α}
    (hx : x w = (.ok a, w')) : tryCatch x h w = (.ok a, w') := by
  simp only [tryCatch, hx]

theorem tryCatch_error {α : Type} {x : M α} {h : Thrown → M α} {w w' : World} {e : Thrown}
    (hx : x w = (.error e, w')) : tryCatch x h w = h e w' := by
  simp only [tryCatch, hx]

theorem bind_bind {α β γ : Type} (x : M α) (f : α → M β) (g : β → M γ) :
    ((x >>= f) >>= g) = (x >>= fun a => f a >>= g) := by
  funext w
  simp only [bind_apply]
  rcases x w with ⟨r, w'⟩
  cases r <;> rfl

/-- The two outcomes of a call. -/
theorem outcome {α : Type} (x : M α) (w : World) :
    (∃ a w', x w = (.ok a, w')) ∨ (∃ e w', x w = (.error e, w')) := by
  rcases h : x w with ⟨r, w'⟩
  cases r with
  | ok a => exact Or.inl ⟨a, w', rfl⟩
  | error e => exact Or.inr ⟨e, w', rfl⟩

theorem query_ok {α : Type} {env : Env} {q : Query} {w : World} (run : Store → α × Store)
    (h : env.sqlError w.trace.length q = none) :
    query env q run w =
      (.ok (run w.store).1, { store := (run w.store).2, trace := w.trace ++ [.sql q] }) := by
  simp only [query, h]

theorem query_error {α : Type} {env : Env} {q : Query} {w : World} {message : String}
    (run : Store → α × Store) (h : env.sqlError w.trace.length q = some message) :
    query env q run w =
      (.error (.error message), { w with trace := w.trace ++ [.sql q] }) := by
  simp only [query, h]

theorem StoreSteps.pure_steps {α : Type} {S : Store → Store → Prop} (hS : StoreOrder S) (a : α) :
    StoreSteps S (pure a : M α) := fun w => hS.refl w.store

theorem StoreSteps.throw_steps {α : Type} {S : Store → Store → Prop} (hS : StoreOrder S) (e : Thrown) :
    StoreSteps S (M.throw e : M α) := fun w => hS.refl w.store

theorem StoreSteps.bind_steps {α β : Type} {S : Store → Store → Prop} (hS : StoreOrder S)
    {x : M α} {f : α → M β} (hx : StoreSteps S x) (hf : ∀ a, StoreSteps S (f a)) :
    StoreSteps S (x >>= f) := by
  intro w
  rcases outcome x w with ⟨a, w', h⟩ | ⟨e, w', h⟩
  · rw [bind_ok h]
    have h1 := hx w
    rw [h] at h1
    exact hS.trans h1 (hf a w')
  · rw [bind_error h]
    have h1 := hx w
    rw [h] at h1
    exact h1

theorem StoreSteps.tryCatch_steps {α : Type} {S : Store → Store → Prop} (hS : StoreOrder S)
    {x : M α} {h : Thrown → M α} (hx : StoreSteps S x) (hh : ∀ e, StoreSteps S (h e)) :
    StoreSteps S (tryCatch x h) := by
  intro w
  rcases outcome x w with ⟨a, w', hw⟩ | ⟨e, w', hw⟩
  · rw [tryCatch_ok hw]
    have h1 := hx w
    rw [hw] at h1
    exact h1
  · rw [tryCatch_error hw]
    have h1 := hx w
    rw [hw] at h1
    exact hS.trans h1 (hh e w')

theorem StoreSteps.send_steps {α : Type} {S : Store → Store → Prop} (hS : StoreOrder S)
    (r : Request) (answer : Nat → Except Thrown α) : StoreSteps S (send r answer) :=
  fun w => hS.refl w.store

theorem StoreSteps.query_steps {α : Type} {S : Store → Store → Prop} (hS : StoreOrder S)
    (env : Env) (q : Query) (run : Store → α × Store) (h : ∀ s, S s (run s).2) :
    StoreSteps S (query env q run) := by
  intro w
  unfold BitcoinAddress.query
  split
  · exact hS.refl w.store
  · exact h w.store

theorem StoreSteps.mono_steps {α : Type} {S T : Store → Store → Prop} {x : M α}
    (h : ∀ a b, S a b → T a b) (hx : StoreSteps S x) : StoreSteps T x :=
  fun w => h _ _ (hx w)

theorem StoreSteps.ite_steps {α : Type} {S : Store → Store → Prop} {c : Prop} [Decidable c]
    {x y : M α} (hx : StoreSteps S x) (hy : StoreSteps S y) :
    StoreSteps S (if c then x else y) := by
  split
  · exact hx
  · exact hy

theorem unchanged_order : StoreOrder Unchanged :=
  ⟨fun _ => rfl, fun h1 h2 => by rw [Unchanged] at *; rw [h2, h1]⟩

theorem addressesWritten_order : StoreOrder AddressesWritten :=
  ⟨fun _ => ⟨rfl, rfl, fun _ h => h⟩,
   fun h1 h2 => ⟨h2.1.trans h1.1, h2.2.1.trans h1.2.1, fun a ha => h2.2.2 a (h1.2.2 a ha)⟩⟩

theorem grows_order : StoreOrder Grows :=
  ⟨fun _ => ⟨fun _ h => h, fun _ h => h⟩,
   fun h1 h2 => ⟨fun a ha => h2.1 a (h1.1 a ha), fun r hr => h2.2 r (h1.2 r hr)⟩⟩

theorem retried_order : StoreOrder Retried :=
  ⟨fun _ => ⟨fun _ h => h, fun _ h => h, rfl⟩,
   fun h1 h2 => ⟨fun a ha => h2.1 a (h1.1 a ha), fun r hr => h1.2.1 r (h2.2.1 r hr),
     h2.2.2.trans h1.2.2⟩⟩

theorem unchanged_addressesWritten (a b : Store) (h : Unchanged a b) : AddressesWritten a b := by
  rw [Unchanged] at h
  subst h
  exact addressesWritten_order.refl _

theorem addressesWritten_grows (a b : Store) (h : AddressesWritten a b) : Grows a b :=
  ⟨h.2.2, fun r hr => by rw [h.1]; exact hr⟩

theorem addressesWritten_retried (a b : Store) (h : AddressesWritten a b) : Retried a b :=
  ⟨h.2.2, fun r hr => by rw [← h.1]; exact hr, h.2.1⟩

/-! ## What each function does to the tables -/

theorem getAddressRecord_steps (env : Env) (address : String) :
    StoreSteps Unchanged (getAddressRecord env address) :=
  StoreSteps.query_steps unchanged_order _ _ _ fun _ => rfl

theorem keys_update (l : List AddressRow) (address : String) (balance blockNumber : Int) :
    (l.map fun r => if r.address = address then
        { r with balance := balance, blockNumber := blockNumber } else r).map
      (fun r => r.address) = l.map fun r => r.address := by
  induction l with
  | nil => rfl
  | cons r rest ih =>
    simp only [List.map_cons, ih]
    split <;> rfl

theorem updateAddressBalance_steps (env : Env) (address : String) (blockNumber balance : Int) :
    StoreSteps AddressesWritten (updateAddressBalance env address blockNumber balance) :=
  StoreSteps.query_steps addressesWritten_order _ _ _ fun s =>
    ⟨rfl, rfl, fun a ha => by
      simp only [Store.keys] at ha ⊢
      rw [keys_update]
      exact ha⟩

theorem addNewAddressRecord_steps (env : Env) (address : String) (blockNumber balance : Int) :
    StoreSteps AddressesWritten (addNewAddressRecord env address blockNumber balance) :=
  StoreSteps.query_steps addressesWritten_order _ _ _ fun s =>
    ⟨rfl, rfl, fun a ha => by
      simp only [Store.keys, List.map_append, List.mem_append] at ha ⊢
      exact Or.inl ha⟩

theorem addFailedRecord_steps (env : Env) (blockNumber : Int) (message : JsStr) :
    StoreSteps Grows (addFailedRecord env blockNumber message) :=
  StoreSteps.query_steps grows_order _ _ _ fun _ =>
    ⟨fun _ ha => ha, fun _ hr => List.mem_append_left _ hr⟩

theorem removeFailedRecord_steps (env : Env) (blockNumber : Int) :
    StoreSteps Retried (removeFailedRecord env blockNumber) :=
  StoreSteps.query_steps retried_order _ _ _ fun _ =>
    ⟨fun _ ha => ha, fun _ hr => (List.mem_filter.mp hr).1, rfl⟩

theorem updateStatusKey_steps (env : Env) (tableName key : String) (value : Int) :
    StoreSteps Grows (updateStatusKey env tableName key value) := by
  unfold updateStatusKey
  refine StoreSteps.bind_steps grows_order
    (StoreSteps.query_steps grows_order _ _ _ fun s => grows_order.refl s) fun results => ?_
  exact StoreSteps.ite_steps
    (StoreSteps.query_steps grows_order _ _ _ fun s => ⟨fun _ ha => ha, fun _ hr => hr⟩)
    (StoreSteps.query_steps grows_order _ _ _ fun s => ⟨fun _ ha => ha, fun _ hr => hr⟩)

theorem getBlockTxInfo_steps (env : Env) (blockNumber : Int) (page : Nat) :
    StoreSteps Unchanged (getBlockTxInfo env blockNumber page) :=
  StoreSteps.send_steps unchanged_order _ _

theorem getBalance_steps (env : Env) (address : String) :
    StoreSteps Unchanged (getBalance env address) :=
  StoreSteps.send_steps unchanged_order _ _

theorem fetchNextPages_steps (env : Env) (blockNumber : Int) (pages : List Nat)
    (addresses : List String) :
    StoreSteps Unchanged (fetchNextPages env blockNumber pages addresses) := by
  induction pages generalizing addresses with
  | nil => exact StoreSteps.pure_steps unchanged_order _
  | cons index rest ih =>
    exact StoreSteps.bind_steps unchanged_order (getBlockTxInfo_steps _ _ _) fun _ => ih _

theorem fetchBlockAddresses_steps (env : Env) (blockNumber : Int) :
    StoreSteps Unchanged (fetchBlockAddresses env blockNumber) := by
  unfold fetchBlockAddresses
  refine StoreSteps.bind_steps unchanged_order (getBlockTxInfo_steps _ _ _) fun info => ?_
  refine StoreSteps.ite_steps (StoreSteps.throw_steps unchanged_order _) ?_
  split
  · exact StoreSteps.ite_steps (fetchNextPages_steps _ _ _ _) (StoreSteps.pure_steps unchanged_order _)
  · exact StoreSteps.pure_steps unchanged_order _

theorem selectNewAddresses_steps (env : Env) (addresses newAddresses : List String) :
    StoreSteps Unchanged (selectNewAddresses env addresses newAddresses) := by
  induction addresses generalizing newAddresses with
  | nil => exact StoreSteps.pure_steps unchanged_order _
  | cons address rest ih =>
    exact StoreSteps.bind_steps unchanged_order (getAddressRecord_steps _ _) fun _ => ih _

theorem startBalanceRequests_store (env : Env) (addresses : List String) (w : World) :
    (startBalanceRequests env addresses w).2.store = w.store := by
  induction addresses generalizing w with
  | nil => rfl
  | cons address rest ih =>
    unfold startBalanceRequests
    split
    · exact ih w
    · simp only
      rw [ih]
      exact getBalance_steps env address w

theorem resolveNewAddresses_steps (env : Env) (uniqueAddresses : List String) :
    StoreSteps Unchanged (resolveNewAddresses env uniqueAddresses) := by
  unfold resolveNewAddresses
  refine StoreSteps.bind_steps unchanged_order (selectNewAddresses_steps _ _ _) fun newAddresses => ?_
  refine StoreSteps.bind_steps unchanged_order ?_ fun _ => StoreSteps.pure_steps unchanged_order _
  intro w
  exact startBalanceRequests_store env newAddresses w

theorem getBlockInfo_steps (env : Env) (blockNumber : Int) :
    StoreSteps Unchanged (getBlockInfo env blockNumber) :=
  StoreSteps.bind_steps unchanged_order (fetchBlockAddresses_steps _ _) fun _ =>
    resolveNewAddresses_steps _ _

theorem upsertItem_steps (env : Env) (index : Int) (item : BalanceItem) :
    StoreSteps AddressesWritten (upsertItem env index item) :=
  StoreSteps.bind_steps addressesWritten_order
    (StoreSteps.mono_steps unchanged_addressesWritten (getAddressRecord_steps _ _)) fun _ =>
    StoreSteps.ite_steps (updateAddressBalance_steps _ _ _ _) (addNewAddressRecord_steps _ _ _ _)

theorem upsertItems_steps (env : Env) (index : Int) (info : List BalanceItem) :
    StoreSteps AddressesWritten (upsertItems env index info) := by
  induction info with
  | nil => exact StoreSteps.pure_steps addressesWritten_order _
  | cons item rest ih =>
    exact StoreSteps.bind_steps addressesWritten_order (upsertItem_steps _ _ _) fun _ => ih

theorem resolveBlock_steps (env : Env) (index : Int) :
    StoreSteps AddressesWritten (resolveBlock env index) :=
  StoreSteps.bind_steps addressesWritten_order
    (StoreSteps.mono_steps unchanged_addressesWritten (getBlockInfo_steps _ _)) fun _ =>
    upsertItems_steps _ _ _

theorem syncBlock_steps (env : Env) (index : Int) : StoreSteps Grows (syncBlock env index) :=
  StoreSteps.bind_steps grows_order
    (StoreSteps.tryCatch_steps grows_order
      (StoreSteps.mono_steps addressesWritten_grows (resolveBlock_steps _ _))
      fun _ => addFailedRecord_steps _ _ _)
    fun _ => updateStatusKey_steps _ _ _ _

theorem forBlocks_steps {S : Store → Store → Prop} (hS : StoreOrder S) (body : Int → M Unit)
    (hbody : ∀ index, StoreSteps S (body index)) (blocks : List Int) :
    StoreSteps S (forBlocks body blocks) := by
  induction blocks with
  | nil => exact StoreSteps.pure_steps hS _
  | cons index rest ih => exact StoreSteps.bind_steps hS (hbody index) fun _ => ih

theorem syncBlocks_steps (env : Env) (start «end» : Int) :
    StoreSteps Grows (syncBlocks env start «end») :=
  StoreSteps.ite_steps (StoreSteps.pure_steps grows_order _)
    (forBlocks_steps grows_order _ (syncBlock_steps env) _)

theorem collectOutputs_steps (env : Env) (txs addresses : List String) :
    StoreSteps Unchanged (collectOutputs env txs addresses) := by
  induction txs generalizing addresses with
  | nil => exact StoreSteps.pure_steps unchanged_order _
  | cons tx rest ih =>
    exact StoreSteps.bind_steps unchanged_order (StoreSteps.send_steps unchanged_order _ _) fun _ => ih _

theorem fetchRpcAddresses_steps (env : Env) (index : Int) :
    StoreSteps Unchanged (fetchRpcAddresses env index) :=
  StoreSteps.bind_steps unchanged_order (StoreSteps.send_steps unchanged_order _ _) fun _ =>
    StoreSteps.bind_steps unchanged_order (StoreSteps.send_steps unchanged_order _ _) fun _ =>
      collectOutputs_steps _ _ _

theorem insertNewRecords_steps (env : Env) (index : Int) (addresses : List String) :
    StoreSteps AddressesWritten (insertNewRecords env index addresses) := by
  induction addresses with
  | nil => exact StoreSteps.pure_steps addressesWritten_order _
  | cons address rest ih =>
    refine StoreSteps.bind_steps addressesWritten_order
      (StoreSteps.mono_steps unchanged_addressesWritten (getAddressRecord_steps _ _)) fun _ => ?_
    exact StoreSteps.bind_steps addressesWritten_order
      (StoreSteps.ite_steps (StoreSteps.pure_steps addressesWritten_order _)
        (addNewAddressRecord_steps _ _ _ _)) fun _ => ih

theorem resolveRpcBlock_steps (env : Env) (index : Int) :
    StoreSteps AddressesWritten (resolveRpcBlock env index) :=
  StoreSteps.bind_steps addressesWritten_order
    (StoreSteps.mono_steps unchanged_addressesWritten (fetchRpcAddresses_steps _ _)) fun _ =>
    insertNewRecords_steps _ _ _

theorem syncRpcBlock_steps (env : Env) (index : Int) :
    StoreSteps Grows (syncRpcBlock env index) :=
  StoreSteps.bind_steps grows_order
    (StoreSteps.tryCatch_steps grows_order
      (StoreSteps.mono_steps addressesWritten_grows (resolveRpcBlock_steps _ _))
      fun _ => addFailedRecord_steps _ _ _)
    fun _ => updateStatusKey_steps _ _ _ _

theorem syncRpcBlocks_steps (env : Env) (start «end» : Int) :
    StoreSteps Grows (syncRpcBlocks env start «end») :=
  StoreSteps.ite_steps (StoreSteps.pure_steps grows_order _)
    (forBlocks_steps grows_order _ (syncRpcBlock_steps env) _)

/-! ## What each function asks of the collaborators -/

theorem Requests.pure_requests {α : Type} (P : Request → Prop) (a : α) : Requests P (pure a : M α) :=
  fun w => ⟨[], by simp [pure_apply], by simp⟩

theorem Requests.throw_requests {α : Type} (P : Request → Prop) (e : Thrown) :
    Requests P (M.throw e : M α) :=
  fun w => ⟨[], by simp [M.throw], by simp⟩

theorem Requests.bind_requests {α β : Type} {P : Request → Prop} {x : M α} {f : α → M β}
    (hx : Requests P x) (hf : ∀ a, Requests P (f a)) : Requests P (x >>= f) := by
  intro w
  obtain ⟨e1, h1, p1⟩ := hx w
  rcases outcome x w with ⟨a, w', h⟩ | ⟨e, w', h⟩
  · rw [bind_ok h]
    rw [h] at h1
    obtain ⟨e2, h2, p2⟩ := hf a w'
    refine ⟨e1 ++ e2, ?_, ?_⟩
    · rw [h2, h1, List.append_assoc]
    · intro r hr
      rcases List.mem_append.mp hr with hr | hr
      · exact p1 r hr
      · exact p2 r hr
  · rw [bind_error h]
    rw [h] at h1
    exact ⟨e1, h1, p1⟩

theorem Requests.tryCatch_requests {α : Type} {P : Request → Prop} {x : M α} {h : Thrown → M α}
    (hx : Requests P x) (hh : ∀ e, Requests P (h e)) : Requests P (tryCatch x h) := by
  intro w
  obtain ⟨e1, h1, p1⟩ := hx w
  rcases outcome x w with ⟨a, w', hw⟩ | ⟨e, w', hw⟩
  · rw [tryCatch_ok hw]
    rw [hw] at h1
    exact ⟨e1, h1, p1⟩
  · rw [tryCatch_error hw]
    rw [hw] at h1
    obtain ⟨e2, h2, p2⟩ := hh e w'
    refine ⟨e1 ++ e2, ?_, ?_⟩
    · rw [h2, h1, List.append_assoc]
    · intro r hr
      rcases List.mem_append.mp hr with hr | hr
      · exact p1 r hr
      · exact p2 r hr

theorem Requests.send_requests {α : Type} {P : Request → Prop} (r : Request)
    (answer : Nat → Except Thrown α) (h : P r) : Requests P (send r answer) :=
  fun w => ⟨[r], rfl, by simpa using h⟩

theorem Requests.query_requests {α : Type} {P : Request → Prop} (env : Env) (q : Query)
    (run : Store → α × Store) (h : P (.sql q)) : Requests P (query env q run) := by
  intro w
  refine ⟨[.sql q], ?_, by simpa using h⟩
  unfold BitcoinAddress.query
  split <;> rfl

theorem Requests.ite_requests {α : Type} {P : Request → Prop} {c : Prop} [Decidable c] {x y : M α}
    (hx : Requests P x) (hy : Requests P y) : Requests P (if c then x else y) := by
  split
  · exact hx
  · exact hy

theorem Requests.mono_requests {α : Type} {P Q : Request → Prop} {x : M α} (h : ∀ r, P r → Q r)
    (hx : Requests P x) : Requests Q x := by
  intro w
  obtain ⟨e, h1, p⟩ := hx w
  exact ⟨e, h1, fun r hr => h r (p r hr)⟩

theorem Requests.silent {α γ : Type} {P : Request → Prop} {x : M α} (f : Request → Option γ)
    (hx : Requests P x) (h : ∀ r, P r → f r = none) : Emits f x [] := by
  intro w
  obtain ⟨e, h1, p⟩ := hx w
  rw [h1, List.filterMap_append, List.append_right_inj]
  apply List.filterMap_eq_nil_iff.mpr
  intro r hr
  exact h r (p r hr)

theorem Emits.send_emits {α γ : Type} {f : Request → Option γ} (r : Request)
    (answer : Nat → Except Thrown α) {c : γ} (h : f r = some c) : Emits f (send r answer) [c] := by
  intro w
  simp [BitcoinAddress.send, List.filterMap_append, h]

theorem Emits.bind_silent {α β γ : Type} {f : Request → Option γ} {x : M α} {g : α → M β}
    {out : List γ} (hx : Emits f x out) (hg : ∀ a, Emits f (g a) []) :
    Emits f (x >>= g) out := by
  intro w
  have h1 := hx w
  rcases outcome x w with ⟨a, w', h⟩ | ⟨e, w', h⟩
  · rw [bind_ok h]
    rw [h] at h1
    rw [hg a w', h1, List.append_nil]
  · rw [bind_error h]
    rw [h] at h1
    exact h1

theorem Emits.tryCatch_silent {α γ : Type} {f : Request → Option γ} {x : M α}
    {h : Thrown → M α} {out : List γ} (hx : Emits f x out) (hh : ∀ e, Emits f (h e) []) :
    Emits f (tryCatch x h) out := by
  intro w
  have h1 := hx w
  rcases outcome x w with ⟨a, w', hw⟩ | ⟨e, w', hw⟩
  · rw [tryCatch_ok hw]
    rw [hw] at h1
    exact h1
  · rw [tryCatch_error hw]
    rw [hw] at h1
    rw [hh e w', h1, List.append_nil]

theorem Emits.silent_bind {α β γ : Type} {f : Request → Option γ} {x : M α} {g : α → M β}
    {out : List γ} (hx : Emits f x []) (hok : Resolves x) (hg : ∀ a, Emits f (g a) out) :
    Emits f (x >>= g) out := by
  intro w
  have h1 := hx w
  obtain ⟨a, ha⟩ := hok w
  have h : x w = (.ok a, (x w).2) := by rw [← ha]
  rw [bind_ok h, hg a, h1, List.append_nil]

theorem forBlocks_resolves {body : Int → M Unit} (hok : ∀ index, Resolves (body index))
    (blocks : List Int) : Resolves (forBlocks body blocks) := by
  induction blocks with
  | nil => exact fun w => ⟨(), rfl⟩
  | cons index rest ih =>
    intro w
    obtain ⟨a, ha⟩ := hok index w
    have h : body index w = (.ok a, (body index w).2) := by rw [← ha]
    show ∃ b, ((body index >>= fun _ => BitcoinAddress.forBlocks body rest) w).1 = .ok b
    rw [bind_ok h]
    exact ih _

theorem Emits.forBlocks {γ : Type} {f : Request → Option γ} {body : Int → M Unit}
    {c : Int → γ} (hbody : ∀ index, Emits f (body index) [c index])
    (hok : ∀ index, Resolves (body index)) (blocks : List Int) :
    Emits f (forBlocks body blocks) (blocks.map c) := by
  induction blocks with
  | nil => exact fun w => by simp [BitcoinAddress.forBlocks, pure_apply]
  | cons index rest ih =>
    intro w
    obtain ⟨a, ha⟩ := hok index w
    have h : body index w = (.ok a, (body index w).2) := by rw [← ha]
    show ((body index >>= fun _ => BitcoinAddress.forBlocks body rest) w).2.trace.filterMap f = _
    rw [bind_ok h, ih, hbody index w]
    simp

theorem Asks.mono_asks {α : Type} {ks ks' : List Kind} {x : M α} (h : ∀ k, k ∈ ks → k ∈ ks')
    (hx : Asks ks x) : Asks ks' x :=
  Requests.mono_requests (fun _ hr => h _ hr) hx

theorem getAddressRecord_asks (env : Env) (address : String) :
    Asks [.addressRead] (getAddressRecord env address) :=
  Requests.query_requests _ _ _ (by simp [Request.kind])

theorem updateAddressBalance_asks (env : Env) (address : String) (blockNumber balance : Int) :
    Asks [.addressWrite] (updateAddressBalance env address blockNumber balance) :=
  Requests.query_requests _ _ _ (by simp [Request.kind])

theorem addNewAddressRecord_asks (env : Env) (address : String) (blockNumber balance : Int) :
    Asks [.addressWrite] (addNewAddressRecord env address blockNumber balance) :=
  Requests.query_requests _ _ _ (by simp [Request.kind])

theorem addFailedRecord_asks (env : Env) (blockNumber : Int) (message : JsStr) :
    Asks [.failedInsert] (addFailedRecord env blockNumber message) :=
  Requests.query_requests _ _ _ (by simp [Request.kind])

theorem removeFailedRecord_asks (env : Env) (blockNumber : Int) :
    Asks [.failedDelete] (removeFailedRecord env blockNumber) :=
  Requests.query_requests _ _ _ (by simp [Request.kind])

theorem updateStatusKey_asks (env : Env) (tableName key : String) (value : Int) :
    Asks [.statusRead, .statusWrite] (updateStatusKey env tableName key value) :=
  Requests.bind_requests (Requests.query_requests _ _ _ (by simp [Request.kind])) fun _ =>
    Requests.ite_requests (Requests.query_requests _ _ _ (by simp [Request.kind]))
      (Requests.query_requests _ _ _ (by simp [Request.kind]))

theorem mem_pageRange (pageTotal : Int) (p : Nat) :
    p ∈ pageRange pageTotal ↔ 2 ≤ p ∧ (p : Int) ≤ pageTotal := by
  simp only [pageRange, List.mem_map, List.mem_range]
  constructor
  · rintro ⟨i, hi, rfl⟩
    omega
  · rintro ⟨h1, h2⟩
    exact ⟨p - 2, by omega, by omega⟩

theorem fetchNextPages_asks (env : Env) (blockNumber : Int) (pages : List Nat)
    (hp : ∀ p ∈ pages, p ≠ 1) (addresses : List String) :
    Asks [.nextPage] (fetchNextPages env blockNumber pages addresses) := by
  induction pages generalizing addresses with
  | nil => exact Requests.pure_requests _ _
  | cons index rest ih =>
    refine Requests.bind_requests (Requests.send_requests _ _ ?_) fun _ => ih (fun p h => hp p (by simp [h])) _
    have : index ≠ 1 := hp index (by simp)
    simp [Request.kind, this]

theorem fetchBlockAddresses_eq (env : Env) (blockNumber : Int) :
    fetchBlockAddresses env blockNumber =
      (getBlockTxInfo env blockNumber 1 >>= afterFirstPage env blockNumber) := rfl

theorem afterFirstPage_asks (env : Env) (blockNumber : Int) (info : PageInfo) :
    Asks [.nextPage] (afterFirstPage env blockNumber info) := by
  unfold afterFirstPage
  refine Requests.ite_requests (Requests.throw_requests _ _) ?_
  split
  · refine Requests.ite_requests (fetchNextPages_asks _ _ _ ?_ _) (Requests.pure_requests _ _)
    intro p hp
    have := (mem_pageRange _ _).mp hp
    omega
  · exact Requests.pure_requests _ _

theorem selectNewAddresses_asks (env : Env) (addresses newAddresses : List String) :
    Asks [.addressRead] (selectNewAddresses env addresses newAddresses) := by
  induction addresses generalizing newAddresses with
  | nil => exact Requests.pure_requests _ _
  | cons address rest ih =>
    exact Requests.bind_requests (getAddressRecord_asks _ _) fun _ => ih _

theorem startBalanceRequests_trace (env : Env) (addresses : List String) (w : World) :
    (startBalanceRequests env addresses w).2.trace =
      w.trace ++ if env.ADDRESS_SYNC_ONLY then [] else addresses.map Request.balance := by
  induction addresses generalizing w with
  | nil => simp [startBalanceRequests]
  | cons address rest ih =>
    unfold startBalanceRequests
    split
    · rename_i h
      rw [ih w]
      simp [h]
    · rename_i h
      simp only
      rw [ih]
      simp [h, getBalance, BitcoinAddress.send]

theorem resolveNewAddresses_asks (env : Env) (uniqueAddresses : List String) :
    Asks [.addressRead, .balance] (resolveNewAddresses env uniqueAddresses) := by
  unfold resolveNewAddresses
  refine Requests.bind_requests (Asks.mono_asks (by decide) (selectNewAddresses_asks _ _ _)) fun newAddresses => ?_
  refine Requests.bind_requests ?_ fun _ => Requests.pure_requests _ _
  intro w
  refine ⟨_, startBalanceRequests_trace env newAddresses w, ?_⟩
  intro r hr
  split at hr
  · simp at hr
  · obtain ⟨a, _, rfl⟩ := List.mem_map.mp hr
    simp [Request.kind]

theorem upsertItem_asks (env : Env) (index : Int) (item : BalanceItem) :
    Asks [.addressRead, .addressWrite] (upsertItem env index item) :=
  Requests.bind_requests (Asks.mono_asks (by decide) (getAddressRecord_asks _ _)) fun _ =>
    Requests.ite_requests (Asks.mono_asks (by decide) (updateAddressBalance_asks _ _ _ _))
      (Asks.mono_asks (by decide) (addNewAddressRecord_asks _ _ _ _))

theorem upsertItems_asks (env : Env) (index : Int) (info : List BalanceItem) :
    Asks [.addressRead, .addressWrite] (upsertItems env index info) := by
  induction info with
  | nil => exact Requests.pure_requests _ _
  | cons item rest ih => exact Requests.bind_requests (upsertItem_asks _ _ _) fun _ => ih

theorem resolveBlock_eq (env : Env) (index : Int) :
    resolveBlock env index =
      (getBlockTxInfo env index 1 >>= fun firstPageInfo =>
        (afterFirstPage env index firstPageInfo >>= fun addresses =>
          resolveNewAddresses env (uniqueOf addresses)) >>= fun info =>
        upsertItems env index info) := by
  funext w
  simp only [resolveBlock, getBlockInfo, fetchBlockAddresses_eq, bind_apply]
  rcases getBlockTxInfo env index 1 w with ⟨r, w'⟩
  cases r <;> rfl

theorem attempt_none (r : Request) (h : r.kind ∈ [Kind.nextPage, Kind.balance, Kind.daemon,
    Kind.blockHash, Kind.addressRead, Kind.addressWrite, Kind.failedInsert, Kind.failedDelete,
    Kind.statusRead, Kind.statusWrite]) : attempt r = none := by
  cases r with
  | blockTx n p =>
    by_cases hp : p = 1
    · simp [Request.kind, hp] at h
    · simp [attempt, hp]
  | _ => rfl

theorem rpcAttempt_none (r : Request) (h : r.kind ∈ [Kind.firstPage, Kind.nextPage,
    Kind.balance, Kind.daemon, Kind.addressRead, Kind.addressWrite, Kind.failedInsert,
    Kind.failedDelete, Kind.statusRead, Kind.statusWrite]) : rpcAttempt r = none := by
  cases r with
  | getblockhash n => simp [Request.kind] at h
  | _ => rfl

theorem checkpointWrite_none (r : Request) (h : r.kind ∈ [Kind.firstPage, Kind.nextPage,
    Kind.balance, Kind.daemon, Kind.blockHash, Kind.addressRead, Kind.addressWrite,
    Kind.failedInsert, Kind.failedDelete, Kind.statusRead]) : checkpointWrite r = none := by
  cases r with
  | sql q => cases q <;> first | rfl | simp [Request.kind] at h
  | _ => rfl

theorem Asks.noAttempt {α : Type} {ks : List Kind} {x : M α} (hx : Asks ks x)
    (h : ∀ k, k ∈ ks → k ∈ [Kind.nextPage, Kind.balance, Kind.daemon,
      Kind.blockHash, Kind.addressRead, Kind.addressWrite, Kind.failedInsert,
      Kind.failedDelete, Kind.statusRead, Kind.statusWrite]) : Emits attempt x [] :=
  Requests.silent attempt hx fun r hr => attempt_none r (h _ hr)

theorem Asks.noRpcAttempt {α : Type} {ks : List Kind} {x : M α} (hx : Asks ks x)
    (h : ∀ k, k ∈ ks → k ∈ [Kind.firstPage, Kind.nextPage,
      Kind.balance, Kind.daemon, Kind.addressRead, Kind.addressWrite, Kind.failedInsert,
      Kind.failedDelete, Kind.statusRead, Kind.statusWrite]) : Emits rpcAttempt x [] :=
  Requests.silent rpcAttempt hx fun r hr => rpcAttempt_none r (h _ hr)

theorem Asks.noCheckpointWrite {α : Type} {ks : List Kind} {x : M α} (hx : Asks ks x)
    (h : ∀ k, k ∈ ks → k ∈ [Kind.firstPage, Kind.nextPage,
      Kind.balance, Kind.daemon, Kind.blockHash, Kind.addressRead, Kind.addressWrite,
      Kind.failedInsert, Kind.failedDelete, Kind.statusRead]) : Emits checkpointWrite x [] :=
  Requests.silent checkpointWrite hx fun r hr => checkpointWrite_none r (h _ hr)

theorem resolveBlock_asks_after (env : Env) (index : Int) (firstPageInfo : PageInfo) :
    Asks [.nextPage, .balance, .addressRead, .addressWrite]
      ((afterFirstPage env index firstPageInfo >>= fun addresses =>
          resolveNewAddresses env (uniqueOf addresses)) >>= fun info =>
        upsertItems env index info) :=
  Requests.bind_requests
    (Requests.bind_requests (Asks.mono_asks (by decide) (afterFirstPage_asks _ _ _)) fun _ =>
      Asks.mono_asks (by decide) (resolveNewAddresses_asks _ _)) fun _ =>
    Asks.mono_asks (by decide) (upsertItems_asks _ _ _)

theorem resolveBlock_asks (env : Env) (index : Int) :
    Asks [.firstPage, .nextPage, .balance, .addressRead, .addressWrite]
      (resolveBlock env index) := by
  rw [resolveBlock_eq]
  exact Requests.bind_requests (Requests.send_requests _ _ (by simp [Request.kind])) fun _ =>
    Asks.mono_asks (by decide) (resolveBlock_asks_after _ _ _)

theorem resolveBlock_attempt (env : Env) (index : Int) :
    Emits attempt (resolveBlock env index) [index] := by
  rw [resolveBlock_eq]
  exact Emits.bind_silent (Emits.send_emits _ _ (by simp [attempt])) fun _ =>
    (resolveBlock_asks_after _ _ _).noAttempt (by decide)

theorem syncBlock_attempt (env : Env) (index : Int) :
    Emits attempt (syncBlock env index) [index] :=
  Emits.bind_silent
    (Emits.tryCatch_silent (resolveBlock_attempt _ _) fun _ =>
      (addFailedRecord_asks _ _ _).noAttempt (by decide))
    fun _ => (updateStatusKey_asks _ _ _ _).noAttempt (by decide)

theorem collectOutputs_asks (env : Env) (txs addresses : List String) :
    Asks [.daemon] (collectOutputs env txs addresses) := by
  induction txs generalizing addresses with
  | nil => exact Requests.pure_requests _ _
  | cons tx rest ih =>
    exact Requests.bind_requests (Requests.send_requests _ _ (by simp [Request.kind])) fun _ => ih _

theorem insertNewRecords_asks (env : Env) (index : Int) (addresses : List String) :
    Asks [.addressRead, .addressWrite] (insertNewRecords env index addresses) := by
  induction addresses with
  | nil => exact Requests.pure_requests _ _
  | cons address rest ih =>
    refine Requests.bind_requests (Asks.mono_asks (by decide) (getAddressRecord_asks _ _)) fun _ => ?_
    exact Requests.bind_requests (Requests.ite_requests (Requests.pure_requests _ _)
      (Asks.mono_asks (by decide) (addNewAddressRecord_asks _ _ _ _))) fun _ => ih

theorem resolveRpcBlock_eq (env : Env) (index : Int) :
    resolveRpcBlock env index = (getBlockHash env index >>= afterBlockHash env index) := by
  funext w
  simp only [resolveRpcBlock, fetchRpcAddresses, afterBlockHash, bind_apply]
  rcases getBlockHash env index w with ⟨r, w'⟩
  cases r <;> rfl

theorem afterBlockHash_asks (env : Env) (index : Int) (blockHash : String) :
    Asks [.daemon, .addressRead, .addressWrite] (afterBlockHash env index blockHash) :=
  Requests.bind_requests
    (Requests.bind_requests (Requests.send_requests _ _ (by simp [Request.kind])) fun _ =>
      Asks.mono_asks (by decide) (collectOutputs_asks _ _ _)) fun _ =>
    Asks.mono_asks (by decide) (insertNewRecords_asks _ _ _)

theorem resolveRpcBlock_asks (env : Env) (index : Int) :
    Asks [.blockHash, .daemon, .addressRead, .addressWrite] (resolveRpcBlock env index) := by
  rw [resolveRpcBlock_eq]
  exact Requests.bind_requests (Requests.send_requests _ _ (by simp [Request.kind])) fun _ =>
    Asks.mono_asks (by decide) (afterBlockHash_asks _ _ _)

theorem syncRpcBlock_attempt (env : Env) (index : Int) :
    Emits rpcAttempt (syncRpcBlock env index) [index] := by
  refine Emits.bind_silent (Emits.tryCatch_silent ?_ fun _ =>
      (addFailedRecord_asks _ _ _).noRpcAttempt (by decide))
    fun _ => (updateStatusKey_asks _ _ _ _).noRpcAttempt (by decide)
  rw [resolveRpcBlock_eq]
  exact Emits.bind_silent (Emits.send_emits _ _ (by simp [rpcAttempt])) fun _ =>
    (afterBlockHash_asks _ _ _).noRpcAttempt (by decide)

/-! ## The bookkeeping of a walker -/

theorem addFailedRecord_ok (env : Env) (hb : env.BookkeepingSucceeds) (blockNumber : Int)
    (message : JsStr) (w : World) :
    ∃ text, addFailedRecord env blockNumber message w =
      (.ok (), { store := { w.store with failed := w.store.failed ++ [⟨blockNumber, text⟩] },
                 trace := w.trace ++ [.sql (.insertFailed blockNumber text)] }) := by
  unfold addFailedRecord
  exact ⟨_, query_ok _ (hb _ _ (by simp [Request.kind]))⟩

theorem updateStatusKey_ok (env : Env) (hb : env.BookkeepingSucceeds) (value : Int) (w : World) :
    ∃ w', updateStatusKey env "status" "blockNumber" value w = (.ok (), w') ∧
      w'.store.addresses = w.store.addresses ∧ w'.store.failed = w.store.failed ∧
      w'.store.checkpoint = some value ∧
      w'.trace.filterMap checkpointWrite = w.trace.filterMap checkpointWrite ++ [value] := by
  have h1 : query env (.selectStatus "status" "blockNumber")
      (fun s => (s.status.filter fun r => r.status_key = "blockNumber", s)) w = _ :=
    query_ok _ (hb _ _ (by simp [Request.kind]))
  unfold updateStatusKey
  rw [bind_ok h1]
  split
  · rename_i hlen
    rw [query_ok _ (hb _ _ (by simp [Request.kind]))]
    refine ⟨_, rfl, rfl, rfl, ?_, ?_⟩
    · simp only [Store.checkpoint]
      simp only at hlen
      generalize w.store.status = rows at hlen
      induction rows with
      | nil => simp at hlen
      | cons row rest ih =>
        by_cases hk : row.status_key = "blockNumber"
        · simp [List.filter_cons, hk]
        · simp only [List.filter_cons, hk, decide_False, Bool.false_eq_true, if_false] at hlen
          simp only [List.map_cons, hk, if_false, List.filter_cons, decide_False,
            Bool.false_eq_true]
          exact ih hlen
    · simp [List.filterMap_append, checkpointWrite]
  · rename_i hlen
    rw [query_ok _ (hb _ _ (by simp [Request.kind]))]
    refine ⟨_, rfl, rfl, rfl, ?_, ?_⟩
    · simp only [Store.checkpoint]
      simp only [gt_iff_lt, List.length_pos, ne_eq, not_not] at hlen
      simp [List.filter_append, hlen]
    · simp [List.filterMap_append, checkpointWrite]

theorem updateStatusKey_resolves (env : Env) (hb : env.BookkeepingSucceeds) (value : Int) :
    Resolves (updateStatusKey env "status" "blockNumber" value) := by
  intro w
  obtain ⟨w', h, _⟩ := updateStatusKey_ok env hb value w
  exact ⟨(), by rw [h]⟩

theorem tryCatch_addFailedRecord_resolves (env : Env) (hb : env.BookkeepingSucceeds)
    (body : M Unit) (index : Int) :
    Resolves (tryCatch body fun error => addFailedRecord env index (errorMessage env error)) := by
  intro w
  rcases outcome body w with ⟨a, w', h⟩ | ⟨e, w', h⟩
  · exact ⟨a, by rw [tryCatch_ok h]⟩
  · obtain ⟨text, ht⟩ := addFailedRecord_ok env hb index (errorMessage env e) w'
    exact ⟨(), by rw [tryCatch_error h, ht]⟩

theorem Resolves.bind_resolves {α β : Type} {x : M α} {f : α → M β} (hx : Resolves x)
    (hf : ∀ a, Resolves (f a)) : Resolves (x >>= f) := by
  intro w
  obtain ⟨a, ha⟩ := hx w
  have h : x w = (.ok a, (x w).2) := by rw [← ha]
  rw [bind_ok h]
  exact hf a _

theorem syncBlock_resolves (env : Env) (hb : env.BookkeepingSucceeds) (index : Int) :
    Resolves (syncBlock env index) :=
  Resolves.bind_resolves (tryCatch_addFailedRecord_resolves env hb _ index) fun _ =>
    updateStatusKey_resolves env hb index

theorem syncRpcBlock_resolves (env : Env) (hb : env.BookkeepingSucceeds) (index : Int) :
    Resolves (syncRpcBlock env index) :=
  Resolves.bind_resolves (tryCatch_addFailedRecord_resolves env hb _ index) fun _ =>
    updateStatusKey_resolves env hb index

theorem updateStatusKey_checkpointWrite (env : Env) (hb : env.BookkeepingSucceeds)
    (value : Int) :
    Emits checkpointWrite (updateStatusKey env "status" "blockNumber" value) [value] := by
  intro w
  obtain ⟨w', h, _, _, _, ht⟩ := updateStatusKey_ok env hb value w
  rw [h]
  exact ht

theorem syncBlock_checkpointWrite (env : Env) (hb : env.BookkeepingSucceeds) (index : Int) :
    Emits checkpointWrite (syncBlock env index) [index] :=
  Emits.silent_bind
    (Emits.tryCatch_silent ((resolveBlock_asks _ _).noCheckpointWrite (by decide)) fun _ =>
      (addFailedRecord_asks _ _ _).noCheckpointWrite (by decide))
    (tryCatch_addFailedRecord_resolves env hb _ index)
    fun _ => updateStatusKey_checkpointWrite env hb index

theorem Resolves.eq {α : Type} {x : M α} (hx : Resolves x) (w : World) :
    ∃ a, x w = (.ok a, (x w).2) := by
  obtain ⟨a, ha⟩ := hx w
  exact ⟨a, by rw [← ha]⟩

theorem syncBlock_checkpoint (env : Env) (hb : env.BookkeepingSucceeds) (index : Int)
    (w : World) : (syncBlock env index w).2.store.checkpoint = some index := by
  obtain ⟨a, h⟩ := (tryCatch_addFailedRecord_resolves env hb (resolveBlock env index) index).eq w
  unfold syncBlock
  rw [bind_ok h]
  obtain ⟨w', h', _, _, hc, _⟩ := updateStatusKey_ok env hb index
    (tryCatch (resolveBlock env index)
      (fun error => addFailedRecord env index (errorMessage env error)) w).2
  rw [h']
  exact hc

/-! ## The indices of a walk -/

theorem mem_blockRange (start «end» n : Int) :
    n ∈ blockRange start «end» ↔ start ≤ n ∧ n ≤ «end» := by
  simp only [blockRange, List.mem_map, List.mem_range]
  constructor
  · rintro ⟨i, hi, rfl⟩
    omega
  · rintro ⟨h1, h2⟩
    exact ⟨(n - start).toNat, by omega, by omega⟩

theorem blockRange_sorted (start «end» : Int) :
    (blockRange start «end»).Sorted (· < ·) := by
  unfold blockRange
  generalize («end» + 1 - start).toNat = k
  induction k with
  | zero => simp
  | succ k ih =>
    rw [List.range_succ, List.map_append]
    refine List.pairwise_append.mpr ⟨ih, by simp, ?_⟩
    intro a ha b hb
    simp only [List.mem_map, List.mem_range] at ha
    simp only [List.map_cons, List.map_nil, List.mem_singleton] at hb
    obtain ⟨i, hi, rfl⟩ := ha
    omega

theorem blockRange_empty (start «end» : Int) (h : «end» < start) : blockRange start «end» = [] := by
  unfold blockRange
  have : («end» + 1 - start).toNat = 0 := by omega
  rw [this]
  rfl

theorem blockRange_cons (start «end» : Int) (h : start ≤ «end») :
    blockRange start «end» = start :: blockRange (start + 1) «end» := by
  unfold blockRange
  have : («end» + 1 - start).toNat = («end» + 1 - (start + 1)).toNat + 1 := by omega
  rw [this, List.range_succ_eq_map]
  simp only [List.map_cons, List.map_map, Nat.cast_zero, add_zero, List.cons.injEq, true_and]
  apply List.map_congr_left
  intro i _
  simp only [Function.comp, Nat.cast_succ]
  omega

theorem blockRange_split (start «end» n : Int) (h1 : start ≤ n) (h2 : n ≤ «end») :
    blockRange start «end» = blockRange start (n - 1) ++ n :: blockRange (n + 1) «end» := by
  obtain ⟨k, hk⟩ : ∃ k : Nat, n = start + k := ⟨(n - start).toNat, by omega⟩
  subst hk
  clear h1
  induction k generalizing start with
  | zero =>
    simp only [Nat.cast_zero, add_zero] at h2 ⊢
    rw [blockRange_empty start (start - 1) (by omega), List.nil_append]
    exact blockRange_cons start «end» h2
  | succ k ih =>
    have h3 : start + ((k + 1 : Nat) : Int) = (start + 1) + (k : Int) := by push_cast; ring
    rw [h3] at h2 ⊢
    rw [blockRange_cons start «end» (by omega), ih (start + 1) h2,
      blockRange_cons start (start + 1 + k - 1) (by omega), List.cons_append]

theorem forBlocks_append (body : Int → M Unit) (l1 l2 : List Int) (w : World) :
    forBlocks body (l1 ++ l2) w =
      (forBlocks body l1 >>= fun _ => forBlocks body l2) w := by
  induction l1 generalizing w with
  | nil => rfl
  | cons index rest ih =>
    show (body index >>= fun _ => forBlocks body (rest ++ l2)) w =
      ((body index >>= fun _ => forBlocks body rest) >>= fun _ => forBlocks body l2) w
    rw [bind_apply, bind_apply, bind_apply]
    rcases body index w with ⟨r, w'⟩
    cases r with
    | ok a => simp only [ih, bind_apply]
    | error e => rfl

theorem forBlocks_cons (body : Int → M Unit) (index : Int) (rest : List Int) :
    forBlocks body (index :: rest) = (body index >>= fun _ => forBlocks body rest) := rfl

/-- The walk of a range, cut at one of its indices: the indices before it, the index,
the indices after it. -/
theorem forBlocks_split (body : Int → M Unit) (hok : ∀ index, Resolves (body index))
    (start «end» n : Int) (h1 : start ≤ n) (h2 : n ≤ «end») (w : World) :
    forBlocks body (blockRange start «end») w =
      forBlocks body (blockRange (n + 1) «end»)
        (body n (forBlocks body (blockRange start (n - 1)) w).2).2 ∧
    forBlocks body (blockRange start n) w =
      (.ok (), (body n (forBlocks body (blockRange start (n - 1)) w).2).2) := by
  obtain ⟨a, ha⟩ := (forBlocks_resolves hok (blockRange start (n - 1))).eq w
  obtain ⟨b, hb⟩ := (hok n).eq (forBlocks body (blockRange start (n - 1)) w).2
  constructor
  · rw [blockRange_split start «end» n h1 h2, forBlocks_append, bind_ok ha, forBlocks_cons,
      bind_ok hb]
  · rw [blockRange_split start n n h1 le_rfl, forBlocks_append, bind_ok ha, forBlocks_cons,
      bind_ok hb, blockRange_empty (n + 1) n (by omega)]
    rfl

/-! ## Sets of addresses -/

theorem mem_setAdd (l : List String) (a x : String) : x ∈ setAdd l a ↔ x ∈ l ∨ x = a := by
  unfold setAdd
  split
  · constructor
    · exact Or.inl
    · rintro (h | rfl)
      · exact h
      · assumption
  · simp

theorem nodup_setAdd (l : List String) (a : String) (h : l.Nodup) : (setAdd l a).Nodup := by
  unfold setAdd
  split
  · exact h
  · rename_i hn
    exact List.Nodup.append h (List.nodup_singleton a) (by simpa using hn)

theorem mem_addAddresses (list : List (Option String)) (acc : List String) (x : String) :
    x ∈ addAddresses acc list ↔ x ∈ acc ∨ (x ≠ "" ∧ some x ∈ list) := by
  induction list generalizing acc with
  | nil => simp [addAddresses]
  | cons o rest ih =>
    have step : addAddresses acc (o :: rest) = addAddresses
        (match o with
          | some a => if truthy o then setAdd acc a else acc
          | none => acc) rest := rfl
    rw [step, ih]
    cases o with
    | none => simp
    | some a =>
      by_cases ha : a = ""
      · subst ha
        simp only [truthy, ne_eq, not_true_eq_false, decide_False, Bool.false_eq_true,
          if_false, List.mem_cons, Option.some.injEq]
        constructor
        · rintro (h | ⟨h1, h2⟩)
          · exact Or.inl h
          · exact Or.inr ⟨h1, Or.inr h2⟩
        · rintro (h | ⟨h1, h2 | h2⟩)
          · exact Or.inl h
          · exact absurd h2 h1
          · exact Or.inr ⟨h1, h2⟩
      · simp only [truthy, ne_eq, ha, not_false_eq_true, decide_True, if_true, mem_setAdd,
          List.mem_cons, Option.some.injEq]
        constructor
        · rintro ((h | rfl) | ⟨h1, h2⟩)
          · exact Or.inl h
          · exact Or.inr ⟨ha, Or.inl rfl⟩
          · exact Or.inr ⟨h1, Or.inr h2⟩
        · rintro (h | ⟨h1, rfl | h2⟩)
          · exact Or.inl (Or.inl h)
          · exact Or.inl (Or.inr rfl)
          · exact Or.inr ⟨h1, h2⟩

theorem nodup_addAddresses (list : List (Option String)) (acc : List String) (h : acc.Nodup) :
    (addAddresses acc list).Nodup := by
  induction list generalizing acc with
  | nil => simpa [addAddresses] using h
  | cons o rest ih =>
    have step : addAddresses acc (o :: rest) = addAddresses
        (match o with
          | some a => if truthy o then setAdd acc a else acc
          | none => acc) rest := rfl
    rw [step]
    apply ih
    cases o with
    | none => exact h
    | some a =>
      show (if truthy (some a) then setAdd acc a else acc).Nodup
      split
      · exact nodup_setAdd _ _ h
      · exact h

theorem mem_foldl_addAddresses {β : Type} (f : β → List (Option String)) (l : List β)
    (acc : List String) (x : String) :
    x ∈ l.foldl (fun addresses b => addAddresses addresses (f b)) acc ↔
      x ∈ acc ∨ (x ≠ "" ∧ ∃ b ∈ l, some x ∈ f b) := by
  induction l generalizing acc with
  | nil => simp
  | cons b rest ih =>
    simp only [List.foldl_cons, ih, mem_addAddresses, List.mem_cons, exists_eq_or_imp]
    tauto

theorem nodup_foldl_addAddresses {β : Type} (f : β → List (Option String)) (l : List β)
    (acc : List String) (h : acc.Nodup) :
    (l.foldl (fun addresses b => addAddresses addresses (f b)) acc).Nodup := by
  induction l generalizing acc with
  | nil => simpa using h
  | cons b rest ih =>
    simp only [List.foldl_cons]
    exact ih _ (nodup_addAddresses _ _ h)

theorem mem_addTx (item : Tx) (acc : List String) (x : String) :
    x ∈ addTx acc item ↔ x ∈ acc ∨ (x ≠ "" ∧ item.names x) := by
  simp only [addTx, mem_foldl_addAddresses, Tx.names]
  generalize (∃ b ∈ item.inputs, some x ∈ b.prev_addresses) = P
  generalize (∃ b ∈ item.outputs, some x ∈ b.addresses) = Q
  tauto

theorem mem_foldl_addTx (tx : List Tx) (acc : List String) (x : String) :
    x ∈ tx.foldl addTx acc ↔ x ∈ acc ∨ (x ≠ "" ∧ ∃ item ∈ tx, item.names x) := by
  induction tx generalizing acc with
  | nil => simp
  | cons item rest ih =>
    simp only [List.foldl_cons, ih, mem_addTx, List.mem_cons, exists_eq_or_imp]
    generalize (∃ a ∈ rest, a.names x) = P
    generalize item.names x = Q
    tauto

theorem nodup_foldl_addTx (tx : List Tx) (acc : List String) (h : acc.Nodup) :
    (tx.foldl addTx acc).Nodup := by
  induction tx generalizing acc with
  | nil => simpa using h
  | cons item rest ih =>
    simp only [List.foldl_cons]
    exact ih _ (nodup_foldl_addAddresses _ _ _ (nodup_foldl_addAddresses _ _ _ h))

theorem getInputOutputAddressesFromTx_eq (tx : List Tx) :
    getInputOutputAddressesFromTx tx = tx.foldl addTx [] := rfl

theorem mem_getInputOutputAddressesFromTx (tx : List Tx) (x : String) :
    x ∈ getInputOutputAddressesFromTx tx ↔ x ≠ "" ∧ ∃ item ∈ tx, item.names x := by
  rw [getInputOutputAddressesFromTx_eq, mem_foldl_addTx]
  simp

theorem nodup_getInputOutputAddressesFromTx (tx : List Tx) :
    (getInputOutputAddressesFromTx tx).Nodup := by
  rw [getInputOutputAddressesFromTx_eq]
  exact nodup_foldl_addTx _ _ List.nodup_nil

/-! ## Records -/

theorem head_filter_isSome (l : List AddressRow) (address : String) :
    (l.filter fun r => r.address = address).head?.isSome = true ↔
      address ∈ l.map fun r => r.address := by
  induction l with
  | nil => simp
  | cons r rest ih =>
    by_cases h : r.address = address
    · simp [List.filter_cons, h]
    · simp only [List.filter_cons, h, decide_False, Bool.false_eq_true, if_false, ih,
        List.map_cons, List.mem_cons]
      constructor
      · exact Or.inr
      · rintro (h' | h')
        · exact absurd h'.symm h
        · exact h'

theorem getAddressRecord_ok {env : Env} {address : String} {w w' : World}
    {record : Option AddressRow} (h : getAddressRecord env address w = (.ok record, w')) :
    w'.store = w.store ∧ w'.trace = w.trace ++ [.sql (.selectAddress address)] ∧
      (record.isSome = true ↔ address ∈ w.store.keys) ∧
      env.sqlError w.trace.length (.selectAddress address) = none := by
  unfold getAddressRecord BitcoinAddress.query at h
  split at h
  · simp at h
  · rename_i hq
    simp only [Prod.mk.injEq, Except.ok.injEq] at h
    obtain ⟨h1, h2⟩ := h
    subst h1 h2
    exact ⟨rfl, rfl, head_filter_isSome _ _, hq⟩

theorem selectNewAddresses_ok {env : Env} {addresses : List String} :
    ∀ {newAddresses result : List String} {w w' : World},
      selectNewAddresses env addresses newAddresses w = (.ok result, w') →
      w'.store = w.store ∧
        result = newAddresses ++ addresses.filter fun a => a ∉ w.store.keys := by
  induction addresses with
  | nil =>
    intro newAddresses result w w' h
    simp only [selectNewAddresses, pure_apply, Prod.mk.injEq, Except.ok.injEq] at h
    simp [h.1, h.2]
  | cons address rest ih =>
    intro newAddresses result w w' h
    rw [selectNewAddresses] at h
    rcases outcome (getAddressRecord env address) w with ⟨record, w1, h1⟩ | ⟨e, w1, h1⟩
    · rw [bind_ok h1] at h
      obtain ⟨hs, _, hr, _⟩ := getAddressRecord_ok h1
      obtain ⟨hs', hres⟩ := ih h
      refine ⟨hs'.trans hs, ?_⟩
      rw [hres, hs]
      by_cases hmem : address ∈ w.store.keys
      · simp [hr.mpr hmem, List.filter_cons, hmem]
      · have : record.isSome = false := by
          cases hsome : record.isSome
          · rfl
          · exact absurd (hr.mp hsome) hmem
        simp [this, List.filter_cons, hmem]
    · rw [bind_error h1] at h
      simp at h

theorem promiseAll_startBalanceRequests {env : Env} {addresses : List String} :
    ∀ {w : World} {response : List BalanceResponse},
      promiseAll (startBalanceRequests env addresses w).1 = .ok response →
      response.map (fun item => item.data.address) = addresses := by
  induction addresses with
  | nil =>
    intro w response h
    simp only [startBalanceRequests, promiseAll, Except.ok.injEq] at h
    simp [← h]
  | cons address rest ih =>
    intro w response h
    unfold startBalanceRequests at h
    split at h
    · simp only [promiseAll] at h
      split at h
      · rename_i as has
        simp only [Except.ok.injEq] at h
        subst h
        simp [ih has]
      · simp at h
    · simp only at h
      cases hg : (getBalance env address w).1 with
      | error e => rw [hg] at h; simp [promiseAll] at h
      | ok a =>
        rw [hg] at h
        simp only [promiseAll] at h
        split at h
        · rename_i as has
          simp only [Except.ok.injEq] at h
          subst h
          have ha : a.data.address = address := by
            simp only [getBalance, BitcoinAddress.send] at hg
            cases hb : env.explorerBalance w.trace.length address with
            | error e => rw [hb] at hg; simp [Except.map] at hg
            | ok b =>
              rw [hb] at hg
              simp only [Except.map, Except.ok.injEq] at hg
              rw [← hg]
          simp [ih has, ha]
        · simp at h

theorem resolveNewAddresses_ok {env : Env} {uniqueAddresses : List String} {w w' : World}
    {info : List BalanceItem} (h : resolveNewAddresses env uniqueAddresses w = (.ok info, w')) :
    w'.store = w.store ∧
      info.map (fun item => item.address) =
        uniqueAddresses.filter fun a => a ∉ w.store.keys := by
  have hst := resolveNewAddresses_steps env uniqueAddresses w
  rw [h] at hst
  refine ⟨hst, ?_⟩
  unfold resolveNewAddresses at h
  rcases outcome (selectNewAddresses env uniqueAddresses []) w with ⟨new, w1, h1⟩ | ⟨e, w1, h1⟩
  · rw [bind_ok h1, bind_apply] at h
    obtain ⟨_, hnew⟩ := selectNewAddresses_ok h1
    cases hp : promiseAll (startBalanceRequests env new w1).1 with
    | error e => rw [hp] at h; simp at h
    | ok response =>
      rw [hp] at h
      simp only [pure_apply, Prod.mk.injEq, Except.ok.injEq] at h
      rw [← h.1, List.map_map]
      have := promiseAll_startBalanceRequests hp
      rw [List.nil_append] at hnew
      rw [← hnew, ← this]
      rfl
  · rw [bind_error h1] at h
    simp at h

theorem upsertItem_ok {env : Env} {index : Int} {item : BalanceItem} {w w' : World}
    (h : upsertItem env index item w = (.ok (), w')) : item.address ∈ w'.store.keys := by
  unfold upsertItem at h
  rcases outcome (getAddressRecord env item.address) w with ⟨record, w1, h1⟩ | ⟨e, w1, h1⟩
  · rw [bind_ok h1] at h
    obtain ⟨hs, _, hr, _⟩ := getAddressRecord_ok h1
    split at h
    · rename_i hsome
      have hk := (updateAddressBalance_steps env item.address index item.balance w1).2.2
        item.address (by rw [hs]; exact hr.mp hsome)
      rw [h] at hk
      exact hk
    · unfold addNewAddressRecord BitcoinAddress.query at h
      split at h
      · simp at h
      · simp only [Prod.mk.injEq, true_and] at h
        subst h
        simp [Store.keys]
  · rw [bind_error h1] at h
    simp at h

theorem upsertItems_ok {env : Env} {index : Int} {info : List BalanceItem} :
    ∀ {w w' : World}, upsertItems env index info w = (.ok (), w') →
      ∀ item ∈ info, item.address ∈ w'.store.keys := by
  induction info with
  | nil => intro w w' _ item hi; simp at hi
  | cons first rest ih =>
    intro w w' h item hi
    rw [upsertItems] at h
    rcases outcome (upsertItem env index first) w with ⟨a, w1, h1⟩ | ⟨e, w1, h1⟩
    · rw [bind_ok h1] at h
      rcases List.mem_cons.mp hi with rfl | hi
      · have hk := (upsertItems_steps env index rest w1).2.2 _ (upsertItem_ok h1)
        rw [h] at hk
        exact hk
      · exact ih h item hi
    · rw [bind_error h1] at h
      simp at h

theorem mem_uniqueOf (addresses : List String) (a : String) :
    a ∈ uniqueOf addresses ↔ a ∈ addresses := by
  have : ∀ acc : List String, a ∈ addresses.foldl setAdd acc ↔ a ∈ acc ∨ a ∈ addresses := by
    induction addresses with
    | nil => simp
    | cons b rest ih =>
      intro acc
      simp only [List.foldl_cons, ih, mem_setAdd, List.mem_cons]
      tauto
  simpa [uniqueOf] using this []

theorem nodup_uniqueOf (addresses : List String) : (uniqueOf addresses).Nodup := by
  have : ∀ acc : List String, acc.Nodup → (addresses.foldl setAdd acc).Nodup := by
    induction addresses with
    | nil => intro acc h; simpa using h
    | cons b rest ih =>
      intro acc h
      simp only [List.foldl_cons]
      exact ih _ (nodup_setAdd _ _ h)
  exact this [] List.nodup_nil

/-- The `try` block of `syncBlocks`, when it completes, leaves a record for every
address of the pages. -/
theorem resolveBlock_ok {env : Env} {index : Int} {w w' : World}
    (h : resolveBlock env index w = (.ok (), w')) :
    ∃ addresses w1, fetchBlockAddresses env index w = (.ok addresses, w1) ∧
      ∀ a ∈ addresses, a ∈ w'.store.keys := by
  unfold resolveBlock getBlockInfo at h
  rcases outcome (fetchBlockAddresses env index) w with ⟨addresses, w1, h1⟩ | ⟨e, w1, h1⟩
  · rw [bind_bind, bind_ok h1] at h
    refine ⟨addresses, w1, h1, ?_⟩
    rcases outcome (resolveNewAddresses env (uniqueOf addresses)) w1 with
      ⟨info, w2, h2⟩ | ⟨e, w2, h2⟩
    · rw [bind_ok h2] at h
      obtain ⟨hs, hinfo⟩ := resolveNewAddresses_ok h2
      intro a ha
      by_cases hmem : a ∈ w1.store.keys
      · have hk := (upsertItems_steps env index info w2).2.2 a (by rw [hs]; exact hmem)
        rw [h] at hk
        exact hk
      · have : a ∈ info.map (fun item => item.address) := by
          rw [hinfo]
          exact List.mem_filter.mpr ⟨(mem_uniqueOf _ _).mpr ha, by simpa using hmem⟩
        obtain ⟨item, hitem, rfl⟩ := List.mem_map.mp this
        exact upsertItems_ok h item hitem
    · rw [bind_error h2] at h
      simp at h
  · rw [bind_bind, bind_error h1] at h
    simp at h

theorem scenarioEnv_bookkeeping : scenarioEnv.BookkeepingSucceeds := fun _ _ _ => rfl

theorem syncBlocks_eq_forBlocks (env : Env) (start «end» : Int) (h : start < «end») :
    syncBlocks env start «end» = forBlocks (syncBlock env) (blockRange start «end») := by
  unfold syncBlocks
  rw [if_neg (by omega)]

theorem syncRpcBlocks_eq_forBlocks (env : Env) (start «end» : Int) (h : start < «end») :
    syncRpcBlocks env start «end» = forBlocks (syncRpcBlock env) (blockRange start «end») := by
  unfold syncRpcBlocks
  rw [if_neg (by omega)]

/-- C3.  Checkpoint monotonicity.  The loop of `syncBlocks` over the indices from
`start` to `end`, which is what `syncBlocks(start, end)` runs when `start < end`,
started from a store whose checkpoint is `start - 1`, the statements on tables
`failed` and `status` running without error: the loop resolves; the values it writes
to table `status` are `start, start + 1, ..., end`, in that order, one for each
index; the checkpoint is `k - 1` when the walk reaches index `k` and `k` when it
leaves it, whether the resolution of block `k` succeeded or threw; and it is `end`
after the walk. -/
theorem syncBlocks_checkpoint_monotone (env : Env) (hb : env.BookkeepingSucceeds)
    (start «end» : Int) (w : World) (hle : start ≤ «end»)
    (h0 : w.store.checkpoint = some (start - 1)) :
    (start < «end» →
      syncBlocks env start «end» w = forBlocks (syncBlock env) (blockRange start «end») w) ∧
    (forBlocks (syncBlock env) (blockRange start «end») w).1 = .ok () ∧
    (forBlocks (syncBlock env) (blockRange start «end») w).2.trace.filterMap checkpointWrite =
      w.trace.filterMap checkpointWrite ++ blockRange start «end» ∧
    (blockRange start «end»).Sorted (· < ·) ∧
    (∀ k, start ≤ k → k ≤ «end» →
      (reached (syncBlock env) start k w).store.checkpoint = some (k - 1) ∧
      (syncBlock env k (reached (syncBlock env) start k w)).2.store.checkpoint = some k ∧
      forBlocks (syncBlock env) (blockRange start «end») w =
        forBlocks (syncBlock env) (blockRange (k + 1) «end»)
          (syncBlock env k (reached (syncBlock env) start k w)).2) ∧
    (forBlocks (syncBlock env) (blockRange start «end») w).2.store.checkpoint = some «end» := by
  simp only [reached]
  have hok := syncBlock_resolves env hb
  have hk : ∀ k, start ≤ k → k ≤ «end» →
      (forBlocks (syncBlock env) (blockRange start (k - 1)) w).2.store.checkpoint
        = some (k - 1) := by
    intro k h1 h2
    rcases eq_or_lt_of_le h1 with rfl | h1
    · rw [blockRange_empty start (start - 1) (by omega)]
      exact h0
    · have h := (forBlocks_split (syncBlock env) hok start (k - 1) (k - 1) (by omega) le_rfl w).2
      rw [h]
      exact syncBlock_checkpoint env hb _ _
  refine ⟨fun hlt => by rw [syncBlocks_eq_forBlocks env start «end» hlt], ?_, ?_,
    blockRange_sorted _ _, ?_, ?_⟩
  · obtain ⟨a, ha⟩ := forBlocks_resolves hok (blockRange start «end») w
    exact ha
  · have h := Emits.forBlocks (c := id) (syncBlock_checkpointWrite env hb) hok
      (blockRange start «end») w
    rw [List.map_id] at h
    exact h
  · intro k h1 h2
    exact ⟨hk k h1 h2, syncBlock_checkpoint env hb _ _,
      (forBlocks_split (syncBlock env) hok start «end» k h1 h2 w).1⟩
  · have h := (forBlocks_split (syncBlock env) hok start «end» «end» hle le_rfl w).2
    rw [h]
    exact syncBlock_checkpoint env hb _ _

/-- C3 at the walk of blocks 0 to 2 of the example, from a fresh store. -/
theorem syncBlocks_checkpoint_monotone_witness :
    scenarioEnv.BookkeepingSucceeds ∧ (0 : Int) ≤ 2 ∧
    freshWorld.store.checkpoint = some (0 - 1) ∧
    (forBlocks (syncBlock scenarioEnv) (blockRange 0 2) freshWorld).2.trace.filterMap
      checkpointWrite = freshWorld.trace.filterMap checkpointWrite ++ blockRange 0 2 ∧
    (forBlocks (syncBlock scenarioEnv) (blockRange 0 2) freshWorld).2.store.checkpoint =
      some 2 :=
  ⟨scenarioEnv_bookkeeping, by decide, by decide,
    (syncBlocks_checkpoint_monotone scenarioEnv scenarioEnv_bookkeeping 0 2 freshWorld
      (by decide) (by decide)).2.2.1,
    (syncBlocks_checkpoint_monotone scenarioEnv scenarioEnv_bookkeeping 0 2 freshWorld
      (by decide) (by decide)).2.2.2.2.2⟩

/-- C4, as the code has it.  For `start < end`, the statements on tables `failed` and
`status` running without error, `syncBlocks` asks the explorer for the first page of
every index from `start` to `end`, once each and in ascending order, and
`syncRpcBlocks` asks the daemon for the hash of each of them in the same way; for
`end <= start`, so also for a range of one block, both resolve at once and leave the
world as it was: no block is attempted and the checkpoint is not written. -/
theorem walkers_attempt_range (env : Env) (hb : env.BookkeepingSucceeds)
    (start «end» : Int) (w : World) :
    (start < «end» →
      (syncBlocks env start «end» w).1 = .ok () ∧
      (syncBlocks env start «end» w).2.trace.filterMap attempt =
        w.trace.filterMap attempt ++ blockRange start «end» ∧
      (syncRpcBlocks env start «end» w).1 = .ok () ∧
      (syncRpcBlocks env start «end» w).2.trace.filterMap rpcAttempt =
        w.trace.filterMap rpcAttempt ++ blockRange start «end») ∧
    («end» ≤ start →
      syncBlocks env start «end» w = (.ok (), w) ∧
      syncRpcBlocks env start «end» w = (.ok (), w)) ∧
    (blockRange start «end»).Sorted (· < ·) ∧
    ∀ n, n ∈ blockRange start «end» ↔ start ≤ n ∧ n ≤ «end» := by
  refine ⟨?_, ?_, blockRange_sorted _ _, mem_blockRange _ _⟩
  · intro hlt
    rw [syncBlocks_eq_forBlocks env start «end» hlt, syncRpcBlocks_eq_forBlocks env start «end» hlt]
    refine ⟨?_, ?_, ?_, ?_⟩
    · obtain ⟨a, ha⟩ := forBlocks_resolves (syncBlock_resolves env hb) (blockRange start «end») w
      exact ha
    · have h := Emits.forBlocks (c := id) (syncBlock_attempt env) (syncBlock_resolves env hb)
        (blockRange start «end») w
      rw [List.map_id] at h
      exact h
    · obtain ⟨a, ha⟩ := forBlocks_resolves (syncRpcBlock_resolves env hb)
        (blockRange start «end») w
      exact ha
    · have h := Emits.forBlocks (c := id) (syncRpcBlock_attempt env)
        (syncRpcBlock_resolves env hb) (blockRange start «end») w
      rw [List.map_id] at h
      exact h
  · intro hle
    unfold syncBlocks syncRpcBlocks
    rw [if_pos hle, if_pos hle]
    exact ⟨rfl, rfl⟩

/-- C4 at the walks of blocks 0 to 2 of the example. -/
theorem walkers_attempt_range_witness :
    scenarioEnv.BookkeepingSucceeds ∧ (0 : Int) < 2 ∧
    (syncBlocks scenarioEnv 0 2 freshWorld).2.trace.filterMap attempt = [0, 1, 2] ∧
    (syncRpcBlocks scenarioEnv 0 2 freshWorld).2.trace.filterMap rpcAttempt = [0, 1, 2] :=
  ⟨scenarioEnv_bookkeeping, by decide,
    ((walkers_attempt_range scenarioEnv scenarioEnv_bookkeeping 0 2 freshWorld).1
      (by decide)).2.1,
    ((walkers_attempt_range scenarioEnv scenarioEnv_bookkeeping 0 2 freshWorld).1
      (by decide)).2.2.2⟩

/-- C4 as stated fails on a range of one block: `syncBlocks(0, 0)` and
`syncRpcBlocks(0, 0)` leave the fresh store and the trace as they were, so block 0,
which the explorer and the daemon of the example would deliver, is not attempted and
the checkpoint stays at -1. -/
theorem single_block_range_not_walked :
    syncBlocks scenarioEnv 0 0 freshWorld = (.ok (), freshWorld) ∧
    syncRpcBlocks scenarioEnv 0 0 freshWorld = (.ok (), freshWorld) ∧
    (syncBlocks scenarioEnv 0 0 freshWorld).2.trace.filterMap attempt = [] ∧
    (syncRpcBlocks scenarioEnv 0 0 freshWorld).2.trace.filterMap rpcAttempt = [] ∧
    (syncBlocks scenarioEnv 0 0 freshWorld).2.store.checkpoint = some (-1) ∧
    (syncRpcBlocks scenarioEnv 0 0 freshWorld).2.store.checkpoint = some (-1) ∧
    (∃ info w, getBlockInfo scenarioEnv 0 freshWorld = (.ok info, w)) := by
  refine ⟨rfl, rfl, rfl, rfl, by decide, by decide, ?_⟩
  exact ⟨[⟨"A", 1⟩, ⟨"B", 2⟩], (getBlockInfo scenarioEnv 0 freshWorld).2, by decide!⟩

theorem mem_objectKeys (keys : List String) (a : String) :
    a ∈ objectKeys keys ↔ a ∈ keys := by
  unfold objectKeys
  rw [List.mem_append, List.mem_map, List.mem_filter]
  constructor
  · rintro (⟨p, hp, rfl⟩ | ⟨h, _⟩)
    · rw [(List.perm_insertionSort _ _).mem_iff, List.mem_filterMap] at hp
      obtain ⟨k, hk, hkp⟩ := hp
      cases hidx : arrayIndex k with
      | none => rw [hidx] at hkp; simp at hkp
      | some n =>
        rw [hidx] at hkp
        simp only [Option.map_some', Option.some.injEq] at hkp
        rw [← hkp]
        exact hk
    · exact h
  · intro h
    cases hidx : arrayIndex a with
    | none => exact Or.inr ⟨h, by simp⟩
    | some n =>
      refine Or.inl ⟨(n, a), ?_, rfl⟩
      rw [(List.perm_insertionSort _ _).mem_iff, List.mem_filterMap]
      exact ⟨a, h, by simp [hidx]⟩

theorem insertNewRecords_ok {env : Env} {index : Int} {addresses : List String} :
    ∀ {w w' : World}, insertNewRecords env index addresses w = (.ok (), w') →
      ∀ a ∈ addresses, a ∈ w'.store.keys := by
  induction addresses with
  | nil => intro w w' _ a ha; simp at ha
  | cons address rest ih =>
    intro w w' h a ha
    rw [insertNewRecords] at h
    rcases outcome (getAddressRecord env address) w with ⟨record, w1, h1⟩ | ⟨e, w1, h1⟩
    · rw [bind_ok h1] at h
      obtain ⟨hs, _, hr, _⟩ := getAddressRecord_ok h1
      rcases outcome (if record.isSome = true then (pure () : M Unit)
          else addNewAddressRecord env address index 0) w1 with ⟨u, w2, h2⟩ | ⟨e, w2, h2⟩
      · rw [bind_ok h2] at h
        rcases List.mem_cons.mp ha with rfl | ha
        · have hin : a ∈ w2.store.keys := by
            split at h2
            · rename_i hsome
              simp only [pure_apply, Prod.mk.injEq] at h2
              rw [← h2.2, hs]
              exact hr.mp hsome
            · unfold addNewAddressRecord BitcoinAddress.query at h2
              split at h2
              · simp at h2
              · simp only [Prod.mk.injEq] at h2
                rw [← h2.2]
                simp [Store.keys]
          have hk := (insertNewRecords_steps env index rest w2).2.2 a hin
          rw [h] at hk
          exact hk
        · exact ih h a ha
      · rw [bind_error h2] at h
        simp at h
    · rw [bind_error h1] at h
      simp at h

/-- The `try` block of `syncRpcBlocks`, when it completes, leaves a record for every
key of the object `addresses`. -/
theorem resolveRpcBlock_ok {env : Env} {index : Int} {w w' : World}
    (h : resolveRpcBlock env index w = (.ok (), w')) :
    ∃ addresses w1, fetchRpcAddresses env index w = (.ok addresses, w1) ∧
      ∀ a ∈ addresses, a ∈ w'.store.keys := by
  unfold resolveRpcBlock at h
  rcases outcome (fetchRpcAddresses env index) w with ⟨addresses, w1, h1⟩ | ⟨e, w1, h1⟩
  · rw [bind_ok h1] at h
    exact ⟨addresses, w1, h1, fun a ha =>
      insertNewRecords_ok h a ((mem_objectKeys _ _).mpr ha)⟩
  · rw [bind_error h1] at h
    simp at h

/-- One turn of a walker covers its index: it leaves a failure entry for the index,
or the `try` block completed. -/
theorem turn_covers (env : Env) (hb : env.BookkeepingSucceeds) (body : M Unit) (index : Int)
    (w : World) :
    (∃ row ∈ ((tryCatch body (fun error => addFailedRecord env index (errorMessage env error))
        >>= fun _ => updateStatusKey env "status" "blockNumber" index) w).2.store.failed,
      row.blockNumber = index) ∨
    ∃ w', body w = (.ok (), w') ∧
      ((tryCatch body (fun error => addFailedRecord env index (errorMessage env error))
        >>= fun _ => updateStatusKey env "status" "blockNumber" index) w).2.store.addresses
        = w'.store.addresses := by
  rcases outcome body w with ⟨a, w1, h1⟩ | ⟨e, w1, h1⟩
  · right
    refine ⟨w1, h1, ?_⟩
    rw [bind_ok (tryCatch_ok h1)]
    obtain ⟨w2, h2, ha, _⟩ := updateStatusKey_ok env hb index w1
    rw [h2]
    exact ha
  · left
    obtain ⟨text, ht⟩ := addFailedRecord_ok env hb index (errorMessage env e) w1
    rw [bind_ok ((tryCatch_error h1).trans ht)]
    obtain ⟨w2, h2, _, hf, _⟩ := updateStatusKey_ok env hb index
      { store := { w1.store with failed := w1.store.failed ++ [⟨index, text⟩] },
        trace := w1.trace ++ [.sql (.insertFailed index text)] }
    rw [h2, hf]
    exact ⟨⟨index, text⟩, by simp, rfl⟩

/-- C2.  Coverage.  When `syncBlocks(start, end)`, and likewise `syncRpcBlocks`,
walks a range (`start < end`), the statements on tables `failed` and `status` running
without error, the walk resolves, and for every `n` from `start` to `end`, after the
walk, table `failed` holds an entry for block `n`, or the addresses of block `n` were
read without error when the walk reached `n` and each of them has a record in table
`addresses`. -/
theorem walkers_cover_range (env : Env) (hb : env.BookkeepingSucceeds) (start «end» : Int)
    (w : World) (hlt : start < «end») (n : Int) (h1 : start ≤ n) (h2 : n ≤ «end») :
    ((syncBlocks env start «end» w).1 = .ok () ∧
      ((∃ row ∈ (syncBlocks env start «end» w).2.store.failed, row.blockNumber = n) ∨
        ∃ addresses w', fetchBlockAddresses env n (reached (syncBlock env) start n w)
            = (.ok addresses, w') ∧
          ∀ a ∈ addresses, a ∈ (syncBlocks env start «end» w).2.store.keys)) ∧
    ((syncRpcBlocks env start «end» w).1 = .ok () ∧
      ((∃ row ∈ (syncRpcBlocks env start «end» w).2.store.failed, row.blockNumber = n) ∨
        ∃ addresses w', fetchRpcAddresses env n (reached (syncRpcBlock env) start n w)
            = (.ok addresses, w') ∧
          ∀ a ∈ addresses, a ∈ (syncRpcBlocks env start «end» w).2.store.keys)) := by
  rw [syncBlocks_eq_forBlocks env start «end» hlt, syncRpcBlocks_eq_forBlocks env start «end» hlt]
  constructor
  · refine ⟨?_, ?_⟩
    · obtain ⟨a, ha⟩ := forBlocks_resolves (syncBlock_resolves env hb) (blockRange start «end») w
      exact ha
    · rw [(forBlocks_split (syncBlock env) (syncBlock_resolves env hb) start «end» n h1 h2 w).1]
      have hg := forBlocks_steps grows_order _ (syncBlock_steps env) (blockRange (n + 1) «end»)
        (syncBlock env n (reached (syncBlock env) start n w)).2
      rcases turn_covers env hb (resolveBlock env n) n (reached (syncBlock env) start n w) with
        ⟨row, hrow, hn⟩ | ⟨w1, hw1, haddr⟩
      · exact Or.inl ⟨row, hg.2 row hrow, hn⟩
      · right
        obtain ⟨addresses, w0, hf, hall⟩ := resolveBlock_ok hw1
        refine ⟨addresses, w0, hf, fun a ha => hg.1 a ?_⟩
        show a ∈ List.map _ _
        rw [show (syncBlock env n (reached (syncBlock env) start n w)).2.store.addresses
          = w1.store.addresses from haddr]
        exact hall a ha
  · refine ⟨?_, ?_⟩
    · obtain ⟨a, ha⟩ := forBlocks_resolves (syncRpcBlock_resolves env hb)
        (blockRange start «end») w
      exact ha
    · rw [(forBlocks_split (syncRpcBlock env) (syncRpcBlock_resolves env hb) start «end» n
        h1 h2 w).1]
      have hg := forBlocks_steps grows_order _ (syncRpcBlock_steps env)
        (blockRange (n + 1) «end») (syncRpcBlock env n (reached (syncRpcBlock env) start n w)).2
      rcases turn_covers env hb (resolveRpcBlock env n) n
        (reached (syncRpcBlock env) start n w) with ⟨row, hrow, hn⟩ | ⟨w1, hw1, haddr⟩
      · exact Or.inl ⟨row, hg.2 row hrow, hn⟩
      · right
        obtain ⟨addresses, w0, hf, hall⟩ := resolveRpcBlock_ok hw1
        refine ⟨addresses, w0, hf, fun a ha => hg.1 a ?_⟩
        show a ∈ List.map _ _
        rw [show (syncRpcBlock env n (reached (syncRpcBlock env) start n w)).2.store.addresses
          = w1.store.addresses from haddr]
        exact hall a ha

/-! ## The pages of a block -/

theorem pagesFrom_succ (m k : Nat) : pagesFrom m (k + 1) = m :: pagesFrom (m + 1) k := by
  unfold pagesFrom
  rw [List.range_succ_eq_map]
  simp only [List.map_cons, zero_add, List.map_map, List.cons.injEq, true_and]
  apply List.map_congr_left
  intro i _
  simp only [Function.comp, Nat.succ_eq_add_one]
  omega

theorem pageRange_eq (pageTotal : Int) : pageRange pageTotal = pagesFrom 2 (pageTotal - 1).toNat :=
  rfl

theorem getBlockTxInfo_apply (env : Env) (blockNumber : Int) (page : Nat) (w : World) :
    getBlockTxInfo env blockNumber page w =
      (env.explorerBlockTx w.trace.length blockNumber page,
        { w with trace := w.trace ++ [.blockTx blockNumber page] }) := rfl

theorem fetchNextPages_ok (env : Env) (blockNumber : Int) (pages : Nat → PageInfo) (k : Nat) :
    ∀ (m : Nat) (addresses : List String) (w : World),
      (∀ i, i < k → env.explorerBlockTx (w.trace.length + i) blockNumber (m + i)
        = .ok (pages (m + i))) →
      fetchNextPages env blockNumber (pagesFrom m k) addresses w =
        (.ok (addresses ++ pageAddresses pages m k),
          { w with trace := w.trace ++ (pagesFrom m k).map (Request.blockTx blockNumber) }) := by
  induction k with
  | zero =>
    intro m addresses w _
    simp [pagesFrom, pageAddresses, fetchNextPages, pure_apply]
  | succ k ih =>
    intro m addresses w h
    rw [pagesFrom_succ, fetchNextPages]
    have h0 := h 0 (by omega)
    simp only [add_zero] at h0
    have hg : getBlockTxInfo env blockNumber m w =
        (.ok (pages m), { w with trace := w.trace ++ [.blockTx blockNumber m] }) := by
      rw [getBlockTxInfo_apply, h0]
    rw [bind_ok hg, ih (m + 1)]
    · simp [pageAddresses, pagesFrom_succ, List.append_assoc]
    · intro i hi
      have := h (i + 1) (by omega)
      simp only [List.length_append, List.length_singleton]
      rw [show w.trace.length + 1 + i = w.trace.length + (i + 1) by omega,
        show m + 1 + i = m + (i + 1) by omega]
      exact this

theorem fetchNextPages_error (env : Env) (blockNumber : Int) (e : Thrown) (k : Nat) :
    ∀ (m j : Nat) (addresses : List String) (w : World), j < k →
      (∀ i, i < j → ∃ info, env.explorerBlockTx (w.trace.length + i) blockNumber (m + i)
        = .ok info) →
      env.explorerBlockTx (w.trace.length + j) blockNumber (m + j) = .error e →
      fetchNextPages env blockNumber (pagesFrom m k) addresses w =
        (.error e,
          { w with trace := w.trace ++ (pagesFrom m (j + 1)).map (Request.blockTx blockNumber) })
      := by
  induction k with
  | zero => intro m j addresses w hj; omega
  | succ k ih =>
    intro m j addresses w hj hbefore herr
    rw [pagesFrom_succ, fetchNextPages]
    cases j with
    | zero =>
      simp only [add_zero] at herr
      have hg : getBlockTxInfo env blockNumber m w =
          (.error e, { w with trace := w.trace ++ [.blockTx blockNumber m] }) := by
        rw [getBlockTxInfo_apply, herr]
      rw [bind_error hg]
      simp [pagesFrom, List.range_succ]
    | succ j =>
      obtain ⟨info, h0⟩ := hbefore 0 (by omega)
      simp only [add_zero] at h0
      have hg : getBlockTxInfo env blockNumber m w =
          (.ok info, { w with trace := w.trace ++ [.blockTx blockNumber m] }) := by
        rw [getBlockTxInfo_apply, h0]
      rw [bind_ok hg, ih (m + 1) j _ _ (by omega)]
      · rw [pagesFrom_succ m (j + 1)]
        simp [List.append_assoc]
      · intro i hi
        obtain ⟨info', h'⟩ := hbefore (i + 1) (by omega)
        refine ⟨info', ?_⟩
        simp only [List.length_append, List.length_singleton]
        rw [show w.trace.length + 1 + i = w.trace.length + (i + 1) by omega,
          show m + 1 + i = m + (i + 1) by omega]
        exact h'
      · simp only [List.length_append, List.length_singleton]
        rw [show w.trace.length + 1 + j = w.trace.length + (j + 1) by omega,
          show m + 1 + j = m + (j + 1) by omega]
        exact herr

theorem mem_pageAddresses (pages : Nat → PageInfo) (m k : Nat) (a : String) :
    a ∈ pageAddresses pages m k ↔
      ∃ p, m ≤ p ∧ p < m + k ∧ a ∈ getInputOutputAddressesFromTx (pageList (pages p)) := by
  simp only [pageAddresses, pagesFrom, List.mem_flatMap, List.mem_map, List.mem_range]
  constructor
  · rintro ⟨p, ⟨i, hi, rfl⟩, ha⟩
    exact ⟨i + m, by omega, by omega, ha⟩
  · rintro ⟨p, h1, h2, ha⟩
    exact ⟨p, ⟨p - m, by omega, by omega⟩, ha⟩

/-- The pages of a block, all delivered: `fetchBlockAddresses` asks for pages 1 to `N`
and resolves with the addresses of these pages. -/
theorem fetchBlockAddresses_ok (env : Env) (blockNumber : Int) (w : World) (N : Nat)
    (pages : Nat → PageInfo) (hN : 1 ≤ N)
    (hpages : ∀ p, 1 ≤ p → p ≤ N →
      env.explorerBlockTx (w.trace.length + (p - 1)) blockNumber p = .ok (pages p))
    (hstatus : (pages 1).status = some "success")
    (htotal : pageTotalOf (pages 1) = some (N : Int)) :
    fetchBlockAddresses env blockNumber w =
      (.ok (pageAddresses pages 1 N),
        { w with trace := w.trace ++ (pagesFrom 1 N).map (Request.blockTx blockNumber) }) := by
  have h1 := hpages 1 le_rfl hN
  simp only [le_refl, Nat.sub_eq_zero_of_le, add_zero] at h1
  have hg : getBlockTxInfo env blockNumber 1 w =
      (.ok (pages 1), { w with trace := w.trace ++ [.blockTx blockNumber 1] }) := by
    rw [getBlockTxInfo_apply, h1]
  rw [fetchBlockAddresses_eq, bind_ok hg]
  unfold afterFirstPage
  rw [if_neg (by simp [hstatus]), htotal]
  obtain ⟨k, rfl⟩ : ∃ k, N = k + 1 := ⟨N - 1, by omega⟩
  have hfirst : pageAddresses pages 1 (k + 1) =
      getInputOutputAddressesFromTx (pageList (pages 1)) ++ pageAddresses pages 2 k := by
    simp [pageAddresses, pagesFrom_succ]
  simp only
  split
  · rename_i hgt
    rw [pageRange_eq, show (((k + 1 : Nat) : Int) - 1).toNat = k by omega,
      fetchNextPages_ok env blockNumber pages k 2]
    · rw [hfirst, pagesFrom_succ 1 k]
      simp [List.append_assoc]
    · intro i hi
      have := hpages (2 + i) (by omega) (by omega)
      simp only [List.length_append, List.length_singleton]
      rw [show w.trace.length + 1 + i = w.trace.length + (2 + i - 1) by omega]
      exact this
  · rename_i hgt
    have hk : k = 0 := by omega
    subst hk
    simp [pure_apply, pageAddresses, pagesFrom, List.range_succ]

theorem pageRequest_none (r : Request) (h : r.kind ∈ [Kind.balance, Kind.daemon,
    Kind.blockHash, Kind.addressRead, Kind.addressWrite, Kind.failedInsert, Kind.failedDelete,
    Kind.statusRead, Kind.statusWrite]) : pageRequest r = none := by
  cases r with
  | blockTx n p =>
    by_cases hp : p = 1 <;> simp [Request.kind, hp] at h
  | _ => rfl

/-- C6.  Pagination completeness.  When the explorer delivers pages 1 to `N` of a
block as `getBlockInfo` asks for them, the first with status `"success"` and a page
count of `N >= 1`, then `getBlockInfo` asks for the pages 1, 2, ..., `N`, each once
and in that order, and for no other page, and the addresses it goes on with, without
repetition, are the addresses extracted from the list of one of these pages. -/
theorem getBlockInfo_reads_all_pages (env : Env) (blockNumber : Int) (w : World) (N : Nat)
    (pages : Nat → PageInfo) (hN : 1 ≤ N)
    (hpages : ∀ p, 1 ≤ p → p ≤ N →
      env.explorerBlockTx (w.trace.length + (p - 1)) blockNumber p = .ok (pages p))
    (hstatus : (pages 1).status = some "success")
    (htotal : pageTotalOf (pages 1) = some (N : Int)) :
    ∃ addresses w',
      fetchBlockAddresses env blockNumber w = (.ok addresses, w') ∧
      w'.trace = w.trace ++ (List.range N).map (fun i => Request.blockTx blockNumber (i + 1)) ∧
      getBlockInfo env blockNumber w = resolveNewAddresses env (uniqueOf addresses) w' ∧
      (getBlockInfo env blockNumber w).2.trace.filterMap pageRequest =
        w.trace.filterMap pageRequest ++ (List.range N).map (fun i => (blockNumber, i + 1)) ∧
      (uniqueOf addresses).Nodup ∧
      ∀ a, a ∈ uniqueOf addresses ↔
        ∃ p, 1 ≤ p ∧ p ≤ N ∧ a ∈ getInputOutputAddressesFromTx (pageList (pages p)) := by
  have h := fetchBlockAddresses_ok env blockNumber w N pages hN hpages hstatus htotal
  refine ⟨_, _, h, ?_, ?_, ?_, nodup_uniqueOf _, ?_⟩
  · simp [pagesFrom]
  · unfold getBlockInfo
    rw [bind_ok h]
  · unfold getBlockInfo
    rw [bind_ok h]
    have hs := (resolveNewAddresses_asks env (uniqueOf (pageAddresses pages 1 N))).silent
      pageRequest (fun r hr => pageRequest_none r (by
        simp only [List.mem_cons, List.mem_singleton, List.not_mem_nil, or_false] at hr ⊢
        rcases hr with hr | hr <;> simp [hr]))
    rw [hs, List.append_nil]
    have hc : (pageRequest ∘ Request.blockTx blockNumber ∘ fun i => i + 1) =
        some ∘ fun i => (blockNumber, i + 1) := rfl
    simp only [List.filterMap_append, pagesFrom, List.filterMap_map, List.map_map, hc,
      List.filterMap_eq_map]
  · intro a
    rw [mem_uniqueOf, mem_pageAddresses]
    constructor
    · rintro ⟨p, h1, h2, ha⟩
      exact ⟨p, h1, by omega, ha⟩
    · rintro ⟨p, h1, h2, ha⟩
      exact ⟨p, h1, by omega, ha⟩

theorem fetchBlockAddresses_pageFails (env : Env) (blockNumber : Int) (w : World) (p : Nat)
    (h : PageFails env blockNumber w.trace.length p) :
    ∃ e, fetchBlockAddresses env blockNumber w =
      (.error e, { w with trace := w.trace ++ (pagesFrom 1 p).map (Request.blockTx blockNumber) })
    := by
  rcases h with ⟨rfl, ⟨e, he⟩ | ⟨info, hinfo, hst⟩⟩ | ⟨hp, first, pageTotal, e, h1, hst, htot, hle, hmid, herr⟩
  · refine ⟨e, ?_⟩
    have hg : getBlockTxInfo env blockNumber 1 w =
        (.error e, { w with trace := w.trace ++ [.blockTx blockNumber 1] }) := by
      rw [getBlockTxInfo_apply, he]
    rw [fetchBlockAddresses_eq, bind_error hg]
    simp [pagesFrom, List.range_succ]
  · refine ⟨.str "Unable to get block tx info", ?_⟩
    have hg : getBlockTxInfo env blockNumber 1 w =
        (.ok info, { w with trace := w.trace ++ [.blockTx blockNumber 1] }) := by
      rw [getBlockTxInfo_apply, hinfo]
    rw [fetchBlockAddresses_eq, bind_ok hg]
    unfold afterFirstPage
    rw [if_pos hst]
    simp [pagesFrom, List.range_succ, M.throw]
  · refine ⟨e, ?_⟩
    have hg : getBlockTxInfo env blockNumber 1 w =
        (.ok first, { w with trace := w.trace ++ [.blockTx blockNumber 1] }) := by
      rw [getBlockTxInfo_apply, h1]
    rw [fetchBlockAddresses_eq, bind_ok hg]
    unfold afterFirstPage
    rw [if_neg (by simp [hst]), htot]
    simp only
    rw [if_pos (by omega), pageRange_eq]
    rw [fetchNextPages_error env blockNumber e (pageTotal - 1).toNat 2 (p - 2) _ _ (by omega)]
    · obtain ⟨k, rfl⟩ : ∃ k, p = k + 2 := ⟨p - 2, by omega⟩
      rw [pagesFrom_succ 1 (k + 1)]
      simp [List.append_assoc]
    · intro i hi
      obtain ⟨info, hi'⟩ := hmid (2 + i) (by omega) (by omega)
      refine ⟨info, ?_⟩
      simp only [List.length_append, List.length_singleton]
      rw [show w.trace.length + 1 + i = w.trace.length + (2 + i - 1) by omega]
      exact hi'
    · simp only [List.length_append, List.length_singleton]
      rw [show w.trace.length + 1 + (p - 2) = w.trace.length + (p - 1) by omega,
        show 2 + (p - 2) = p by omega]
      exact herr

/-- C5, as the code has it.  Pagination abort.  When page `p` of a block fails
(`PageFails`: its request is rejected, or it is the first page and its status is not
`"success"`), `getBlockInfo` rejects after asking for the pages 1 to `p` and nothing
else, leaving the tables as they were; and the turn of `syncBlocks` for the block,
when the statements on tables `failed` and `status` run, appends a failure entry for
the block, leaves table `addresses` as it was and sends no statement on it. -/
theorem page_failure_aborts_block (env : Env) (blockNumber : Int) (w : World) (p : Nat)
    (h : PageFails env blockNumber w.trace.length p) :
    (∃ e w', getBlockInfo env blockNumber w = (.error e, w') ∧ w'.store = w.store ∧
      w'.trace = w.trace ++ (List.range p).map (fun i => Request.blockTx blockNumber (i + 1))) ∧
    (env.BookkeepingSucceeds →
      ∃ text ext,
        (syncBlock env blockNumber w).1 = .ok () ∧
        (syncBlock env blockNumber w).2.store.failed = w.store.failed ++ [⟨blockNumber, text⟩] ∧
        (syncBlock env blockNumber w).2.store.addresses = w.store.addresses ∧
        (syncBlock env blockNumber w).2.trace = w.trace ++ ext ∧
        ∀ r ∈ ext, r.kind ∈ [Kind.firstPage, Kind.nextPage, Kind.failedInsert,
          Kind.statusRead, Kind.statusWrite]) := by
  obtain ⟨e, he⟩ := fetchBlockAddresses_pageFails env blockNumber w p h
  have hinfo : getBlockInfo env blockNumber w =
      (.error e, { w with trace := w.trace ++
        (pagesFrom 1 p).map (Request.blockTx blockNumber) }) := by
    unfold getBlockInfo
    rw [bind_error he]
  refine ⟨⟨e, _, hinfo, rfl, by simp [pagesFrom]⟩, ?_⟩
  intro hb
  have hres : resolveBlock env blockNumber w =
      (.error e, { w with trace := w.trace ++
        (pagesFrom 1 p).map (Request.blockTx blockNumber) }) := by
    unfold resolveBlock
    rw [bind_error hinfo]
  obtain ⟨text, ht⟩ := addFailedRecord_ok env hb blockNumber (errorMessage env e)
    { w with trace := w.trace ++ (pagesFrom 1 p).map (Request.blockTx blockNumber) }
  obtain ⟨w2, h2, ha, hf, _⟩ := updateStatusKey_ok env hb blockNumber
    { store := { w.store with failed := w.store.failed ++ [⟨blockNumber, text⟩] },
      trace := w.trace ++ (pagesFrom 1 p).map (Request.blockTx blockNumber) ++
        [.sql (.insertFailed blockNumber text)] }
  obtain ⟨ext, hext, hkinds⟩ := updateStatusKey_asks env "status" "blockNumber" blockNumber
    { store := { w.store with failed := w.store.failed ++ [⟨blockNumber, text⟩] },
      trace := w.trace ++ (pagesFrom 1 p).map (Request.blockTx blockNumber) ++
        [.sql (.insertFailed blockNumber text)] }
  have hsync : syncBlock env blockNumber w = (.ok (), w2) := by
    unfold syncBlock
    rw [bind_ok ((tryCatch_error hres).trans ht)]
    exact h2
  rw [hsync]
  rw [h2] at hext
  refine ⟨text, (pagesFrom 1 p).map (Request.blockTx blockNumber) ++
    [.sql (.insertFailed blockNumber text)] ++ ext, rfl, hf, ha, ?_, ?_⟩
  · rw [hext]
    simp [List.append_assoc]
  · intro r hr
    simp only [List.mem_append, List.mem_map, List.mem_singleton] at hr
    rcases hr with (⟨q, _, rfl⟩ | rfl) | hr
    · by_cases hq : q = 1 <;> simp [Request.kind, hq]
    · simp [Request.kind]
    · have := hkinds r hr
      simp only [List.mem_cons, List.mem_singleton, List.not_mem_nil, or_false] at this ⊢
      tauto

/-! ## The retry driver -/

theorem bind_ok_inv {α β : Type} {x : M α} {f : α → M β} {w w' : World} {b : β}
    (h : (x >>= f) w = (.ok b, w')) : ∃ a w1, x w = (.ok a, w1) ∧ f a w1 = (.ok b, w') := by
  rcases outcome x w with ⟨a, w1, h1⟩ | ⟨e, w1, h1⟩
  · rw [bind_ok h1] at h
    exact ⟨a, w1, h1, h⟩
  · rw [bind_error h1] at h
    simp at h

theorem bind_error_inv {α β : Type} {x : M α} {f : α → M β} {w w' : World} {e : Thrown}
    (h : (x >>= f) w = (.error e, w')) :
    x w = (.error e, w') ∨ ∃ a w1, x w = (.ok a, w1) ∧ f a w1 = (.error e, w') := by
  rcases outcome x w with ⟨a, w1, h1⟩ | ⟨e1, w1, h1⟩
  · rw [bind_ok h1] at h
    exact Or.inr ⟨a, w1, h1, h⟩
  · rw [bind_error h1] at h
    simp only [Prod.mk.injEq, Except.error.injEq] at h
    obtain ⟨rfl, rfl⟩ := h
    exact Or.inl h1

theorem query_cases {α : Type} (env : Env) (q : Query) (run : Store → α × Store) (w : World) :
    (∃ message, query env q run w =
        (.error (.error message), { w with trace := w.trace ++ [.sql q] })) ∨
      query env q run w =
        (.ok (run w.store).1, { store := (run w.store).2, trace := w.trace ++ [.sql q] }) := by
  unfold BitcoinAddress.query
  split
  · exact Or.inl ⟨_, rfl⟩
  · exact Or.inr rfl

theorem retryItems_fst (env : Env) (blockNumber : Int) (items : List BalanceItem) :
    ∀ (succeeds : List BalanceItem) (w : World),
      (retryItems env blockNumber items succeeds w).1 = upsertItems env blockNumber items w := by
  induction items with
  | nil => intro succeeds w; rfl
  | cons item rest ih =>
    intro succeeds w
    rw [retryItems, upsertItems, bind_apply]
    rcases upsertItem env blockNumber item w with ⟨r, w'⟩
    cases r with
    | ok a => exact ih _ _
    | error e => rfl

theorem retryItems_snd (env : Env) (blockNumber : Int) (items : List BalanceItem) :
    ∀ (succeeds : List BalanceItem) (w : World),
      ∃ done, (retryItems env blockNumber items succeeds w).2 = succeeds ++ done ∧
        ((retryItems env blockNumber items succeeds w).1.1 = .ok () → done = items) := by
  induction items with
  | nil => intro succeeds w; exact ⟨[], by simp [retryItems], fun _ => rfl⟩
  | cons item rest ih =>
    intro succeeds w
    rw [retryItems]
    rcases upsertItem env blockNumber item w with ⟨r, w'⟩
    cases r with
    | ok a =>
      obtain ⟨done, h1, h2⟩ := ih (succeeds ++ [item]) w'
      exact ⟨item :: done, by simp [h1], fun h => by rw [h2 h]⟩
    | error e => exact ⟨[], by simp, fun h => by simp at h⟩

theorem retryBlock_fst (env : Env) (fail : FailedRow) (succeeds : List BalanceItem) (w : World) :
    (retryBlock env fail succeeds w).1 = retryTry env fail.blockNumber w := by
  unfold retryBlock retryTry resolveBlock
  rw [bind_bind, bind_apply]
  rcases getBlockInfo env fail.blockNumber w with ⟨r, w1⟩
  cases r with
  | error e => rfl
  | ok info =>
    simp only
    rw [bind_apply, ← retryItems_fst env fail.blockNumber info succeeds w1]
    rcases retryItems env fail.blockNumber info succeeds w1 with ⟨⟨r2, w2⟩, s2⟩
    cases r2 <;> rfl

theorem retryBlock_snd (env : Env) (fail : FailedRow) (succeeds : List BalanceItem) (w : World) :
    ∃ done, (retryBlock env fail succeeds w).2 = succeeds ++ done ∧
      ((retryBlock env fail succeeds w).1.1 = .ok () →
        (getBlockInfo env fail.blockNumber w).1 = .ok done) := by
  unfold retryBlock
  rcases getBlockInfo env fail.blockNumber w with ⟨r, w1⟩
  cases r with
  | error e => exact ⟨[], by simp, fun h => by simp at h⟩
  | ok info =>
    simp only
    obtain ⟨done, h1, h2⟩ := retryItems_snd env fail.blockNumber info succeeds w1
    rcases hr : retryItems env fail.blockNumber info succeeds w1 with ⟨⟨r2, w2⟩, s2⟩
    rw [hr] at h1 h2
    cases r2 with
    | error e => exact ⟨done, h1, fun h => by simp at h⟩
    | ok a => exact ⟨done, h1, fun _ => by rw [h2 rfl]⟩

theorem retryTry_steps (env : Env) (blockNumber : Int) :
    StoreSteps Retried (retryTry env blockNumber) :=
  StoreSteps.bind_steps retried_order
    (StoreSteps.mono_steps addressesWritten_retried (resolveBlock_steps _ _)) fun _ =>
    removeFailedRecord_steps _ _

theorem retryTry_attempt (env : Env) (blockNumber : Int) :
    Emits attempt (retryTry env blockNumber) [blockNumber] :=
  Emits.bind_silent (resolveBlock_attempt _ _) fun _ =>
    (removeFailedRecord_asks _ _).noAttempt (by decide)

/-- The `try` block of `syncFailedBlocks`, when it completes: the block was resolved,
its items have a record, and table `failed` lost the rows of the block and no other. -/
theorem retryTry_ok {env : Env} {blockNumber : Int} {w w' : World}
    (h : retryTry env blockNumber w = (.ok (), w')) :
    ∃ info w1, getBlockInfo env blockNumber w = (.ok info, w1) ∧
      (∀ item ∈ info, item.address ∈ w'.store.keys) ∧
      w'.store.failed = w.store.failed.filter fun r => ¬ r.blockNumber = blockNumber := by
  obtain ⟨_, w2, hres, hrem⟩ := bind_ok_inv h
  obtain ⟨info, w1, hinfo, hups⟩ := bind_ok_inv hres
  have hf : w2.store.failed = w.store.failed := by
    have := (resolveBlock_steps env blockNumber w).1
    rw [hres] at this
    exact this
  refine ⟨info, w1, hinfo, ?_, ?_⟩
  · intro item hi
    have hk := (removeFailedRecord_steps env blockNumber w2).1 _ (upsertItems_ok hups item hi)
    rw [hrem] at hk
    exact hk
  · rcases query_cases env (.deleteFailed blockNumber)
      (fun s => ((), { s with failed := s.failed.filter fun r => ¬ r.blockNumber = blockNumber }))
      w2 with ⟨message, hq⟩ | hq
    · unfold removeFailedRecord at hrem
      rw [hq] at hrem
      simp at hrem
    · unfold removeFailedRecord at hrem
      rw [hq] at hrem
      simp only [Prod.mk.injEq, true_and] at hrem
      rw [← hrem, hf]

/-- The `try` block of `syncFailedBlocks`, when it throws, leaves table `failed` as it
was. -/
theorem retryTry_error {env : Env} {blockNumber : Int} {w w' : World} {e : Thrown}
    (h : retryTry env blockNumber w = (.error e, w')) : w'.store.failed = w.store.failed := by
  rcases bind_error_inv h with hres | ⟨_, w2, hres, hrem⟩
  · have := (resolveBlock_steps env blockNumber w).1
    rw [hres] at this
    exact this
  · have hf : w2.store.failed = w.store.failed := by
      have := (resolveBlock_steps env blockNumber w).1
      rw [hres] at this
      exact this
    rcases query_cases env (.deleteFailed blockNumber)
      (fun s => ((), { s with failed := s.failed.filter fun r => ¬ r.blockNumber = blockNumber }))
      w2 with ⟨message, hq⟩ | hq
    · unfold removeFailedRecord at hrem
      rw [hq] at hrem
      simp only [Prod.mk.injEq] at hrem
      rw [← hrem.2]
      exact hf
    · unfold removeFailedRecord at hrem
      rw [hq] at hrem
      simp at hrem

theorem retryEntry_world (env : Env) (fail : FailedRow) (r : RetryResult) (w : World) :
    (retryEntry env fail r w).2 = (retryTry env fail.blockNumber w).2 := by
  unfold retryEntry
  rw [← retryBlock_fst env fail r.succeeds w]
  rcases retryBlock env fail r.succeeds w with ⟨⟨res, w'⟩, s⟩
  cases res <;> rfl

theorem retryEntry_fails (env : Env) (fail : FailedRow) (r : RetryResult) (w : World) :
    ((retryTry env fail.blockNumber w).1 = .ok () →
      (retryEntry env fail r w).1.fails = r.fails) ∧
    ((∃ e, (retryTry env fail.blockNumber w).1 = .error e) →
      (retryEntry env fail r w).1.fails = r.fails ++ [fail]) := by
  unfold retryEntry
  rw [← retryBlock_fst env fail r.succeeds w]
  rcases retryBlock env fail r.succeeds w with ⟨⟨res, w'⟩, s⟩
  cases res with
  | ok a => exact ⟨fun _ => rfl, fun ⟨e, he⟩ => by simp at he⟩
  | error e => exact ⟨fun h => by simp at h, fun _ => rfl⟩

theorem retryEntry_succeeds (env : Env) (fail : FailedRow) (r : RetryResult) (w : World) :
    ∃ done, (retryEntry env fail r w).1.succeeds = r.succeeds ++ done ∧
      ((retryTry env fail.blockNumber w).1 = .ok () →
        (getBlockInfo env fail.blockNumber w).1 = .ok done) := by
  obtain ⟨done, h1, h2⟩ := retryBlock_snd env fail r.succeeds w
  refine ⟨done, ?_, ?_⟩
  · unfold retryEntry
    rcases hr : retryBlock env fail r.succeeds w with ⟨⟨res, w'⟩, s⟩
    rw [hr] at h1
    cases res <;> exact h1
  · intro h
    apply h2
    rw [retryBlock_fst]
    exact h

theorem filter_block_filter (rows : List FailedRow) (a b : Int) (h : a ≠ b) :
    (rows.filter fun r => ¬ r.blockNumber = b).filter (fun r => r.blockNumber = a) =
      rows.filter fun r => r.blockNumber = a := by
  rw [List.filter_filter]
  apply List.filter_congr
  intro r _
  by_cases hr : r.blockNumber = a
  · simp [hr, h]
  · simp [hr]

/-- A turn of the retry driver leaves the failure entries of the other blocks. -/
theorem retryEntry_other (env : Env) (fail : FailedRow) (r : RetryResult) (w : World)
    (blockNumber : Int) (h : blockNumber ≠ fail.blockNumber) :
    (retryEntry env fail r w).2.store.failed.filter (fun r => r.blockNumber = blockNumber) =
      w.store.failed.filter fun r => r.blockNumber = blockNumber := by
  rw [retryEntry_world]
  rcases outcome (retryTry env fail.blockNumber) w with ⟨a, w', hw⟩ | ⟨e, w', hw⟩
  · obtain ⟨_, _, _, _, hf⟩ := retryTry_ok hw
    rw [hw]
    simp only
    rw [hf]
    exact filter_block_filter _ _ _ h
  · rw [hw]
    simp only
    rw [retryTry_error hw]

theorem retryLoop_append (env : Env) (l1 l2 : List FailedRow) :
    ∀ (r : RetryResult) (w : World),
      retryLoop env (l1 ++ l2) r w =
        retryLoop env l2 (retryLoop env l1 r w).1 (retryLoop env l1 r w).2 := by
  induction l1 with
  | nil => intro r w; rfl
  | cons fail rest ih => intro r w; exact ih _ _

/-- What the loop of the retry driver does, whatever the outcomes of its turns. -/
theorem retryLoop_facts (env : Env) (l : List FailedRow) :
    ∀ (r : RetryResult) (w : World),
      Retried w.store (retryLoop env l r w).2.store ∧
      (∀ blockNumber, blockNumber ∉ l.map (fun f => f.blockNumber) →
        (retryLoop env l r w).2.store.failed.filter (fun r => r.blockNumber = blockNumber) =
          w.store.failed.filter fun r => r.blockNumber = blockNumber) ∧
      (∃ fs, (retryLoop env l r w).1.fails = r.fails ++ fs ∧ ∀ f ∈ fs, f ∈ l) ∧
      (∃ ss, (retryLoop env l r w).1.succeeds = r.succeeds ++ ss) ∧
      (retryLoop env l r w).2.trace.filterMap attempt =
        w.trace.filterMap attempt ++ l.map fun f => f.blockNumber := by
  induction l with
  | nil =>
    intro r w
    exact ⟨retried_order.refl _, fun _ _ => rfl, ⟨[], by simp [retryLoop], by simp⟩,
      ⟨[], by simp [retryLoop]⟩, by simp [retryLoop]⟩
  | cons fail rest ih =>
    intro r w
    obtain ⟨i1, i2, ⟨fs, i3, i3'⟩, ⟨ss, i4⟩, i5⟩ :=
      ih (retryEntry env fail r w).1 (retryEntry env fail r w).2
    have hstep : Retried w.store (retryEntry env fail r w).2.store := by
      rw [retryEntry_world]
      exact retryTry_steps env fail.blockNumber w
    obtain ⟨done, hdone, _⟩ := retryEntry_succeeds env fail r w
    rw [retryLoop]
    refine ⟨retried_order.trans hstep i1, ?_, ?_, ⟨done ++ ss, by rw [i4, hdone, List.append_assoc]⟩, ?_⟩
    · intro blockNumber hb
      simp only [List.map_cons, List.mem_cons, not_or] at hb
      rw [i2 blockNumber hb.2]
      exact retryEntry_other env fail r w blockNumber hb.1
    · rcases outcome (retryTry env fail.blockNumber) w with ⟨a, w', hw⟩ | ⟨e, w', hw⟩
      · have := (retryEntry_fails env fail r w).1 (by rw [hw])
        exact ⟨fs, by rw [i3, this], fun f hf => List.mem_cons_of_mem _ (i3' f hf)⟩
      · have := (retryEntry_fails env fail r w).2 ⟨e, by rw [hw]⟩
        refine ⟨fail :: fs, by rw [i3, this]; simp, fun f hf => ?_⟩
        rcases List.mem_cons.mp hf with rfl | hf
        · exact List.mem_cons_self _ _
        · exact List.mem_cons_of_mem _ (i3' f hf)
    · rw [i5, retryEntry_world, retryTry_attempt env fail.blockNumber w]
      simp

/-- C9.  Retry convergence.  `syncFailedBlocks` retries every entry of the queue it
is given, in the order of the queue, whatever the outcome of the others.  For an entry
`fail` of the queue: when the `try` block of its turn completes (the block is
resolved, its items are written and the statement that removes the entry runs), table
`failed` has no row of the block after the call, every address `getBlockInfo`
resolved with has a record, the resolved items are in `succeeds`, and the turn adds
nothing to `fails`; when the `try` block throws, `fail` is in `fails`; and when no
other entry of the queue is for the same block, `fail` is in `fails` only in the
second case, in which table `failed` has after the call the rows of the block it had
before. -/
theorem syncFailedBlocks_converges (env : Env) (w : World) (pre post : List FailedRow)
    (fail : FailedRow) :
    (syncFailedBlocks env (pre ++ fail :: post) w).2.trace.filterMap attempt =
      w.trace.filterMap attempt ++ (pre ++ fail :: post).map (fun f => f.blockNumber) ∧
    ((retryBlock env fail (syncFailedBlocks env pre w).1.succeeds
        (syncFailedBlocks env pre w).2).1.1 = .ok () →
      (∀ row ∈ (syncFailedBlocks env (pre ++ fail :: post) w).2.store.failed,
        row.blockNumber ≠ fail.blockNumber) ∧
      (∃ info, (getBlockInfo env fail.blockNumber (syncFailedBlocks env pre w).2).1 = .ok info ∧
        (∀ item ∈ info,
          item.address ∈ (syncFailedBlocks env (pre ++ fail :: post) w).2.store.keys) ∧
        ∃ l1 l2, (syncFailedBlocks env (pre ++ fail :: post) w).1.succeeds = l1 ++ info ++ l2) ∧
      (retryEntry env fail (syncFailedBlocks env pre w).1 (syncFailedBlocks env pre w).2).1.fails
        = (syncFailedBlocks env pre w).1.fails ∧
      (fail.blockNumber ∉ (pre ++ post).map (fun f => f.blockNumber) →
        fail ∉ (syncFailedBlocks env (pre ++ fail :: post) w).1.fails)) ∧
    ((∃ e, (retryBlock env fail (syncFailedBlocks env pre w).1.succeeds
        (syncFailedBlocks env pre w).2).1.1 = .error e) →
      fail ∈ (syncFailedBlocks env (pre ++ fail :: post) w).1.fails ∧
      (fail.blockNumber ∉ (pre ++ post).map (fun f => f.blockNumber) →
        (syncFailedBlocks env (pre ++ fail :: post) w).2.store.failed.filter
            (fun r => r.blockNumber = fail.blockNumber) =
          w.store.failed.filter (fun r => r.blockNumber = fail.blockNumber))) := by
  have hsplit : syncFailedBlocks env (pre ++ fail :: post) w =
      retryLoop env post
        (retryEntry env fail (syncFailedBlocks env pre w).1 (syncFailedBlocks env pre w).2).1
        (retryEntry env fail (syncFailedBlocks env pre w).1 (syncFailedBlocks env pre w).2).2 := by
    unfold syncFailedBlocks
    rw [retryLoop_append]
    rfl
  obtain ⟨p1, p2, ⟨pfs, p3, p3'⟩, _, _⟩ :=
    retryLoop_facts env pre { fails := [], succeeds := [] } w
  obtain ⟨q1, q2, ⟨qfs, q3, q3'⟩, ⟨qss, q4⟩, _⟩ := retryLoop_facts env post
    (retryEntry env fail (syncFailedBlocks env pre w).1 (syncFailedBlocks env pre w).2).1
    (retryEntry env fail (syncFailedBlocks env pre w).1 (syncFailedBlocks env pre w).2).2
  obtain ⟨done, hdone, hdone'⟩ := retryEntry_succeeds env fail (syncFailedBlocks env pre w).1
    (syncFailedBlocks env pre w).2
  have hworld := retryEntry_world env fail (syncFailedBlocks env pre w).1
    (syncFailedBlocks env pre w).2
  refine ⟨(retryLoop_facts env _ _ w).2.2.2.2, ?_, ?_⟩
  · intro hok
    rw [retryBlock_fst] at hok
    obtain ⟨a, hw⟩ := (show ∃ a, retryTry env fail.blockNumber (syncFailedBlocks env pre w).2
        = (.ok a, (retryTry env fail.blockNumber (syncFailedBlocks env pre w).2).2) from
      ⟨(), by rw [← hok]⟩)
    obtain ⟨info, w1, hinfo, hkeys, hfailed⟩ := retryTry_ok hw
    rw [hsplit]
    refine ⟨?_, ⟨info, by rw [hinfo], ?_, ?_⟩, (retryEntry_fails env fail _ _).1 hok, ?_⟩
    · intro row hrow
      have := q1.2.1 row hrow
      rw [hworld, hfailed] at this
      simpa using (List.mem_filter.mp this).2
    · intro item hi
      apply q1.1
      rw [hworld]
      exact hkeys item hi
    · have : done = info := by
        have := hdone' hok
        rw [hinfo] at this
        simpa using this.symm
      exact ⟨(syncFailedBlocks env pre w).1.succeeds, qss, by rw [q4, hdone, this]⟩
    · intro hone
      rw [List.map_append, List.mem_append, not_or] at hone
      rw [q3, (retryEntry_fails env fail _ _).1 hok]
      intro hmem
      rcases List.mem_append.mp hmem with hmem | hmem
      · have hp : (syncFailedBlocks env pre w).1.fails = [] ++ pfs := p3
        rw [hp, List.nil_append] at hmem
        exact hone.1 (List.mem_map.mpr ⟨fail, p3' fail hmem, rfl⟩)
      · exact hone.2 (List.mem_map.mpr ⟨fail, q3' fail hmem, rfl⟩)
  · rintro ⟨e, herr⟩
    rw [retryBlock_fst] at herr
    have hw : retryTry env fail.blockNumber (syncFailedBlocks env pre w).2
        = (.error e, (retryTry env fail.blockNumber (syncFailedBlocks env pre w).2).2) := by
      rw [← herr]
    rw [hsplit]
    constructor
    · rw [q3, (retryEntry_fails env fail _ _).2 ⟨e, herr⟩]
      simp
    · intro hone
      rw [List.map_append, List.mem_append, not_or] at hone
      rw [q2 _ hone.2, hworld, retryTry_error hw]
      exact p2 _ hone.1

/-! ## Resolving a block twice -/

theorem Indep.pure_indep {α : Type} (a : α) : Indep (pure a : M α) := fun _ _ => rfl

theorem Indep.throw_indep {α : Type} (e : Thrown) : Indep (M.throw e : M α) := fun _ _ => rfl

theorem Indep.bind_indep {α β : Type} {x : M α} {f : α → M β} (hx : Indep x)
    (hf : ∀ a, Indep (f a)) : Indep (x >>= f) := by
  intro w w'
  have h := hx w w'
  rw [bind_apply, bind_apply]
  rcases hw : x w with ⟨r, w1⟩
  rcases hw' : x w' with ⟨r', w1'⟩
  rw [hw, hw'] at h
  simp only at h
  subst h
  cases r with
  | ok a => exact hf a w1 w1'
  | error e => rfl

theorem Indep.ite_indep {α : Type} {c : Prop} [Decidable c] {x y : M α} (hx : Indep x)
    (hy : Indep y) : Indep (if c then x else y) := by
  split
  · exact hx
  · exact hy

theorem getBlockTxInfo_indep (env : Env) (hs : env.Stationary) (blockNumber : Int) (page : Nat) :
    Indep (getBlockTxInfo env blockNumber page) := by
  intro w w'
  simp only [getBlockTxInfo_apply]
  rw [(hs w.trace.length w'.trace.length).1]

theorem fetchNextPages_indep (env : Env) (hs : env.Stationary) (blockNumber : Int)
    (pages : List Nat) (addresses : List String) :
    Indep (fetchNextPages env blockNumber pages addresses) := by
  induction pages generalizing addresses with
  | nil => exact Indep.pure_indep _
  | cons index rest ih => exact Indep.bind_indep (getBlockTxInfo_indep env hs _ _) fun _ => ih _

theorem fetchBlockAddresses_indep (env : Env) (hs : env.Stationary) (blockNumber : Int) :
    Indep (fetchBlockAddresses env blockNumber) := by
  rw [fetchBlockAddresses_eq]
  refine Indep.bind_indep (getBlockTxInfo_indep env hs _ _) fun info => ?_
  unfold afterFirstPage
  refine Indep.ite_indep (Indep.throw_indep _) ?_
  split
  · exact Indep.ite_indep (fetchNextPages_indep env hs _ _ _) (Indep.pure_indep _)
  · exact Indep.pure_indep _

theorem startBalanceRequests_answers (env : Env) (hs : env.Stationary) (addresses : List String) :
    ∀ w, (startBalanceRequests env addresses w).1 = addresses.map (answer env) := by
  induction addresses with
  | nil => intro w; rfl
  | cons address rest ih =>
    intro w
    unfold startBalanceRequests
    split
    · rename_i h
      simp [ih, answer, h]
    · rename_i h
      simp only [List.map_cons, ih]
      simp [answer, h, getBalance, BitcoinAddress.send, (hs w.trace.length 0).2.1]

theorem itemOf_address (env : Env) (address : String) : (itemOf env address).address = address := by
  unfold itemOf answer
  split
  · rename_i r hr
    split at hr
    · simp only [Except.ok.injEq] at hr
      rw [← hr]
    · cases hb : env.explorerBalance 0 address with
      | error e => rw [hb] at hr; simp [Except.map] at hr
      | ok b =>
        rw [hb] at hr
        simp only [Except.map, Except.ok.injEq] at hr
        rw [← hr]
  · rfl

theorem promiseAll_map_ok (env : Env) (addresses : List String) :
    (∃ response, promiseAll (addresses.map (answer env)) = .ok response) ↔
      ∀ a ∈ addresses, ∃ r, answer env a = .ok r := by
  induction addresses with
  | nil => simp [promiseAll]
  | cons a rest ih =>
    simp only [List.map_cons, List.mem_cons, forall_eq_or_imp]
    cases ha : answer env a with
    | error e => simp [promiseAll]
    | ok r =>
      simp only [promiseAll, Except.ok.injEq, exists_eq', true_and]
      rw [← ih]
      cases hp : promiseAll (rest.map (answer env)) with
      | error e => simp
      | ok rs => simp

theorem promiseAll_map_items (env : Env) (addresses : List String) :
    ∀ response, promiseAll (addresses.map (answer env)) = .ok response →
      response.map (fun item => (⟨item.data.address, item.data.balance⟩ : BalanceItem)) =
        addresses.map (itemOf env) := by
  induction addresses with
  | nil =>
    intro response h
    simp only [List.map_nil, promiseAll, Except.ok.injEq] at h
    simp [← h]
  | cons a rest ih =>
    intro response h
    simp only [List.map_cons] at h
    cases ha : answer env a with
    | error e => rw [ha] at h; simp [promiseAll] at h
    | ok r =>
      rw [ha] at h
      simp only [promiseAll] at h
      cases hp : promiseAll (rest.map (answer env)) with
      | error e => rw [hp] at h; simp at h
      | ok rs =>
        rw [hp] at h
        simp only [Except.ok.injEq] at h
        subst h
        simp [ih rs hp, itemOf, ha]

theorem Env.Stationary.sql {env : Env} (hs : env.Stationary) (t : Nat) (q : Query) :
    env.sqlError t q = env.sqlError 0 q := by
  rw [(hs t 0).2.2]

theorem getAddressRecord_cases (env : Env) (hs : env.Stationary) (address : String) (w : World) :
    (∃ message, env.sqlError 0 (.selectAddress address) = some message ∧
      getAddressRecord env address w =
        (.error (.error message), { w with trace := w.trace ++ [.sql (.selectAddress address)] })) ∨
    (env.sqlError 0 (.selectAddress address) = none ∧
      getAddressRecord env address w =
        (.ok (w.store.addresses.filter fun r => r.address = address).head?,
          { w with trace := w.trace ++ [.sql (.selectAddress address)] })) := by
  cases h : env.sqlError 0 (.selectAddress address) with
  | some message =>
    exact Or.inl ⟨message, rfl, query_error _ (by rw [hs.sql, h])⟩
  | none =>
    exact Or.inr ⟨rfl, query_ok _ (by rw [hs.sql, h])⟩

theorem selectNewAddresses_stationary (env : Env) (hs : env.Stationary) (addresses : List String) :
    ∀ (newAddresses : List String) (w : World),
      ((∀ a ∈ addresses, env.sqlError 0 (.selectAddress a) = none) →
        ∃ w', selectNewAddresses env addresses newAddresses w =
          (.ok (newAddresses ++ addresses.filter fun a => a ∉ w.store.keys), w')) ∧
      ((∃ result w', selectNewAddresses env addresses newAddresses w = (.ok result, w')) →
        ∀ a ∈ addresses, env.sqlError 0 (.selectAddress a) = none) := by
  induction addresses with
  | nil =>
    intro newAddresses w
    exact ⟨fun _ => ⟨w, by simp [selectNewAddresses, pure_apply]⟩, fun _ a ha => by simp at ha⟩
  | cons address rest ih =>
    intro newAddresses w
    rw [selectNewAddresses]
    rcases getAddressRecord_cases env hs address w with ⟨message, hm, hg⟩ | ⟨hn, hg⟩
    · rw [bind_error hg]
      constructor
      · intro h
        have := h address (List.mem_cons_self _ _)
        rw [hm] at this
        simp at this
      · rintro ⟨result, w', h⟩
        simp at h
    · rw [bind_ok hg]
      obtain ⟨ih1, ih2⟩ := ih (if ((w.store.addresses.filter fun r => r.address = address).head?).isSome
          = true then newAddresses else newAddresses ++ [address])
        { w with trace := w.trace ++ [.sql (.selectAddress address)] }
      constructor
      · intro h
        obtain ⟨w', hw'⟩ := ih1 fun a ha => h a (List.mem_cons_of_mem _ ha)
        refine ⟨w', ?_⟩
        rw [hw']
        by_cases hmem : address ∈ w.store.keys
        · rw [if_pos ((head_filter_isSome _ _).mpr hmem),
            List.filter_cons_of_neg (by simpa using hmem)]
        · have : ¬ ((w.store.addresses.filter fun r => r.address = address).head?).isSome = true :=
            fun hsome => hmem ((head_filter_isSome _ _).mp hsome)
          rw [if_neg this, List.filter_cons_of_pos (by simpa using hmem), List.append_assoc]
          rfl
      · intro h a ha
        rcases List.mem_cons.mp ha with rfl | ha
        · exact hn
        · exact ih2 h a ha

/-- The items `getBlockInfo` resolves with, for answers that do not change: the new
addresses among the unique ones, each with its balance. -/
theorem resolveNewAddresses_stationary (env : Env) (hs : env.Stationary)
    (uniqueAddresses : List String) (w : World) :
    (∃ info w', resolveNewAddresses env uniqueAddresses w = (.ok info, w')) ↔
      (∀ a ∈ uniqueAddresses, env.sqlError 0 (.selectAddress a) = none) ∧
      (∀ a ∈ uniqueAddresses, a ∉ w.store.keys → ∃ r, answer env a = .ok r) := by
  unfold resolveNewAddresses
  constructor
  · rintro ⟨info, w', h⟩
    obtain ⟨new, w1, h1, h2⟩ := bind_ok_inv h
    have hsel := (selectNewAddresses_stationary env hs uniqueAddresses [] w).2 ⟨new, w1, h1⟩
    refine ⟨hsel, ?_⟩
    obtain ⟨_, hnew⟩ := selectNewAddresses_ok h1
    obtain ⟨response, w2, h3, _⟩ := bind_ok_inv h2
    simp only [Prod.mk.injEq] at h3
    rw [startBalanceRequests_answers env hs] at h3
    have := (promiseAll_map_ok env new).mp ⟨response, h3.1⟩
    intro a ha hk
    apply this
    rw [hnew]
    simpa using ⟨ha, hk⟩
  · rintro ⟨hsel, hans⟩
    obtain ⟨w1, h1⟩ := (selectNewAddresses_stationary env hs uniqueAddresses [] w).1 hsel
    rw [bind_ok h1, List.nil_append]
    obtain ⟨response, hr⟩ := (promiseAll_map_ok env
      (uniqueAddresses.filter fun a => a ∉ w.store.keys)).mpr (by
        intro a ha
        have := List.mem_filter.mp ha
        exact hans a this.1 (by simpa using this.2))
    rw [bind_apply]
    simp only [startBalanceRequests_answers env hs, hr, pure_apply]
    exact ⟨_, _, rfl⟩

theorem resolveNewAddresses_items (env : Env) (hs : env.Stationary)
    {uniqueAddresses : List String} {w w' : World} {info : List BalanceItem}
    (h : resolveNewAddresses env uniqueAddresses w = (.ok info, w')) :
    info = (uniqueAddresses.filter fun a => a ∉ w.store.keys).map (itemOf env) := by
  unfold resolveNewAddresses at h
  obtain ⟨new, w1, h1, h2⟩ := bind_ok_inv h
  obtain ⟨_, hnew⟩ := selectNewAddresses_ok h1
  obtain ⟨response, w2, h3, h4⟩ := bind_ok_inv h2
  simp only [Prod.mk.injEq] at h3
  rw [startBalanceRequests_answers env hs] at h3
  simp only [pure_apply, Prod.mk.injEq, Except.ok.injEq] at h4
  rw [← h4.1, promiseAll_map_items env new response h3.1, hnew, List.nil_append]

/-- The outcome of `getBlockInfo` in a world with more records, for answers that do
not change: the items of the addresses that are still without a record. -/
theorem getBlockInfo_stationary (env : Env) (hs : env.Stationary) (blockNumber : Int)
    {w w0 : World} {info : List BalanceItem}
    (h : getBlockInfo env blockNumber w = (.ok info, w0)) (w' : World)
    (hk : ∀ a ∈ w.store.keys, a ∈ w'.store.keys) :
    ∃ w0', getBlockInfo env blockNumber w' =
      (.ok (info.filter fun i => i.address ∉ w'.store.keys), w0') := by
  unfold getBlockInfo at h
  obtain ⟨addresses, w1, h1, h2⟩ := bind_ok_inv h
  have hi := fetchBlockAddresses_indep env hs blockNumber w w'
  rw [h1] at hi
  have h1' : fetchBlockAddresses env blockNumber w' =
      (.ok addresses, (fetchBlockAddresses env blockNumber w').2) := Prod.ext hi.symm rfl
  have hst1 : w1.store = w.store := by
    have := fetchBlockAddresses_steps env blockNumber w
    rw [h1] at this
    exact this
  have hst1' : (fetchBlockAddresses env blockNumber w').2.store = w'.store :=
    fetchBlockAddresses_steps env blockNumber w'
  obtain ⟨hsel, hans⟩ := (resolveNewAddresses_stationary env hs (uniqueOf addresses) w1).mp
    ⟨info, w0, h2⟩
  obtain ⟨info', w0', h2'⟩ := (resolveNewAddresses_stationary env hs (uniqueOf addresses)
    (fetchBlockAddresses env blockNumber w').2).mpr ⟨hsel, fun a ha hn =>
      hans a ha (fun hin => hn (by rw [hst1']; exact hk a (by rw [← hst1]; exact hin)))⟩
  refine ⟨w0', ?_⟩
  unfold getBlockInfo
  rw [bind_ok h1', h2']
  rw [resolveNewAddresses_items env hs h2, resolveNewAddresses_items env hs h2', hst1, hst1',
    List.filter_map, List.filter_filter]
  congr 3
  apply List.filter_congr
  intro a _
  simp only [Function.comp, itemOf_address]
  by_cases h1 : a ∈ w'.store.keys
  · simp [h1]
  · have h2 : a ∉ w.store.keys := fun hin => h1 (hk a hin)
    simp [h1, h2]

theorem upsertItem_new (env : Env) (hs : env.Stationary) (index : Int) (item : BalanceItem)
    (w : World) (hnot : item.address ∉ w.store.keys) :
    (∃ e, ∀ w' : World, w'.store = w.store →
      ∃ tr, upsertItem env index item w' = (.error e, { store := w'.store, trace := tr })) ∨
    (∃ tr, upsertItem env index item w =
      (.ok (), { store := { w.store with addresses :=
        w.store.addresses ++ [⟨item.address, item.balance, index⟩] }, trace := tr })) := by
  cases hsel : env.sqlError 0 (.selectAddress item.address) with
  | some message =>
    left
    refine ⟨.error message, fun w' _ => ?_⟩
    rcases getAddressRecord_cases env hs item.address w' with ⟨m, hm, hg⟩ | ⟨hn, _⟩
    · rw [hsel] at hm
      simp only [Option.some.injEq] at hm
      subst hm
      exact ⟨_, by unfold upsertItem; rw [bind_error hg]⟩
    · rw [hsel] at hn
      simp at hn
  | none =>
    have hrec : ∀ w' : World, w'.store = w.store → upsertItem env index item w' =
        addNewAddressRecord env item.address index item.balance
          { w' with trace := w'.trace ++ [.sql (.selectAddress item.address)] } := by
      intro w' hw'
      rcases getAddressRecord_cases env hs item.address w' with ⟨m, hm, _⟩ | ⟨_, hg⟩
      · rw [hsel] at hm
        simp at hm
      · unfold upsertItem
        rw [bind_ok hg, if_neg]
        intro hsome
        exact hnot (by rw [← hw']; exact (head_filter_isSome _ _).mp hsome)
    cases hins : env.sqlError 0 (.insertAddress item.address index item.balance) with
    | some message =>
      left
      refine ⟨.error message, fun w' hw' => ?_⟩
      rw [hrec w' hw']
      unfold addNewAddressRecord
      exact ⟨_, query_error _ (by rw [hs.sql, hins])⟩
    | none =>
      right
      rw [hrec w rfl]
      unfold addNewAddressRecord
      exact ⟨_, query_ok _ (by rw [hs.sql, hins])⟩

/-- Writing the items of new addresses, then writing those of them that are still
without a record, leaves the tables as the first pass left them. -/
theorem upsertItems_again (env : Env) (hs : env.Stationary) (index : Int)
    (info : List BalanceItem) :
    ∀ w : World, (info.map fun i => i.address).Nodup →
      (∀ i ∈ info, i.address ∉ w.store.keys) →
      ∀ w' : World, w'.store = (upsertItems env index info w).2.store →
        (upsertItems env index
          (info.filter fun i => i.address ∉ (upsertItems env index info w).2.store.keys) w').2.store
          = (upsertItems env index info w).2.store := by
  induction info with
  | nil => intro w _ _ w' hw'; exact hw'
  | cons item rest ih =>
    intro w hnodup hnew w' hw'
    rw [List.map_cons, List.nodup_cons] at hnodup
    rcases upsertItem_new env hs index item w (hnew item (List.mem_cons_self _ _)) with
      ⟨e, herr⟩ | ⟨tr, hok⟩
    · obtain ⟨tr, h1⟩ := herr w rfl
      have hfirst : upsertItems env index (item :: rest) w =
          (.error e, { store := w.store, trace := tr }) := by
        rw [upsertItems, bind_error h1]
      rw [hfirst] at hw' ⊢
      simp only at hw' ⊢
      rw [List.filter_eq_self.mpr (fun i hi => by simpa using hnew i hi)]
      obtain ⟨tr', h1'⟩ := herr w' hw'
      rw [upsertItems, bind_error h1']
      exact hw'
    · have hfirst : upsertItems env index (item :: rest) w =
          upsertItems env index rest
            { store := { w.store with addresses :=
                w.store.addresses ++ [⟨item.address, item.balance, index⟩] }, trace := tr } := by
        rw [upsertItems, bind_ok hok]
      rw [hfirst] at hw' ⊢
      have hin : item.address ∈ (upsertItems env index rest
          { store := { w.store with addresses :=
              w.store.addresses ++ [⟨item.address, item.balance, index⟩] },
            trace := tr }).2.store.keys :=
        (upsertItems_steps env index rest _).2.2 _ (by simp [Store.keys])
      rw [List.filter_cons_of_neg (by simpa using hin)]
      apply ih _ hnodup.2 _ w' hw'
      intro i hi
      simp only [Store.keys, List.map_append, List.map_cons, List.map_nil, List.mem_append,
        List.mem_singleton, not_or]
      refine ⟨hnew i (List.mem_cons_of_mem _ hi), ?_⟩
      intro heq
      exact hnodup.1 (List.mem_map.mpr ⟨i, hi, heq⟩)

theorem nodup_filter_uniqueOf (addresses : List String) (p : String → Bool) :
    ((uniqueOf addresses).filter p).Nodup :=
  (nodup_uniqueOf addresses).sublist (List.filter_sublist _)

/-- C8.  Idempotence.  When the explorer and the database server answer a request the
same way whenever it is made, resolving a block and writing its items (the `try`
block of `syncBlocks`: `getBlockInfo` followed by the loop that selects, then inserts
or updates) twice in a row leaves the tables, table `addresses` among them, as
resolving and writing once leaves them, from every store, for every block and
whatever the outcome of either pass. -/
theorem resolveBlock_idempotent (env : Env) (hs : env.Stationary) (index : Int) (w : World) :
    (resolveBlock env index (resolveBlock env index w).2).2.store =
      (resolveBlock env index w).2.store := by
  rcases outcome (getBlockInfo env index) w with ⟨info, w0, h0⟩ | ⟨e, w0, h0⟩
  · have hst0 : w0.store = w.store := by
      have := getBlockInfo_steps env index w
      rw [h0] at this
      exact this
    have hfirst : resolveBlock env index w = upsertItems env index info w0 := by
      unfold resolveBlock
      rw [bind_ok h0]
    have hkeys : ∀ a ∈ w.store.keys, a ∈ (upsertItems env index info w0).2.store.keys := by
      intro a ha
      exact (upsertItems_steps env index info w0).2.2 a (by rw [hst0]; exact ha)
    obtain ⟨w1, h1⟩ := getBlockInfo_stationary env hs index h0
      (upsertItems env index info w0).2 hkeys
    have hst1 : w1.store = (upsertItems env index info w0).2.store := by
      have := getBlockInfo_steps env index (upsertItems env index info w0).2
      rw [h1] at this
      exact this
    rw [hfirst]
    have hsecond : resolveBlock env index (upsertItems env index info w0).2 =
        upsertItems env index
          (info.filter fun i => i.address ∉ (upsertItems env index info w0).2.store.keys) w1 := by
      unfold resolveBlock
      rw [bind_ok h1]
    rw [hsecond]
    unfold getBlockInfo at h0
    obtain ⟨addresses, wa, ha, hb⟩ := bind_ok_inv h0
    have hsta : wa.store = w.store := by
      have := fetchBlockAddresses_steps env index w
      rw [ha] at this
      exact this
    have hitems := resolveNewAddresses_items env hs hb
    apply upsertItems_again env hs index info w0 _ _ w1 hst1
    · rw [hitems, List.map_map]
      have : ((fun i : BalanceItem => i.address) ∘ itemOf env) = id := by
        funext a
        exact itemOf_address env a
      rw [this, List.map_id]
      exact nodup_filter_uniqueOf _ _
    · intro i hi
      rw [hitems] at hi
      obtain ⟨a, ha', rfl⟩ := List.mem_map.mp hi
      rw [itemOf_address, hst0, ← hsta]
      simpa using (List.mem_filter.mp ha').2
  · have hst0 : w0.store = w.store := by
      have := getBlockInfo_steps env index w
      rw [h0] at this
      exact this
    have hfirst : resolveBlock env index w = (.error e, w0) := by
      unfold resolveBlock
      rw [bind_error h0]
    rw [hfirst]
    simp only
    rcases outcome (getBlockInfo env index) w0 with ⟨info, w1, h1⟩ | ⟨e1, w1, h1⟩
    · obtain ⟨w2, h2⟩ := getBlockInfo_stationary env hs index h1 w
        (fun a ha => by rw [← hst0]; exact ha)
      rw [h0] at h2
      simp at h2
    · have : resolveBlock env index w0 = (.error e1, w1) := by
        unfold resolveBlock
        rw [bind_error h1]
      rw [this]
      have := getBlockInfo_steps env index w0
      rw [h1] at this
      exact this

/-! ## The records a walk writes -/

theorem Env.StatementsRun.bookkeeping {env : Env} (hq : env.StatementsRun) :
    env.BookkeepingSucceeds := fun t q _ => hq t q

theorem upsertItem_insert (env : Env) (hq : env.StatementsRun) (index : Int)
    (item : BalanceItem) (w : World) (hnot : item.address ∉ w.store.keys) :
    upsertItem env index item w =
      (.ok (), { store := w.store.append [recordOf index item],
                 trace := w.trace ++ [.sql (.selectAddress item.address),
                   .sql (.insertAddress item.address index item.balance)] }) := by
  have hg : getAddressRecord env item.address w =
      (.ok (w.store.addresses.filter fun r => r.address = item.address).head?,
        { w with trace := w.trace ++ [.sql (.selectAddress item.address)] }) :=
    query_ok _ (hq _ _)
  unfold upsertItem
  rw [bind_ok hg, if_neg (fun hsome => hnot ((head_filter_isSome _ _).mp hsome))]
  unfold addNewAddressRecord
  rw [query_ok _ (hq _ _)]
  simp [recordOf, Store.append]

theorem upsertItems_insert (env : Env) (hq : env.StatementsRun) (index : Int)
    (info : List BalanceItem) :
    ∀ w : World, (info.map fun i => i.address).Nodup →
      (∀ i ∈ info, i.address ∉ w.store.keys) →
      ∃ tr, upsertItems env index info w =
        (.ok (), { store := w.store.append (info.map (recordOf index)), trace := tr }) := by
  induction info with
  | nil => intro w _ _; exact ⟨w.trace, by simp [upsertItems, pure_apply, Store.append]⟩
  | cons item rest ih =>
    intro w hnodup hnew
    rw [List.map_cons, List.nodup_cons] at hnodup
    rw [upsertItems, bind_ok (upsertItem_insert env hq index item w
      (hnew item (List.mem_cons_self _ _)))]
    obtain ⟨tr, h⟩ := ih ⟨w.store.append [recordOf index item],
      w.trace ++ [.sql (.selectAddress item.address),
        .sql (.insertAddress item.address index item.balance)]⟩ hnodup.2 (by
      intro i hi
      simp only [Store.keys, Store.append, List.map_append, List.map_cons, List.map_nil,
        List.mem_append, List.mem_singleton, not_or, recordOf]
      exact ⟨hnew i (List.mem_cons_of_mem _ hi),
        fun heq => hnodup.1 (List.mem_map.mpr ⟨i, hi, heq⟩)⟩)
    exact ⟨tr, by rw [h]; simp [Store.append, List.append_assoc]⟩

/-- The items `getBlockInfo` resolves with are those of the addresses of the pages
that have no record, each once. -/
theorem getBlockInfo_ok {env : Env} {index : Int} {w w' : World} {info : List BalanceItem}
    (h : getBlockInfo env index w = (.ok info, w')) :
    w'.store = w.store ∧ (info.map fun i => i.address).Nodup ∧
      (∀ i ∈ info, i.address ∉ w.store.keys) ∧
      ∃ addresses w1, fetchBlockAddresses env index w = (.ok addresses, w1) ∧
        ∀ a ∈ addresses, a ∈ w.store.keys ∨ ∃ i ∈ info, i.address = a := by
  have hst := getBlockInfo_steps env index w
  rw [h] at hst
  unfold getBlockInfo at h
  obtain ⟨addresses, w1, h1, h2⟩ := bind_ok_inv h
  have hst1 : w1.store = w.store := by
    have := fetchBlockAddresses_steps env index w
    rw [h1] at this
    exact this
  obtain ⟨_, hinfo⟩ := resolveNewAddresses_ok h2
  rw [hst1] at hinfo
  refine ⟨hst, ?_, ?_, addresses, w1, h1, ?_⟩
  · rw [hinfo]
    exact nodup_filter_uniqueOf _ _
  · intro i hi
    have : i.address ∈ info.map fun i => i.address := List.mem_map.mpr ⟨i, hi, rfl⟩
    rw [hinfo] at this
    simpa using (List.mem_filter.mp this).2
  · intro a ha
    by_cases hk : a ∈ w.store.keys
    · exact Or.inl hk
    · right
      have : a ∈ info.map fun i => i.address := by
        rw [hinfo]
        exact List.mem_filter.mpr ⟨(mem_uniqueOf _ _).mpr ha, by simpa using hk⟩
      obtain ⟨i, hi, rfl⟩ := List.mem_map.mp this
      exact ⟨i, hi, rfl⟩

/-- A turn of `syncBlocks`, when every statement runs, appends the records of the
items of the block to table `addresses` and touches no other record. -/
theorem syncBlock_appends (env : Env) (hq : env.StatementsRun) (index : Int) (w : World) :
    (syncBlock env index w).2.store.addresses = w.store.addresses ++ written env index w := by
  have hb := hq.bookkeeping
  rcases outcome (getBlockInfo env index) w with ⟨info, w0, h0⟩ | ⟨e, w0, h0⟩
  · obtain ⟨hst, hnodup, hnew, _⟩ := getBlockInfo_ok h0
    obtain ⟨tr, hu⟩ := upsertItems_insert env hq index info w0 hnodup
      (by rw [hst]; exact hnew)
    have hres : resolveBlock env index w =
        (.ok (), { store := w0.store.append (info.map (recordOf index)), trace := tr }) := by
      unfold resolveBlock
      rw [bind_ok h0]
      exact hu
    unfold syncBlock
    rw [bind_ok (tryCatch_ok hres)]
    obtain ⟨w2, h2, ha, _⟩ := updateStatusKey_ok env hb index
      ⟨w0.store.append (info.map (recordOf index)), tr⟩
    rw [h2, ha]
    simp only [written, h0, hst, Store.append]
  · have hst : w0.store = w.store := by
      have := getBlockInfo_steps env index w
      rw [h0] at this
      exact this
    have hres : resolveBlock env index w = (.error e, w0) := by
      unfold resolveBlock
      rw [bind_error h0]
    obtain ⟨text, ht⟩ := addFailedRecord_ok env hb index (errorMessage env e) w0
    unfold syncBlock
    rw [bind_ok ((tryCatch_error hres).trans ht)]
    obtain ⟨w2, h2, ha, _⟩ := updateStatusKey_ok env hb index
      { store := { w0.store with failed := w0.store.failed ++ [⟨index, text⟩] },
        trace := w0.trace ++ [.sql (.insertFailed index text)] }
    rw [h2, ha]
    simp only [written, h0, hst, List.append_nil]

theorem written_new (env : Env) (index : Int) (w : World) :
    ∀ row ∈ written env index w, row.address ∉ w.store.keys := by
  intro row hrow
  unfold written at hrow
  rcases outcome (getBlockInfo env index) w with ⟨info, w0, h0⟩ | ⟨e, w0, h0⟩
  · rw [h0] at hrow
    obtain ⟨i, hi, rfl⟩ := List.mem_map.mp hrow
    exact (getBlockInfo_ok h0).2.2.1 i hi
  · rw [h0] at hrow
    simp at hrow

theorem appended_order (a : String) : StoreOrder (Appended a) :=
  ⟨fun _ => ⟨List.prefix_refl _, fun _ => rfl⟩,
   fun h1 h2 => ⟨h1.1.trans h2.1, fun ha => by
     rw [h2.2 (by
       obtain ⟨t, ht⟩ := h1.1
       simp only [Store.keys] at ha ⊢
       rw [← ht, List.map_append]
       exact List.mem_append_left _ ha), h1.2 ha]⟩⟩

theorem syncBlock_appended (env : Env) (hq : env.StatementsRun) (a : String) (index : Int) :
    StoreSteps (Appended a) (syncBlock env index) := by
  intro w
  rw [Appended, syncBlock_appends env hq index w]
  refine ⟨List.prefix_append _ _, fun ha => ?_⟩
  rw [List.filter_append, List.append_right_eq_self, List.filter_eq_nil_iff]
  intro row hrow
  have := written_new env index w row hrow
  simp only [decide_eq_true_eq]
  intro heq
  exact this (heq ▸ ha)

theorem filter_recordOf (index : Int) (info : List BalanceItem) (item : BalanceItem)
    (hnodup : (info.map fun i => i.address).Nodup) (hmem : item ∈ info) :
    (info.map (recordOf index)).filter (fun r => r.address = item.address) =
      [recordOf index item] := by
  induction info with
  | nil => simp at hmem
  | cons first rest ih =>
    rw [List.map_cons, List.nodup_cons] at hnodup
    rcases List.mem_cons.mp hmem with rfl | hmem
    · rw [List.map_cons, List.filter_cons_of_pos (by simp [recordOf])]
      congr 1
      rw [List.filter_eq_nil_iff]
      intro row hrow
      obtain ⟨i, hi, rfl⟩ := List.mem_map.mp hrow
      simp only [recordOf, decide_eq_true_eq]
      intro heq
      exact hnodup.1 (List.mem_map.mpr ⟨i, hi, heq⟩)
    · rw [List.map_cons, List.filter_cons_of_neg, ih hnodup.2 hmem]
      simp only [recordOf, decide_eq_true_eq]
      intro heq
      exact hnodup.1 (List.mem_map.mpr ⟨item, hmem, heq.symm⟩)

theorem filter_eq_nil_of_not_mem_keys (s : Store) (a : String) (h : a ∉ s.keys) :
    s.addresses.filter (fun r => r.address = a) = [] := by
  rw [List.filter_eq_nil_iff]
  intro row hrow
  simp only [decide_eq_true_eq]
  intro heq
  exact h (List.mem_map.mpr ⟨row, hrow, heq⟩)

/-- C1, as the code has it.  First write wins.  When `syncBlocks(start, end)` walks a
range (`start < end`) and every statement runs, the records table `addresses` had
before the walk are kept as they were, in their place; and for a block `k` of the
range that `getBlockInfo` resolves when the walk reaches it: every address of its
pages has a record at that moment or is one of the resolved items; an item is
resolved only for an address without a record, and after the walk the table holds
one record for that address, with block number `k` and the balance of the item; and
an address of the pages of an earlier block of the range that was resolved has a
record when the walk reaches `k`, so that `k` is the first resolved block of the
range that shows an address it writes. -/
theorem syncBlocks_first_write_wins (env : Env) (hq : env.StatementsRun) (start «end» : Int)
    (w : World) (hlt : start < «end») (k : Int) (h1 : start ≤ k) (h2 : k ≤ «end»)
    (info : List BalanceItem) (w' : World)
    (hinfo : getBlockInfo env k (reached (syncBlock env) start k w) = (.ok info, w')) :
    w.store.addresses <+: (syncBlocks env start «end» w).2.store.addresses ∧
    (∀ item ∈ info, item.address ∉ (reached (syncBlock env) start k w).store.keys ∧
      (syncBlocks env start «end» w).2.store.addresses.filter
        (fun r => r.address = item.address) = [⟨item.address, item.balance, k⟩]) ∧
    (∃ addresses w1, fetchBlockAddresses env k (reached (syncBlock env) start k w)
        = (.ok addresses, w1) ∧
      ∀ a ∈ addresses, a ∈ (reached (syncBlock env) start k w).store.keys ∨
        ∃ item ∈ info, item.address = a) ∧
    (∀ j, start ≤ j → j < k → ∀ addresses w1 earlier w2,
      fetchBlockAddresses env j (reached (syncBlock env) start j w) = (.ok addresses, w1) →
      getBlockInfo env j (reached (syncBlock env) start j w) = (.ok earlier, w2) →
      ∀ a ∈ addresses, a ∈ (reached (syncBlock env) start k w).store.keys) := by
  have hok := syncBlock_resolves env hq.bookkeeping
  obtain ⟨hst, hnodup, hnew, addresses, w1, hfetch, hcover⟩ := getBlockInfo_ok hinfo
  rw [syncBlocks_eq_forBlocks env start «end» hlt]
  refine ⟨?_, ?_, ⟨addresses, w1, hfetch, hcover⟩, ?_⟩
  · exact (forBlocks_steps (appended_order "") _ (syncBlock_appended env hq "") _ w).1
  · intro item hitem
    refine ⟨hnew item hitem, ?_⟩
    rw [(forBlocks_split (syncBlock env) hok start «end» k h1 h2 w).1]
    have hafter : (syncBlock env k (reached (syncBlock env) start k w)).2.store.addresses =
        (reached (syncBlock env) start k w).store.addresses ++ info.map (recordOf k) := by
      rw [syncBlock_appends env hq, written, hinfo]
    have hrest := (forBlocks_steps (appended_order item.address) _
      (syncBlock_appended env hq item.address) (blockRange (k + 1) «end»)
      (syncBlock env k (reached (syncBlock env) start k w)).2).2
    have hkey : item.address ∈ (syncBlock env k (reached (syncBlock env) start k w)).2.store.keys := by
      simp only [Store.keys]
      rw [hafter, List.map_append, List.mem_append]
      exact Or.inr (List.mem_map.mpr ⟨recordOf k item, List.mem_map.mpr ⟨item, hitem, rfl⟩, rfl⟩)
    show List.filter _ (forBlocks (syncBlock env) (blockRange (k + 1) «end»)
      (syncBlock env k (reached (syncBlock env) start k w)).2).2.store.addresses = _
    rw [hrest hkey, hafter, List.filter_append,
      filter_eq_nil_of_not_mem_keys _ _ (hnew item hitem), List.nil_append,
      filter_recordOf k info item hnodup hitem]
    rfl
  · intro j hj1 hj2 addrs wj earlier wj' hfj hgj a ha
    obtain ⟨_, _, _, addrs', wj'', hfj', hcoverj⟩ := getBlockInfo_ok hgj
    rw [hfj] at hfj'
    simp only [Prod.mk.injEq, Except.ok.injEq] at hfj'
    obtain ⟨rfl, _⟩ := hfj'
    have hafter : (syncBlock env j (reached (syncBlock env) start j w)).2.store.addresses =
        (reached (syncBlock env) start j w).store.addresses ++ earlier.map (recordOf j) := by
      rw [syncBlock_appends env hq, written, hgj]
    have hkey : a ∈ (syncBlock env j (reached (syncBlock env) start j w)).2.store.keys := by
      simp only [Store.keys]
      rw [hafter, List.map_append, List.mem_append]
      rcases hcoverj a ha with hin | ⟨item, hitem, rfl⟩
      · exact Or.inl hin
      · exact Or.inr (List.mem_map.mpr
          ⟨recordOf j item, List.mem_map.mpr ⟨item, hitem, rfl⟩, rfl⟩)
    have hreach : reached (syncBlock env) start k w =
        (forBlocks (syncBlock env) (blockRange (j + 1) (k - 1))
          (syncBlock env j (reached (syncBlock env) start j w)).2).2 := by
      unfold reached
      rw [(forBlocks_split (syncBlock env) hok start (k - 1) j hj1 (by omega) w).1]
    rw [hreach]
    exact (forBlocks_steps grows_order _ (syncBlock_steps env) _ _).1 a hkey

/-! ## The resume point -/

theorem getSyncedBLockNumber_ok (env : Env) (w : World)
    (hread : env.sqlError w.trace.length (.selectStatus "status" "blockNumber") = none) :
    getSyncedBLockNumber env w =
      (w.store.checkpoint.getD 0,
        ⟨w.store, w.trace ++ [.sql (.selectStatus "status" "blockNumber")]⟩) := by
  unfold getSyncedBLockNumber
  rw [query_ok _ hread]
  unfold Store.checkpoint
  cases (w.store.status.filter fun r => r.status_key = "blockNumber") with
  | nil => rfl
  | cons row rest => rfl

theorem forBlocks_emits_initial {γ : Type} {f : Request → Option γ} {body : Int → M Unit}
    {c : Int → γ} (hbody : ∀ index, Emits f (body index) [c index]) (blocks : List Int) :
    ∀ w, ∃ pre, pre <+: blocks.map c ∧
      (forBlocks body blocks w).2.trace.filterMap f = w.trace.filterMap f ++ pre := by
  induction blocks with
  | nil => exact fun w => ⟨[], List.prefix_refl _, by simp [forBlocks, pure_apply]⟩
  | cons index rest ih =>
    intro w
    rw [forBlocks_cons]
    rcases outcome (body index) w with ⟨a, w1, h1⟩ | ⟨e, w1, h1⟩
    · rw [bind_ok h1]
      obtain ⟨pre, hpre, ht⟩ := ih w1
      have hw1 : w1.trace.filterMap f = w.trace.filterMap f ++ [c index] := by
        have h := hbody index w
        rw [h1] at h
        exact h
      refine ⟨c index :: pre, ?_, ?_⟩
      · rw [List.map_cons]
        exact (List.prefix_cons_inj _).mpr hpre
      · rw [ht, hw1, List.append_assoc, List.singleton_append]
    · rw [bind_error h1]
      refine ⟨[c index], ?_, ?_⟩
      · rw [List.map_cons]
        exact ⟨rest.map c, rfl⟩
      · have h := hbody index w
        rw [h1] at h
        exact h

theorem syncRpcBlocks_attempts_initial (env : Env) (start «end» : Int) (w : World) :
    ∃ pre, pre <+: blockRange start «end» ∧
      (syncRpcBlocks env start «end» w).2.trace.filterMap rpcAttempt =
        w.trace.filterMap rpcAttempt ++ pre := by
  unfold syncRpcBlocks
  split
  · exact ⟨[], List.nil_prefix, by simp [pure_apply]⟩
  · have h := forBlocks_emits_initial (c := id) (syncRpcBlock_attempt env) (blockRange start «end») w
    rw [List.map_id] at h
    exact h

/-! ## The entries of table `failed` -/

theorem failedKept_order : StoreOrder FailedKept :=
  ⟨fun _ => rfl, fun h1 h2 => by rw [FailedKept] at *; rw [h2, h1]⟩

theorem failedShrinks_order : StoreOrder FailedShrinks :=
  ⟨fun _ => List.Sublist.refl _, fun h1 h2 => List.Sublist.trans h2 h1⟩

theorem addressesWritten_failedKept (a b : Store) (h : AddressesWritten a b) : FailedKept a b :=
  h.1

theorem addressesWritten_failedShrinks (a b : Store) (h : AddressesWritten a b) :
    FailedShrinks a b := by
  rw [FailedShrinks, h.1]

theorem FailedAppends.refl_appends (blocks : List Int) (s : Store) : FailedAppends blocks s s :=
  ⟨[], by simp, by simp⟩

theorem FailedAppends.of_kept {blocks : List Int} {a b c : Store} (h1 : FailedAppends blocks a b)
    (h2 : FailedKept b c) : FailedAppends blocks a c := by
  obtain ⟨extra, he, hs⟩ := h1
  exact ⟨extra, by rw [FailedKept] at h2; rw [h2, he], hs⟩

theorem FailedAppends.kept_then {blocks : List Int} {a b c : Store} (h1 : FailedKept a b)
    (h2 : FailedAppends blocks b c) : FailedAppends blocks a c := by
  obtain ⟨extra, he, hs⟩ := h2
  exact ⟨extra, by rw [FailedKept] at h1; rw [he, h1], hs⟩

theorem FailedAppends.append_appends {l1 l2 : List Int} {a b c : Store}
    (h1 : FailedAppends l1 a b) (h2 : FailedAppends l2 b c) : FailedAppends (l1 ++ l2) a c := by
  obtain ⟨e1, he1, hs1⟩ := h1
  obtain ⟨e2, he2, hs2⟩ := h2
  refine ⟨e1 ++ e2, by rw [he2, he1, List.append_assoc], ?_⟩
  rw [List.map_append]
  exact List.Sublist.append hs1 hs2

theorem updateStatusKey_failedKept (env : Env) (tableName key : String) (value : Int) :
    StoreSteps FailedKept (updateStatusKey env tableName key value) := by
  unfold updateStatusKey
  refine StoreSteps.bind_steps failedKept_order
    (StoreSteps.query_steps failedKept_order _ _ _ fun s => rfl) fun results => ?_
  exact StoreSteps.ite_steps
    (StoreSteps.query_steps failedKept_order _ _ _ fun s => rfl)
    (StoreSteps.query_steps failedKept_order _ _ _ fun s => rfl)

theorem addFailedRecord_appends (env : Env) (blockNumber : Int) (message : JsStr) (w : World) :
    FailedAppends [blockNumber] w.store (addFailedRecord env blockNumber message w).2.store := by
  unfold addFailedRecord
  rcases query_cases env _ _ w with ⟨m, h⟩ | h
  · rw [h]
    exact FailedAppends.refl_appends _ _
  · rw [h]
    exact ⟨[_], rfl, by simp⟩

/-- A turn of a walker adds at most one failure entry, for its index. -/
theorem turn_appends (env : Env) (body : M Unit) (hbody : StoreSteps AddressesWritten body)
    (index : Int) (w : World) :
    FailedAppends [index] w.store
      ((tryCatch body (fun error => addFailedRecord env index (errorMessage env error))
        >>= fun _ => updateStatusKey env "status" "blockNumber" index) w).2.store := by
  have hcatch : FailedAppends [index] w.store
      (tryCatch body (fun error => addFailedRecord env index (errorMessage env error)) w).2.store := by
    have hb := hbody w
    rcases outcome body w with ⟨a, w1, h1⟩ | ⟨e, w1, h1⟩
    · rw [tryCatch_ok h1]
      rw [h1] at hb
      exact FailedAppends.kept_then hb.1 (FailedAppends.refl_appends _ _)
    · rw [tryCatch_error h1]
      rw [h1] at hb
      exact FailedAppends.kept_then hb.1 (addFailedRecord_appends env index _ w1)
  rcases outcome (tryCatch body fun error => addFailedRecord env index (errorMessage env error)) w
    with ⟨a, w1, h1⟩ | ⟨e, w1, h1⟩
  · rw [bind_ok h1]
    rw [h1] at hcatch
    exact FailedAppends.of_kept hcatch (updateStatusKey_failedKept env _ _ _ w1)
  · rw [bind_error h1]
    rw [h1] at hcatch
    exact hcatch

theorem syncBlock_appends_failed (env : Env) (index : Int) (w : World) :
    FailedAppends [index] w.store (syncBlock env index w).2.store :=
  turn_appends env (resolveBlock env index) (resolveBlock_steps env index) index w

theorem syncRpcBlock_appends_failed (env : Env) (index : Int) (w : World) :
    FailedAppends [index] w.store (syncRpcBlock env index w).2.store :=
  turn_appends env (resolveRpcBlock env index) (resolveRpcBlock_steps env index) index w

theorem forBlocks_appends_failed (body : Int → M Unit)
    (hbody : ∀ index w, FailedAppends [index] w.store (body index w).2.store)
    (blocks : List Int) :
    ∀ w, FailedAppends blocks w.store (forBlocks body blocks w).2.store := by
  induction blocks with
  | nil => exact fun w => FailedAppends.refl_appends _ _
  | cons index rest ih =>
    intro w
    rw [forBlocks_cons]
    have h := hbody index w
    rcases outcome (body index) w with ⟨a, w1, h1⟩ | ⟨e, w1, h1⟩
    · rw [bind_ok h1]
      rw [h1] at h
      exact FailedAppends.append_appends h (ih w1)
    · rw [bind_error h1]
      rw [h1] at h
      obtain ⟨extra, he, hs⟩ := h
      exact ⟨extra, he, hs.trans (List.Sublist.cons₂ _ (List.nil_sublist _))⟩

/-- Entries added for blocks that had none leave every block with at most one. -/
theorem FailedAppends.nodup {blocks : List Int} {s s' : Store} (h : FailedAppends blocks s s')
    (hblocks : blocks.Nodup) (hs : s.failedBlocks.Nodup)
    (hnew : ∀ n ∈ s.failedBlocks, n ∉ blocks) : s'.failedBlocks.Nodup := by
  obtain ⟨extra, he, hsub⟩ := h
  rw [Store.failedBlocks, he, List.map_append]
  refine List.Nodup.append hs (hsub.nodup hblocks) ?_
  intro n hn hn'
  exact hnew n hn (hsub.subset hn')

theorem blockRange_nodup (start «end» : Int) : (blockRange start «end»).Nodup :=
  (blockRange_sorted start «end»).nodup

theorem syncBlocks_appends_failed (env : Env) (start «end» : Int) (w : World) :
    FailedAppends (blockRange start «end») w.store (syncBlocks env start «end» w).2.store := by
  unfold syncBlocks
  split
  · exact FailedAppends.refl_appends _ _
  · exact forBlocks_appends_failed _ (syncBlock_appends_failed env) _ w

theorem syncRpcBlocks_appends_failed (env : Env) (start «end» : Int) (w : World) :
    FailedAppends (blockRange start «end») w.store (syncRpcBlocks env start «end» w).2.store := by
  unfold syncRpcBlocks
  split
  · exact FailedAppends.refl_appends _ _
  · exact forBlocks_appends_failed _ (syncRpcBlock_appends_failed env) _ w

theorem removeFailedRecord_shrinks (env : Env) (blockNumber : Int) :
    StoreSteps FailedShrinks (removeFailedRecord env blockNumber) :=
  StoreSteps.query_steps failedShrinks_order _ _ _ fun _ => List.filter_sublist _

theorem retryTry_shrinks (env : Env) (blockNumber : Int) :
    StoreSteps FailedShrinks (retryTry env blockNumber) :=
  StoreSteps.bind_steps failedShrinks_order
    (StoreSteps.mono_steps addressesWritten_failedShrinks (resolveBlock_steps _ _)) fun _ =>
    removeFailedRecord_shrinks _ _

/-- What every turn of the retry loop preserves, the loop preserves. -/
theorem retryLoop_steps {S : Store → Store → Prop} (hS : StoreOrder S) (env : Env)
    (hturn : ∀ blockNumber, StoreSteps S (retryTry env blockNumber)) (l : List FailedRow) :
    ∀ (r : RetryResult) (w : World), S w.store (retryLoop env l r w).2.store := by
  induction l with
  | nil => exact fun r w => hS.refl _
  | cons fail rest ih =>
    intro r w
    rw [retryLoop]
    refine hS.trans ?_ (ih _ _)
    rw [retryEntry_world]
    exact hturn fail.blockNumber w

/-! ## The addresses of table `addresses` -/

theorem keysKept_order : StoreOrder KeysKept :=
  ⟨fun _ => ⟨List.prefix_refl _, fun h => h⟩,
   fun h1 h2 => ⟨h1.1.trans h2.1, fun h => h2.2 (h1.2 h)⟩⟩

theorem KeysKept.of_keys_eq {s s' : Store} (h : s'.keys = s.keys) : KeysKept s s' := by
  rw [KeysKept, h]
  exact ⟨List.prefix_refl _, fun h => h⟩

theorem unchanged_keysKept (a b : Store) (h : Unchanged a b) : KeysKept a b := by
  rw [Unchanged] at h
  subst h
  exact keysKept_order.refl _

theorem updateAddressBalance_keysKept (env : Env) (address : String) (blockNumber balance : Int) :
    StoreSteps KeysKept (updateAddressBalance env address blockNumber balance) :=
  StoreSteps.query_steps keysKept_order _ _ _ fun s =>
    KeysKept.of_keys_eq (by simp only [Store.keys]; rw [keys_update])

theorem addFailedRecord_keysKept (env : Env) (blockNumber : Int) (message : JsStr) :
    StoreSteps KeysKept (addFailedRecord env blockNumber message) :=
  StoreSteps.query_steps keysKept_order _ _ _ fun _ => KeysKept.of_keys_eq rfl

theorem removeFailedRecord_keysKept (env : Env) (blockNumber : Int) :
    StoreSteps KeysKept (removeFailedRecord env blockNumber) :=
  StoreSteps.query_steps keysKept_order _ _ _ fun _ => KeysKept.of_keys_eq rfl

theorem updateStatusKey_keysKept (env : Env) (tableName key : String) (value : Int) :
    StoreSteps KeysKept (updateStatusKey env tableName key value) := by
  unfold updateStatusKey
  refine StoreSteps.bind_steps keysKept_order
    (StoreSteps.query_steps keysKept_order _ _ _ fun s => keysKept_order.refl s) fun results => ?_
  exact StoreSteps.ite_steps
    (StoreSteps.query_steps keysKept_order _ _ _ fun s => KeysKept.of_keys_eq rfl)
    (StoreSteps.query_steps keysKept_order _ _ _ fun s => KeysKept.of_keys_eq rfl)

/-- An insertion that follows a select that found no record of the address. -/
theorem addNewAddressRecord_keysKept (env : Env) (address : String) (blockNumber balance : Int)
    (w : World) (h : address ∉ w.store.keys) :
    KeysKept w.store (addNewAddressRecord env address blockNumber balance w).2.store := by
  unfold addNewAddressRecord
  rcases query_cases env _ _ w with ⟨m, hq⟩ | hq
  · rw [hq]
    exact keysKept_order.refl _
  · rw [hq]
    simp only [KeysKept, Store.keys, List.map_append, List.map_cons, List.map_nil]
    refine ⟨List.prefix_append _ _, fun hn => ?_⟩
    refine List.Nodup.append hn (List.nodup_singleton _) ?_
    intro a ha ha'
    rw [List.mem_singleton] at ha'
    subst ha'
    exact h ha

/-- The select of an address followed by what the two walkers do with the answer: a
record is inserted only when the select found none. -/
theorem selectThenWrite_keysKept (env : Env) (address : String) (index balance : Int)
    (onRecord : M Unit) (hrec : StoreSteps KeysKept onRecord) (w : World) :
    KeysKept w.store
      ((getAddressRecord env address >>= fun existingRecord =>
        if existingRecord.isSome then onRecord
        else addNewAddressRecord env address index balance) w).2.store := by
  rcases outcome (getAddressRecord env address) w with ⟨record, w1, h1⟩ | ⟨e, w1, h1⟩
  · rw [bind_ok h1]
    obtain ⟨hs, _, hr, _⟩ := getAddressRecord_ok h1
    rw [← hs]
    split
    · exact hrec w1
    · rename_i hnone
      refine addNewAddressRecord_keysKept env address index balance w1 ?_
      rw [hs]
      exact fun hmem => hnone (hr.mpr hmem)
  · rw [bind_error h1]
    have := getAddressRecord_steps env address w
    rw [h1] at this
    exact unchanged_keysKept _ _ this

theorem upsertItem_keysKept (env : Env) (index : Int) (item : BalanceItem) :
    StoreSteps KeysKept (upsertItem env index item) := fun w =>
  selectThenWrite_keysKept env item.address index item.balance
    (updateAddressBalance env item.address index item.balance)
    (updateAddressBalance_keysKept _ _ _ _) w

theorem upsertItems_keysKept (env : Env) (index : Int) (info : List BalanceItem) :
    StoreSteps KeysKept (upsertItems env index info) := by
  induction info with
  | nil => exact StoreSteps.pure_steps keysKept_order _
  | cons item rest ih =>
    exact StoreSteps.bind_steps keysKept_order (upsertItem_keysKept env index item) fun _ => ih

theorem resolveBlock_keysKept (env : Env) (index : Int) :
    StoreSteps KeysKept (resolveBlock env index) :=
  StoreSteps.bind_steps keysKept_order
    (StoreSteps.mono_steps unchanged_keysKept (getBlockInfo_steps _ _)) fun _ =>
    upsertItems_keysKept _ _ _

theorem insertNewRecords_keysKept (env : Env) (index : Int) (addresses : List String) :
    StoreSteps KeysKept (insertNewRecords env index addresses) := by
  induction addresses with
  | nil => exact StoreSteps.pure_steps keysKept_order _
  | cons address rest ih =>
    have h : insertNewRecords env index (address :: rest) =
        ((getAddressRecord env address >>= fun existingRecord =>
          if existingRecord.isSome then pure ()
          else addNewAddressRecord env address index 0) >>= fun _ =>
          insertNewRecords env index rest) := by
      rw [insertNewRecords, bind_bind]
    rw [h]
    exact StoreSteps.bind_steps keysKept_order
      (fun w => selectThenWrite_keysKept env address index 0 (pure ())
        (StoreSteps.pure_steps keysKept_order _) w) fun _ => ih

theorem resolveRpcBlock_keysKept (env : Env) (index : Int) :
    StoreSteps KeysKept (resolveRpcBlock env index) :=
  StoreSteps.bind_steps keysKept_order
    (StoreSteps.mono_steps unchanged_keysKept (fetchRpcAddresses_steps _ _)) fun _ =>
    insertNewRecords_keysKept _ _ _

theorem syncBlock_keysKept (env : Env) (index : Int) : StoreSteps KeysKept (syncBlock env index) :=
  StoreSteps.bind_steps keysKept_order
    (StoreSteps.tryCatch_steps keysKept_order (resolveBlock_keysKept _ _)
      fun _ => addFailedRecord_keysKept _ _ _)
    fun _ => updateStatusKey_keysKept _ _ _ _

theorem syncRpcBlock_keysKept (env : Env) (index : Int) :
    StoreSteps KeysKept (syncRpcBlock env index) :=
  StoreSteps.bind_steps keysKept_order
    (StoreSteps.tryCatch_steps keysKept_order (resolveRpcBlock_keysKept _ _)
      fun _ => addFailedRecord_keysKept _ _ _)
    fun _ => updateStatusKey_keysKept _ _ _ _

theorem syncBlocks_keysKept (env : Env) (start «end» : Int) :
    StoreSteps KeysKept (syncBlocks env start «end») :=
  StoreSteps.ite_steps (StoreSteps.pure_steps keysKept_order _)
    (forBlocks_steps keysKept_order _ (syncBlock_keysKept env) _)

theorem syncRpcBlocks_keysKept (env : Env) (start «end» : Int) :
    StoreSteps KeysKept (syncRpcBlocks env start «end») :=
  StoreSteps.ite_steps (StoreSteps.pure_steps keysKept_order _)
    (forBlocks_steps keysKept_order _ (syncRpcBlock_keysKept env) _)

theorem retryTry_keysKept (env : Env) (blockNumber : Int) :
    StoreSteps KeysKept (retryTry env blockNumber) :=
  StoreSteps.bind_steps keysKept_order (resolveBlock_keysKept _ _) fun _ =>
    removeFailedRecord_keysKept _ _

/-! ## The balance requests of `getBlockInfo` -/

theorem balanceRequest_none (r : Request) (h : r.kind ∈ [Kind.firstPage, Kind.nextPage,
    Kind.addressRead]) : balanceRequest r = none := by
  cases r with
  | balance a => simp [Request.kind] at h
  | _ => rfl

theorem fetchBlockAddresses_asks (env : Env) (blockNumber : Int) :
    Asks [.firstPage, .nextPage] (fetchBlockAddresses env blockNumber) := by
  rw [fetchBlockAddresses_eq]
  exact Requests.bind_requests (Requests.send_requests _ _ (by simp [Request.kind])) fun _ =>
    Asks.mono_asks (by decide) (afterFirstPage_asks _ _ _)

theorem fetchBlockAddresses_noBalance (env : Env) (blockNumber : Int) :
    Emits balanceRequest (fetchBlockAddresses env blockNumber) [] :=
  Requests.silent balanceRequest (fetchBlockAddresses_asks env blockNumber) fun r h =>
    balanceRequest_none r (by
      simp only [List.mem_cons, List.mem_singleton, List.not_mem_nil, or_false] at h ⊢
      tauto)

theorem selectNewAddresses_noBalance (env : Env) (addresses newAddresses : List String) :
    Emits balanceRequest (selectNewAddresses env addresses newAddresses) [] :=
  Requests.silent balanceRequest (selectNewAddresses_asks env addresses newAddresses) fun r h =>
    balanceRequest_none r (by
      simp only [List.mem_cons, List.mem_singleton, List.not_mem_nil, or_false] at h ⊢
      tauto)

theorem startBalanceRequests_balance (env : Env) (addresses : List String) (w : World) :
    (startBalanceRequests env addresses w).2.trace.filterMap balanceRequest =
      w.trace.filterMap balanceRequest ++ if env.ADDRESS_SYNC_ONLY then [] else addresses := by
  rw [startBalanceRequests_trace, List.filterMap_append]
  split
  · simp
  · congr 1
    induction addresses with
    | nil => rfl
    | cons a rest ih => simp [balanceRequest, ih]

/-- `Promise.all` rejects when one of the promises does. -/
theorem promiseAll_error {α : Type} (l : List (Except Thrown α)) :
    (∃ e, promiseAll l = .error e) ↔ ∃ e, .error e ∈ l := by
  induction l with
  | nil => simp [promiseAll]
  | cons r rest ih =>
    cases r with
    | error e =>
      simp only [promiseAll, List.mem_cons]
      exact ⟨fun _ => ⟨e, Or.inl rfl⟩, fun _ => ⟨e, rfl⟩⟩
    | ok a =>
      simp only [promiseAll, List.mem_cons]
      cases hp : promiseAll rest with
      | error e =>
        obtain ⟨e', he'⟩ := ih.mp ⟨e, hp⟩
        exact ⟨fun _ => ⟨e', Or.inr he'⟩, fun _ => ⟨e, rfl⟩⟩
      | ok as =>
        constructor
        · rintro ⟨e, he⟩
          simp at he
        · rintro ⟨e, he | he⟩
          · simp at he
          · obtain ⟨e', he'⟩ := ih.mpr ⟨e, he⟩
            rw [hp] at he'
            simp at he'

/-- `Promise.all` resolves when every promise does. -/
theorem promiseAll_ok {α : Type} (l : List (Except Thrown α)) (h : ∀ r ∈ l, ∃ a, r = .ok a) :
    ∃ as, promiseAll l = .ok as := by
  cases hp : promiseAll l with
  | ok as => exact ⟨as, rfl⟩
  | error e =>
    obtain ⟨e', he'⟩ := (promiseAll_error l).mp ⟨e, hp⟩
    obtain ⟨a, ha⟩ := h _ he'
    simp at ha

/-- The call of `getBlockInfo`, once the pages were read and the records looked up:
its outcome is that of `Promise.all` on the balance requests of the new addresses. -/
theorem getBlockInfo_after_select {env : Env} {blockNumber : Int} {w w1 w2 : World}
    {addresses new : List String}
    (hfetch : fetchBlockAddresses env blockNumber w = (.ok addresses, w1))
    (hsel : selectNewAddresses env (uniqueOf addresses) [] w1 = (.ok new, w2)) :
    getBlockInfo env blockNumber w =
      ((promiseAll (startBalanceRequests env new w2).1).map fun response =>
          response.map fun item => (⟨item.data.address, item.data.balance⟩ : BalanceItem),
        (startBalanceRequests env new w2).2) := by
  unfold getBlockInfo
  rw [bind_ok hfetch]
  unfold resolveNewAddresses
  rw [bind_ok hsel, bind_apply]
  cases hp : promiseAll (startBalanceRequests env new w2).1 with
  | error e => rfl
  | ok response => rfl

/-- The balance requests of a call of `getBlockInfo`, whatever its outcome: none, or
one for each address of the block without a record. -/
theorem getBlockInfo_balance (env : Env) (blockNumber : Int) (w : World) :
    (getBlockInfo env blockNumber w).2.trace.filterMap balanceRequest =
        w.trace.filterMap balanceRequest ∨
      ∃ addresses w1, fetchBlockAddresses env blockNumber w = (.ok addresses, w1) ∧
        (getBlockInfo env blockNumber w).2.trace.filterMap balanceRequest =
          w.trace.filterMap balanceRequest ++
            (uniqueOf addresses).filter fun a => a ∉ w.store.keys := by
  have hf := fetchBlockAddresses_noBalance env blockNumber w
  rw [List.append_nil] at hf
  rcases outcome (fetchBlockAddresses env blockNumber) w with ⟨addresses, w1, h1⟩ | ⟨e, w1, h1⟩
  · rw [h1] at hf
    have hs := selectNewAddresses_noBalance env (uniqueOf addresses) [] w1
    rw [List.append_nil] at hs
    have hst1 : w1.store = w.store := by
      have := fetchBlockAddresses_steps env blockNumber w
      rw [h1] at this
      exact this
    rcases outcome (selectNewAddresses env (uniqueOf addresses) []) w1 with
      ⟨new, w2, h2⟩ | ⟨e, w2, h2⟩
    · rw [h2] at hs
      obtain ⟨_, hnew⟩ := selectNewAddresses_ok h2
      rw [List.nil_append, hst1] at hnew
      rw [getBlockInfo_after_select h1 h2, startBalanceRequests_balance, hs, hf]
      by_cases hmode : env.ADDRESS_SYNC_ONLY = true
      · left
        simp [hmode]
      · right
        refine ⟨addresses, w1, h1, ?_⟩
        rw [if_neg hmode, hnew]
    · left
      rw [h2] at hs
      have : getBlockInfo env blockNumber w = (.error e, w2) := by
        unfold getBlockInfo
        rw [bind_ok h1]
        unfold resolveNewAddresses
        rw [bind_error h2]
      rw [this, hs, hf]
  · left
    rw [h1] at hf
    have : getBlockInfo env blockNumber w = (.error e, w1) := by
      unfold getBlockInfo
      rw [bind_error h1]
    rw [this, hf]

theorem startBalanceRequests_length (env : Env) (addresses : List String) :
    ∀ w, (startBalanceRequests env addresses w).1.length = addresses.length := by
  induction addresses with
  | nil => exact fun w => rfl
  | cons a rest ih =>
    intro w
    unfold startBalanceRequests
    split
    · simp [ih]
    · simp [ih]

/-- When only addresses are synchronised every balance is taken to be 0 and no
request is made. -/
theorem startBalanceRequests_syncOnly (env : Env) (hmode : env.ADDRESS_SYNC_ONLY = true)
    (addresses : List String) :
    ∀ w, (startBalanceRequests env addresses w).1 =
      addresses.map fun a => .ok ⟨⟨a, 0⟩⟩ := by
  induction addresses with
  | nil => exact fun w => rfl
  | cons a rest ih =>
    intro w
    unfold startBalanceRequests
    rw [if_pos hmode]
    simp [ih]

/-- The outcome of the balance request for the `i`-th new address is the answer of
the explorer at the time the request is made. -/
theorem startBalanceRequests_get (env : Env) (hmode : env.ADDRESS_SYNC_ONLY = false)
    (addresses : List String) :
    ∀ (w : World) (i : Nat) (hi : i < addresses.length),
      (startBalanceRequests env addresses w).1[i]? =
        some ((env.explorerBalance (w.trace.length + i) (addresses.get ⟨i, hi⟩)).map
          fun balance => ⟨⟨addresses.get ⟨i, hi⟩, balance⟩⟩) := by
  induction addresses with
  | nil => exact fun w i hi => absurd hi (Nat.not_lt_zero _)
  | cons a rest ih =>
    intro w i hi
    unfold startBalanceRequests
    rw [if_neg (by simp [hmode])]
    cases i with
    | zero => simp [getBalance, BitcoinAddress.send]
    | succ j =>
      have hj : j < rest.length := by simpa using hi
      simp only [List.getElem?_cons_succ, List.get_cons_succ]
      rw [ih (getBalance env a w).2 j hj]
      have : (getBalance env a w).2.trace.length + j = w.trace.length + (j + 1) := by
        simp only [getBalance, BitcoinAddress.send, List.length_append, List.length_singleton]
        omega
      rw [this]

/-! ## The claims on the examples -/

theorem scenarioEnv_statementsRun : scenarioEnv.StatementsRun := fun _ _ => rfl

theorem steadyEnv_stationary : steadyEnv.Stationary := fun _ _ => ⟨rfl, rfl, rfl⟩

/-- C1 as stated fails on its own scenario.  From a fresh store, `syncBlocks(0, 2)`
with block 0 showing A and B (balances 1 and 2), block 1 failing and block 2 showing
B and C (the explorer reporting 5 for B and 9 for C by then) leaves the records
A:1@0, B:2@0, C:9@2, a failure entry for block 1 and the checkpoint at 2: block 2 is
resolved and shows B, but `getBlockInfo` resolves an item for C only, and the record
of B keeps the block and the balance of block 0. -/
theorem last_write_does_not_win :
    (syncBlocks scenarioEnv 0 2 freshWorld).2.store =
      ⟨[⟨"A", 1, 0⟩, ⟨"B", 2, 0⟩, ⟨"C", 9, 2⟩], [⟨1, "\"Not Found\""⟩],
        [⟨"blockNumber", 2⟩]⟩ ∧
    (fetchBlockAddresses scenarioEnv 2 (reached (syncBlock scenarioEnv) 0 2 freshWorld)).1 =
      .ok ["B", "C"] ∧
    (getBlockInfo scenarioEnv 2 (reached (syncBlock scenarioEnv) 0 2 freshWorld)).1 =
      .ok [⟨"C", 9⟩] ∧
    scenarioEnv.explorerBalance (reached (syncBlock scenarioEnv) 0 2 freshWorld).trace.length "B" =
      .ok 5 ∧
    (⟨"B", 5, 2⟩ : AddressRow) ∉ (syncBlocks scenarioEnv 0 2 freshWorld).2.store.addresses := by
  refine ⟨by decide!, by decide!, by decide!, by decide!, by decide!⟩

/-- C1, as the code has it, on the scenario: block 0 is resolved with the items A:1
and B:2, and after the walk the one record of B is B:2@0. -/
theorem syncBlocks_first_write_wins_witness :
    scenarioEnv.StatementsRun ∧ (0 : Int) < 2 ∧
    getBlockInfo scenarioEnv 0 (reached (syncBlock scenarioEnv) 0 0 freshWorld) =
      (.ok [⟨"A", 1⟩, ⟨"B", 2⟩],
        (getBlockInfo scenarioEnv 0 (reached (syncBlock scenarioEnv) 0 0 freshWorld)).2) ∧
    (syncBlocks scenarioEnv 0 2 freshWorld).2.store.addresses.filter
      (fun r => r.address = "B") = [⟨"B", 2, 0⟩] :=
  ⟨scenarioEnv_statementsRun, by decide, by decide!,
    ((syncBlocks_first_write_wins scenarioEnv scenarioEnv_statementsRun 0 2 freshWorld
      (by decide) 0 (by decide) (by decide) [⟨"A", 1⟩, ⟨"B", 2⟩]
      (getBlockInfo scenarioEnv 0 (reached (syncBlock scenarioEnv) 0 0 freshWorld)).2
      (by decide!)).2.1
      ⟨"B", 2⟩ (by decide)).2⟩

/-- C2 on the scenario, for block 1, which the explorer does not have. -/
theorem walkers_cover_range_witness :
    scenarioEnv.BookkeepingSucceeds ∧ (0 : Int) < 2 ∧ (0 : Int) ≤ 1 ∧ (1 : Int) ≤ 2 ∧
    ((syncBlocks scenarioEnv 0 2 freshWorld).1 = .ok () ∧
      ((∃ row ∈ (syncBlocks scenarioEnv 0 2 freshWorld).2.store.failed, row.blockNumber = 1) ∨
        ∃ addresses w', fetchBlockAddresses scenarioEnv 1
            (reached (syncBlock scenarioEnv) 0 1 freshWorld) = (.ok addresses, w') ∧
          ∀ a ∈ addresses, a ∈ (syncBlocks scenarioEnv 0 2 freshWorld).2.store.keys)) :=
  ⟨scenarioEnv_bookkeeping, by decide, by decide, by decide,
    (walkers_cover_range scenarioEnv scenarioEnv_bookkeeping 0 2 freshWorld (by decide) 1
      (by decide) (by decide)).1⟩

/-- C5 as stated fails on a page without `list`: the one page of block 6 has status
`"success"`, a page count of 1 and no `list`, and `getBlockInfo` resolves, with no
item, so that the turn of `syncBlocks` records no failure entry for the block. -/
theorem page_without_list_does_not_abort :
    scenarioEnv.explorerBlockTx 0 6 1 = .ok ⟨some "success", some ⟨none, some 1⟩⟩ ∧
    (getBlockInfo scenarioEnv 6 freshWorld).1 = .ok [] ∧
    (syncBlock scenarioEnv 6 freshWorld).2.store.failed = [] := by
  refine ⟨by decide, by decide!, by decide!⟩

theorem scenario_pageFails : PageFails scenarioEnv 4 freshWorld.trace.length 2 :=
  Or.inr ⟨le_rfl, onePage "success" [some "D"] [] 2, 2, .str "Bad Gateway", rfl, rfl, rfl,
    le_rfl, fun q h1 h2 => absurd h2 (by omega), rfl⟩

/-- C5, as the code has it, on block 4 of the examples, whose second page is
rejected. -/
theorem page_failure_aborts_block_witness :
    PageFails scenarioEnv 4 freshWorld.trace.length 2 ∧
    ∃ e w', getBlockInfo scenarioEnv 4 freshWorld = (.error e, w') ∧
      w'.store = freshWorld.store ∧
      w'.trace = freshWorld.trace ++
        (List.range 2).map (fun i => Request.blockTx 4 (i + 1)) :=
  ⟨scenario_pageFails, (page_failure_aborts_block scenarioEnv 4 freshWorld 2
    scenario_pageFails).1⟩

theorem scenario_threePages (p : Nat) (h1 : 1 ≤ p) (h2 : p ≤ 3) :
    scenarioEnv.explorerBlockTx (freshWorld.trace.length + (p - 1)) 3 p = .ok (threePages p) := by
  interval_cases p <;> rfl

/-- C6 on block 3 of the examples, which has three pages. -/
theorem getBlockInfo_reads_all_pages_witness :
    1 ≤ 3 ∧ (threePages 1).status = some "success" ∧
    pageTotalOf (threePages 1) = some ((3 : Nat) : Int) ∧
    ∃ addresses w',
      fetchBlockAddresses scenarioEnv 3 freshWorld = (.ok addresses, w') ∧
      w'.trace = freshWorld.trace ++ (List.range 3).map (fun i => Request.blockTx 3 (i + 1)) ∧
      getBlockInfo scenarioEnv 3 freshWorld =
        resolveNewAddresses scenarioEnv (uniqueOf addresses) w' ∧
      (getBlockInfo scenarioEnv 3 freshWorld).2.trace.filterMap pageRequest =
        freshWorld.trace.filterMap pageRequest ++
          (List.range 3).map (fun i => ((3 : Int), i + 1)) ∧
      (uniqueOf addresses).Nodup ∧
      ∀ a, a ∈ uniqueOf addresses ↔
        ∃ p, 1 ≤ p ∧ p ≤ 3 ∧ a ∈ getInputOutputAddressesFromTx (pageList (threePages p)) :=
  ⟨by decide, rfl, rfl,
    getBlockInfo_reads_all_pages scenarioEnv 3 freshWorld 3 threePages (by decide)
      scenario_threePages rfl rfl⟩

/-- C7 as stated fails on the empty string: it is a non-null element of the
`prev_addresses` of an input, and the result does not hold it. -/
theorem empty_string_is_dropped :
    (∃ input ∈ (⟨[⟨[some ""]⟩], []⟩ : Tx).inputs, some "" ∈ input.prev_addresses) ∧
    "" ∉ getInputOutputAddressesFromTx [⟨[⟨[some ""]⟩], []⟩] ∧
    getInputOutputAddressesFromTx [⟨[⟨[some ""]⟩], []⟩] = [] := by
  refine ⟨⟨⟨[some ""]⟩, by simp, by simp⟩, by decide, by decide⟩

/-- C7, as the code has it.  Extraction and dedup.  For every transaction list,
`getInputOutputAddressesFromTx` returns a list without repetition whose members are
the strings other than the empty one that occur in the `prev_addresses` of an input
or in the `addresses` of an output of a transaction of the list; an address that
occurs several times occurs once in the result. -/
theorem getInputOutputAddressesFromTx_members (tx : List Tx) :
    (getInputOutputAddressesFromTx tx).Nodup ∧
    (∀ a, a ∈ getInputOutputAddressesFromTx tx ↔
      a ≠ "" ∧ ∃ item ∈ tx,
        (∃ input ∈ item.inputs, some a ∈ input.prev_addresses) ∨
        (∃ output ∈ item.outputs, some a ∈ output.addresses)) ∧
    ∀ a ∈ getInputOutputAddressesFromTx tx, (getInputOutputAddressesFromTx tx).count a = 1 :=
  ⟨nodup_getInputOutputAddressesFromTx tx, mem_getInputOutputAddressesFromTx tx,
    fun _ ha => List.count_eq_one_of_mem (nodup_getInputOutputAddressesFromTx tx) ha⟩

/-- C8 on block 0 of the examples, with an explorer that reports the same balances at
all times. -/
theorem resolveBlock_idempotent_witness :
    steadyEnv.Stationary ∧
    (resolveBlock steadyEnv 0 (resolveBlock steadyEnv 0 freshWorld).2).2.store =
      (resolveBlock steadyEnv 0 freshWorld).2.store :=
  ⟨steadyEnv_stationary, resolveBlock_idempotent steadyEnv steadyEnv_stationary 0 freshWorld⟩

/-- C9 on a queue with an entry for block 1, which still fails, and an entry for
block 0, which is now resolved. -/
theorem syncFailedBlocks_converges_witness :
    (retryBlock scenarioEnv nowResolved
      (syncFailedBlocks scenarioEnv [stillFailing] failedWorld).1.succeeds
      (syncFailedBlocks scenarioEnv [stillFailing] failedWorld).2).1.1 = .ok () ∧
    nowResolved.blockNumber ∉ ([stillFailing] ++ []).map (fun f : FailedRow => f.blockNumber) ∧
    (∀ row ∈ (syncFailedBlocks scenarioEnv ([stillFailing] ++ nowResolved :: [])
        failedWorld).2.store.failed, row.blockNumber ≠ nowResolved.blockNumber) ∧
    nowResolved ∉ (syncFailedBlocks scenarioEnv ([stillFailing] ++ nowResolved :: [])
      failedWorld).1.fails ∧
    (syncFailedBlocks scenarioEnv ([stillFailing] ++ nowResolved :: []) failedWorld).1 =
      ⟨[stillFailing], [⟨"A", 1⟩, ⟨"B", 2⟩]⟩ ∧
    (syncFailedBlocks scenarioEnv ([stillFailing] ++ nowResolved :: [])
      failedWorld).2.store.failed = [stillFailing] :=
  ⟨by decide!, by decide,
    ((syncFailedBlocks_converges scenarioEnv failedWorld [stillFailing] []
      nowResolved).2.1 (by decide!)).1,
    ((syncFailedBlocks_converges scenarioEnv failedWorld [stillFailing] []
      nowResolved).2.1 (by decide!)).2.2.2 (by decide),
    by decide!, by decide!⟩

/-- C10 fails on the code.  Block 0 of the daemon of the examples has an output of
type `nulldata` without an address, for which `extractAddress` yields `null`, an
output of type `pubkeyhash` without an address, for which it yields `undefined`, an
output to the public key `"zz"`, which decodes to an address, and an output of type
`pubkey` without `hex`, whose decode throws, for which it yields `null`;
`syncRpcBlocks(0, 1)` on a fresh store inserts a record with address `"null"` and a
record with address `"undefined"`. -/
theorem syncRpcBlocks_inserts_placeholder_keys :
    extractAddress scenarioEnv ⟨"nulldata", .undefined, .str "6a"⟩ = .null ∧
    extractAddress scenarioEnv ⟨"pubkeyhash", .undefined, .str "76a9"⟩ = .undefined ∧
    extractAddress scenarioEnv ⟨"pubkey", .undefined, .str "zz"⟩ =
      .str "bc1k3e2yekshkyuzdcx5sfjena3da7rh87ttjknsk" ∧
    extractAddress scenarioEnv ⟨"pubkey", .undefined, .undefined⟩ = .null ∧
    (syncRpcBlocks scenarioEnv 0 1 freshWorld).2.store.addresses =
      [⟨"A", 0, 0⟩, ⟨"null", 0, 0⟩, ⟨"undefined", 0, 0⟩,
        ⟨"bc1k3e2yekshkyuzdcx5sfjena3da7rh87ttjknsk", 0, 0⟩] := by
  refine ⟨by decide, by decide, by decide, by decide, by decide!⟩

/-! ## The resume point, the failure entries, the new addresses, the address keys -/

/-- C11, as the code has it.  When the statement by which `startSync` reads the
checkpoint runs: the value read is the one stored, and 0 when table `status` has no
row of key `blockNumber`; for a value below -1 no walk is started; otherwise
`startSync` is the walk `syncRpcBlocks` from one past the value read to the end block.
The blocks it asks the daemon for are the first ones of the indices from one past the
value read to the end block, so none is at or below the value read; and when the
statements on tables `failed` and `status` run and one past the value read is below
the end block, they are all these indices, the first being one past the value read. -/
theorem startSync_resumes_after_checkpoint (env : Env) (syncEndBlockNumber : Int) (w : World)
    (hread : env.sqlError w.trace.length (.selectStatus "status" "blockNumber") = none) :
    getSyncedBLockNumber env w =
      (w.store.checkpoint.getD 0,
        ⟨w.store, w.trace ++ [.sql (.selectStatus "status" "blockNumber")]⟩) ∧
    (w.store.checkpoint.getD 0 < -1 →
      startSync env syncEndBlockNumber w = (.ok (), (getSyncedBLockNumber env w).2)) ∧
    (-1 ≤ w.store.checkpoint.getD 0 →
      startSync env syncEndBlockNumber w =
        syncRpcBlocks env (w.store.checkpoint.getD 0 + 1) syncEndBlockNumber
          (getSyncedBLockNumber env w).2) ∧
    (∃ blocks, blocks <+: blockRange (w.store.checkpoint.getD 0 + 1) syncEndBlockNumber ∧
      (startSync env syncEndBlockNumber w).2.trace.filterMap rpcAttempt =
        w.trace.filterMap rpcAttempt ++ blocks ∧
      ∀ b ∈ blocks, w.store.checkpoint.getD 0 < b) ∧
    (env.BookkeepingSucceeds → -1 ≤ w.store.checkpoint.getD 0 →
      w.store.checkpoint.getD 0 + 1 < syncEndBlockNumber →
      (startSync env syncEndBlockNumber w).2.trace.filterMap rpcAttempt =
        w.trace.filterMap rpcAttempt ++
          blockRange (w.store.checkpoint.getD 0 + 1) syncEndBlockNumber ∧
      (blockRange (w.store.checkpoint.getD 0 + 1) syncEndBlockNumber).head? =
        some (w.store.checkpoint.getD 0 + 1)) := by
  have hg := getSyncedBLockNumber_ok env w hread
  have hlow : w.store.checkpoint.getD 0 < -1 →
      startSync env syncEndBlockNumber w = (.ok (), (getSyncedBLockNumber env w).2) := by
    intro h
    unfold startSync
    simp only [hg]
    rw [if_pos h]
  have hhigh : -1 ≤ w.store.checkpoint.getD 0 →
      startSync env syncEndBlockNumber w =
        syncRpcBlocks env (w.store.checkpoint.getD 0 + 1) syncEndBlockNumber
          (getSyncedBLockNumber env w).2 := by
    intro h
    unfold startSync
    simp only [hg]
    rw [if_neg (by omega)]
  have htrace : (getSyncedBLockNumber env w).2.trace.filterMap rpcAttempt =
      w.trace.filterMap rpcAttempt := by
    rw [hg]
    simp [rpcAttempt]
  refine ⟨hg, hlow, hhigh, ?_, ?_⟩
  · rcases lt_or_le (w.store.checkpoint.getD 0) (-1) with h | h
    · refine ⟨[], List.nil_prefix, ?_, by simp⟩
      rw [hlow h, htrace, List.append_nil]
    · obtain ⟨pre, hpre, ht⟩ := syncRpcBlocks_attempts_initial env
        (w.store.checkpoint.getD 0 + 1) syncEndBlockNumber (getSyncedBLockNumber env w).2
      refine ⟨pre, hpre, ?_, fun b hb => ?_⟩
      · rw [hhigh h, ht, htrace]
      · have := (mem_blockRange _ _ b).mp (hpre.subset hb)
        omega
  · intro hb h hlt
    refine ⟨?_, ?_⟩
    · rw [hhigh h, syncRpcBlocks_eq_forBlocks env _ _ hlt]
      have he := Emits.forBlocks (c := id) (syncRpcBlock_attempt env)
        (syncRpcBlock_resolves env hb)
        (blockRange (w.store.checkpoint.getD 0 + 1) syncEndBlockNumber)
        (getSyncedBLockNumber env w).2
      rw [List.map_id] at he
      rw [he, htrace]
    · rw [blockRange_cons _ _ (le_of_lt hlt)]
      rfl

/-- C11 at a store whose checkpoint is -1, with end block 2: blocks 0, 1 and 2 are
asked for. -/
theorem startSync_resumes_after_checkpoint_witness :
    scenarioEnv.sqlError freshWorld.trace.length (.selectStatus "status" "blockNumber") = none ∧
    freshWorld.store.checkpoint.getD 0 = -1 ∧
    (startSync scenarioEnv 2 freshWorld).2.trace.filterMap rpcAttempt =
      freshWorld.trace.filterMap rpcAttempt ++ blockRange (-1 + 1) 2 :=
  ⟨rfl, by decide,
    ((startSync_resumes_after_checkpoint scenarioEnv 2 freshWorld rfl).2.2.2.2
      scenarioEnv_bookkeeping (by decide) (by decide)).1⟩

/-- C11 as stated fails on a store without a checkpoint row: with end block 2,
`startSync` asks the daemon for blocks 1 and 2, and block 0 is not walked. -/
theorem fresh_store_walk_starts_at_block_one :
    emptyWorld.store.status = [] ∧
    (getSyncedBLockNumber scenarioEnv emptyWorld).1 = 0 ∧
    (startSync scenarioEnv 2 emptyWorld).1 = .ok () ∧
    (startSync scenarioEnv 2 emptyWorld).2.trace.filterMap rpcAttempt = [1, 2] ∧
    (0 : Int) ∉ (startSync scenarioEnv 2 emptyWorld).2.trace.filterMap rpcAttempt := by
  decide!

/-- C12, as the code has it.  When table `failed` holds at most one entry for each
block number: it still does after `syncBlocks(start, end)` and after
`syncRpcBlocks(start, end)` when it held no entry for a block from `start` to `end`,
and it still does after `syncFailedBlocks`, whatever the queue.  The walkers keep
every entry and add at most one for each block of the range, in ascending order;
`syncFailedBlocks` adds no entry. -/
theorem failure_entries_stay_unique (env : Env) (start «end» : Int)
    (failed_blocks : List FailedRow) (w : World) (hu : w.store.failedBlocks.Nodup) :
    ((∀ n ∈ w.store.failedBlocks, n < start ∨ «end» < n) →
      (syncBlocks env start «end» w).2.store.failedBlocks.Nodup ∧
      (syncRpcBlocks env start «end» w).2.store.failedBlocks.Nodup) ∧
    FailedAppends (blockRange start «end») w.store (syncBlocks env start «end» w).2.store ∧
    FailedAppends (blockRange start «end») w.store (syncRpcBlocks env start «end» w).2.store ∧
    (syncFailedBlocks env failed_blocks w).2.store.failedBlocks.Nodup ∧
    (syncFailedBlocks env failed_blocks w).2.store.failed.Sublist w.store.failed := by
  have hretry : FailedShrinks w.store (syncFailedBlocks env failed_blocks w).2.store :=
    retryLoop_steps failedShrinks_order env (retryTry_shrinks env) failed_blocks _ w
  refine ⟨fun hnew => ?_, syncBlocks_appends_failed env start «end» w,
    syncRpcBlocks_appends_failed env start «end» w, ?_, hretry⟩
  · have hout : ∀ n ∈ w.store.failedBlocks, n ∉ blockRange start «end» := by
      intro n hn hmem
      have := (mem_blockRange start «end» n).mp hmem
      have := hnew n hn
      omega
    exact ⟨(syncBlocks_appends_failed env start «end» w).nodup (blockRange_nodup _ _) hu hout,
      (syncRpcBlocks_appends_failed env start «end» w).nodup (blockRange_nodup _ _) hu hout⟩
  · exact (List.Sublist.map _ hretry).nodup hu

/-- C12 at the walk of blocks 0 to 2 from a fresh store, whose block 1 fails, and at
the retry of the entries of blocks 1 and 0, of which the one of block 0 is removed. -/
theorem failure_entries_stay_unique_witness :
    freshWorld.store.failedBlocks.Nodup ∧
    (∀ n ∈ freshWorld.store.failedBlocks, n < 0 ∨ 2 < n) ∧
    (syncBlocks scenarioEnv 0 2 freshWorld).2.store.failedBlocks = [1] ∧
    (syncBlocks scenarioEnv 0 2 freshWorld).2.store.failedBlocks.Nodup ∧
    (syncRpcBlocks scenarioEnv 0 2 freshWorld).2.store.failedBlocks.Nodup ∧
    failedWorld.store.failedBlocks.Nodup ∧
    (syncFailedBlocks scenarioEnv [stillFailing, nowResolved] failedWorld).2.store.failedBlocks
      = [1] ∧
    (syncFailedBlocks scenarioEnv [stillFailing, nowResolved]
      failedWorld).2.store.failedBlocks.Nodup :=
  ⟨by decide, by decide, by decide!,
    ((failure_entries_stay_unique scenarioEnv 0 2 [] freshWorld (by decide)).1 (by decide)).1,
    ((failure_entries_stay_unique scenarioEnv 0 2 [] freshWorld (by decide)).1 (by decide)).2,
    by decide, by decide!,
    (failure_entries_stay_unique scenarioEnv 0 2 [stillFailing, nowResolved] failedWorld
      (by decide)).2.2.2.1⟩

/-- C12 as stated fails when the walk comes to a block that has an entry.  The walk
of blocks 0 to 2 from a fresh store, stopped by the rejection of the statement that
writes checkpoint 1, leaves the entry of block 1 and the checkpoint at 0; the walk
that resumes one past the checkpoint, `syncBlocks(1, 2)`, finds block 1 failing still
and adds a second entry for it. -/
theorem resumed_walk_repeats_failure_entry :
    (syncBlocks haltingEnv 0 2 freshWorld).2.store = interruptedWorld.store ∧
    interruptedWorld.store.checkpoint = some 0 ∧
    interruptedWorld.store.failedBlocks.Nodup ∧
    (syncBlocks scenarioEnv 1 2 interruptedWorld).2.store.failedBlocks = [1, 1] ∧
    ¬ (syncBlocks scenarioEnv 1 2 interruptedWorld).2.store.failedBlocks.Nodup ∧
    ¬ (syncRpcBlocks scenarioEnv 1 2 interruptedWorld).2.store.failedBlocks.Nodup := by
  decide!

/-- C13.  New-address-only resolution.  For every block and every store.  When
`getBlockInfo` resolves, the addresses of its pairs are the distinct addresses of the
pages of the block that have no record, each once, in the order of their first
occurrence, so there is no pair for an address with a record, and the balances asked
of the explorer are those of these addresses, none when only addresses are
synchronised.  Whatever the outcome, the balances asked for are none, or those of
the addresses of the block without a record.  And once the pages were read and the
records looked up, the call rejects when the balance request of one new address is
rejected, and resolves when all are answered.  The answer of the explorer names the
address it was asked about (`getBalance`). -/
theorem getBlockInfo_resolves_new_addresses (env : Env) (blockNumber : Int) (w : World) :
    (∀ info w', getBlockInfo env blockNumber w = (.ok info, w') →
      ∃ addresses w1, fetchBlockAddresses env blockNumber w = (.ok addresses, w1) ∧
        w'.store = w.store ∧
        info.map (fun i => i.address) =
          (uniqueOf addresses).filter (fun a => a ∉ w.store.keys) ∧
        (info.map fun i => i.address).Nodup ∧
        (∀ a, a ∈ info.map (fun i => i.address) ↔ a ∈ addresses ∧ a ∉ w.store.keys) ∧
        w'.trace.filterMap balanceRequest = w.trace.filterMap balanceRequest ++
          if env.ADDRESS_SYNC_ONLY then [] else info.map fun i => i.address) ∧
    ((getBlockInfo env blockNumber w).2.trace.filterMap balanceRequest =
        w.trace.filterMap balanceRequest ∨
      ∃ addresses w1, fetchBlockAddresses env blockNumber w = (.ok addresses, w1) ∧
        (getBlockInfo env blockNumber w).2.trace.filterMap balanceRequest =
          w.trace.filterMap balanceRequest ++
            (uniqueOf addresses).filter fun a => a ∉ w.store.keys) ∧
    (∀ addresses w1 new w2, fetchBlockAddresses env blockNumber w = (.ok addresses, w1) →
      selectNewAddresses env (uniqueOf addresses) [] w1 = (.ok new, w2) →
      new = (uniqueOf addresses).filter (fun a => a ∉ w.store.keys) ∧
      (env.ADDRESS_SYNC_ONLY = false →
        ∀ (i : Nat) (hi : i < new.length) (e : Thrown),
          env.explorerBalance (w2.trace.length + i) (new.get ⟨i, hi⟩) = .error e →
          ∃ e' w', getBlockInfo env blockNumber w = (.error e', w')) ∧
      ((env.ADDRESS_SYNC_ONLY = true ∨
          ∀ (i : Nat) (hi : i < new.length),
            ∃ balance, env.explorerBalance (w2.trace.length + i) (new.get ⟨i, hi⟩) = .ok balance) →
        ∃ info w', getBlockInfo env blockNumber w = (.ok info, w'))) := by
  refine ⟨?_, getBlockInfo_balance env blockNumber w, ?_⟩
  · intro info w' h
    obtain ⟨hst, hnodup, _, _⟩ := getBlockInfo_ok h
    obtain ⟨addresses, w1, h1, h2⟩ := bind_ok_inv (show
      (fetchBlockAddresses env blockNumber >>= fun addresses =>
        resolveNewAddresses env (uniqueOf addresses)) w = (.ok info, w') from h)
    have hst1 : w1.store = w.store := by
      have := fetchBlockAddresses_steps env blockNumber w
      rw [h1] at this
      exact this
    obtain ⟨_, hinfo⟩ := resolveNewAddresses_ok h2
    rw [hst1] at hinfo
    refine ⟨addresses, w1, h1, hst, hinfo, hnodup, fun a => ?_, ?_⟩
    · rw [hinfo, List.mem_filter, mem_uniqueOf]
      simp
    · have hf := fetchBlockAddresses_noBalance env blockNumber w
      rw [h1, List.append_nil] at hf
      unfold resolveNewAddresses at h2
      obtain ⟨new, w2, h3, h4⟩ := bind_ok_inv h2
      have hs := selectNewAddresses_noBalance env (uniqueOf addresses) [] w1
      rw [h3, List.append_nil] at hs
      obtain ⟨_, hnew⟩ := selectNewAddresses_ok h3
      rw [List.nil_append, hst1] at hnew
      have hw' : w' = (startBalanceRequests env new w2).2 := by
        rw [bind_apply] at h4
        cases hp : promiseAll (startBalanceRequests env new w2).1 with
        | error e => rw [hp] at h4; simp at h4
        | ok response =>
          rw [hp] at h4
          simp only [pure_apply, Prod.mk.injEq] at h4
          exact h4.2.symm
      rw [hw', startBalanceRequests_balance, hs, hf, hinfo, hnew]
  · intro addresses w1 new w2 h1 h2
    have hst1 : w1.store = w.store := by
      have := fetchBlockAddresses_steps env blockNumber w
      rw [h1] at this
      exact this
    obtain ⟨_, hnew⟩ := selectNewAddresses_ok h2
    rw [List.nil_append, hst1] at hnew
    have hcall := getBlockInfo_after_select h1 h2
    refine ⟨hnew, fun hmode i hi e he => ?_, fun hall => ?_⟩
    · have hget := startBalanceRequests_get env hmode new w2 i hi
      rw [he] at hget
      obtain ⟨e', he'⟩ := (promiseAll_error (startBalanceRequests env new w2).1).mpr
        ⟨e, List.getElem?_mem hget⟩
      rw [he'] at hcall
      exact ⟨e', _, hcall⟩
    · have hok : ∀ r ∈ (startBalanceRequests env new w2).1, ∃ a, r = .ok a := by
        intro r hr
        rcases hall with hmode | hall
        · rw [startBalanceRequests_syncOnly env hmode] at hr
          obtain ⟨a, _, rfl⟩ := List.mem_map.mp hr
          exact ⟨_, rfl⟩
        · cases hmode : env.ADDRESS_SYNC_ONLY with
          | true =>
            rw [startBalanceRequests_syncOnly env hmode] at hr
            obtain ⟨a, _, rfl⟩ := List.mem_map.mp hr
            exact ⟨_, rfl⟩
          | false =>
            obtain ⟨i, hi, hri⟩ := List.getElem_of_mem hr
            have hi' : i < new.length := by
              rw [startBalanceRequests_length] at hi
              exact hi
            have hget := startBalanceRequests_get env hmode new w2 i hi'
            rw [List.getElem?_eq_getElem hi, hri] at hget
            obtain ⟨balance, hb⟩ := hall i hi'
            rw [hb] at hget
            exact ⟨_, Option.some.inj hget⟩
      obtain ⟨response, hr⟩ := promiseAll_ok _ hok
      rw [hr] at hcall
      exact ⟨_, _, hcall⟩

/-- C13 at block 2 of the examples, whose addresses are B and C, on a store with
records of A and B: one pair, for C, and one balance request, for C. -/
theorem getBlockInfo_resolves_new_addresses_witness :
    (getBlockInfo scenarioEnv 2 interruptedWorld).1 = .ok [⟨"C", 9⟩] ∧
    (getBlockInfo scenarioEnv 2 interruptedWorld).2.trace.filterMap balanceRequest = ["C"] ∧
    ∃ addresses w1, fetchBlockAddresses scenarioEnv 2 interruptedWorld = (.ok addresses, w1) ∧
      (getBlockInfo scenarioEnv 2 interruptedWorld).2.store = interruptedWorld.store ∧
      ([⟨"C", 9⟩] : List BalanceItem).map (fun i => i.address) =
        (uniqueOf addresses).filter (fun a => a ∉ interruptedWorld.store.keys) ∧
      (([⟨"C", 9⟩] : List BalanceItem).map fun i => i.address).Nodup ∧
      (∀ a, a ∈ ([⟨"C", 9⟩] : List BalanceItem).map (fun i => i.address) ↔
        a ∈ addresses ∧ a ∉ interruptedWorld.store.keys) ∧
      (getBlockInfo scenarioEnv 2 interruptedWorld).2.trace.filterMap balanceRequest =
        interruptedWorld.trace.filterMap balanceRequest ++
          if scenarioEnv.ADDRESS_SYNC_ONLY then []
          else ([⟨"C", 9⟩] : List BalanceItem).map fun i => i.address :=
  ⟨by decide!, by decide!,
    (getBlockInfo_resolves_new_addresses scenarioEnv 2 interruptedWorld).1 [⟨"C", 9⟩]
      (getBlockInfo scenarioEnv 2 interruptedWorld).2 (by decide!)⟩

/-- C14.  Address key uniqueness.  When no two records of table `addresses` share
an address, none do after `syncBlocks`, after `syncRpcBlocks` and after
`syncFailedBlocks`, whatever the collaborators answer; and each of the three keeps
every record in its place, with its address, adding records after them only. -/
theorem address_keys_stay_unique (env : Env) (start «end» : Int)
    (failed_blocks : List FailedRow) (w : World) (hu : w.store.keys.Nodup) :
    ((syncBlocks env start «end» w).2.store.keys.Nodup ∧
      w.store.keys <+: (syncBlocks env start «end» w).2.store.keys) ∧
    ((syncRpcBlocks env start «end» w).2.store.keys.Nodup ∧
      w.store.keys <+: (syncRpcBlocks env start «end» w).2.store.keys) ∧
    ((syncFailedBlocks env failed_blocks w).2.store.keys.Nodup ∧
      w.store.keys <+: (syncFailedBlocks env failed_blocks w).2.store.keys) := by
  have h1 := syncBlocks_keysKept env start «end» w
  have h2 := syncRpcBlocks_keysKept env start «end» w
  have h3 : KeysKept w.store (syncFailedBlocks env failed_blocks w).2.store :=
    retryLoop_steps keysKept_order env (retryTry_keysKept env) failed_blocks _ w
  exact ⟨⟨h1.2 hu, h1.1⟩, ⟨h2.2 hu, h2.1⟩, ⟨h3.2 hu, h3.1⟩⟩

/-- C14 at a store with records of A and B: the walk of blocks 1 and 2, whose block 2
shows B and C, leaves records of A, B and C. -/
theorem address_keys_stay_unique_witness :
    interruptedWorld.store.keys.Nodup ∧
    (syncBlocks scenarioEnv 1 2 interruptedWorld).2.store.keys = ["A", "B", "C"] ∧
    (syncBlocks scenarioEnv 1 2 interruptedWorld).2.store.keys.Nodup ∧
    interruptedWorld.store.keys <+: (syncBlocks scenarioEnv 1 2 interruptedWorld).2.store.keys :=
  ⟨by decide, by decide!,
    (address_keys_stay_unique scenarioEnv 1 2 [] interruptedWorld (by decide)).1.1,
    (address_keys_stay_unique scenarioEnv 1 2 [] interruptedWorld (by decide)).1.2⟩

end BitcoinAddress
